import Mathlib

/-!
# myshell: the tree-copy engine, the process controller and the command loop

A shallow embedding of `filecopy`, `recursive_directory_copy` and `treecopy`
of `myshell.c` and of `treecopy.h`, of `start_process`, `wait_for_process`,
`wait_for_specific_process` and `kill_process`, and of the command loop of
`main`, with the properties proved about them.

* The object a source path names is passed next to the path as a `Node`
  (the source side is only read); a directory node lists its entries in the
  order `readdir` yields them.
* The destination side is a map from path strings to the objects created by
  `open(O_CREAT|O_WRONLY)` and `mkdir`.
* Every system call takes its outcome from the head of `World.script`
  (hard error, `EINTR`, short transfer); an empty script makes every call
  succeed in full.  `World.trace` records the calls, `World.out` the printed
  lines, `World.handles` the open descriptors and directory streams.
* `exit(1)` is a result of its own, distinct from returning to the caller.
* The two loops of `filecopy` run on a bound computed from the script and the
  bytes left; the bound is never exhausted (`treecopy_not_stuck`).
* The `int` counters of `copy_info` are integers wrapped to 32 bit.
* The process controller runs on a state of its own (`Shell`): the kernel's
  answers to `fork`, `execvp`, `wait`, `waitpid` and `kill` are scheduled in
  it, and a call is followed in one process (after `fork`, the parent or the
  child, as the answer says).
* A pass of the loop of `main` is a function of the line `fgets` delivers: it
  names the operation the pass calls and its arguments.
-/

namespace MyShell

/-! ## Data model -/

/-- A C string: a path or a directory-entry name. -/
abbrev Path := List Char

abbrev Byte := Nat

/-- Two's-complement wrap of an `int` (32 bit). -/
def wrap32 (x : Int) : Int := (x + 2147483648) % 4294967296 - 2147483648

/-- The struct `copy_info` of the source (three `int` fields). -/
structure copy_info where
  num_dir : Int
  num_files : Int
  num_bytes : Int
deriving DecidableEq, Repr

/-- File types other than regular file and directory. -/
inductive Kind
  | fifo
  | chr
  | blk
  | lnk
  | sock
deriving DecidableEq, Repr

/-- The `DT_*` code of a kind (`DT_FIFO = 1`, `DT_CHR = 2`, `DT_BLK = 6`,
`DT_LNK = 10`, `DT_SOCK = 12`); `S_IF* = DT_* * 4096`. -/
def Kind.code : Kind → Nat
  | .fifo => 1
  | .chr => 2
  | .blk => 6
  | .lnk => 10
  | .sock => 12

/-- An object of the source side.  A directory carries its entries in
`readdir` order (the pseudo-entries `.` and `..` may be among them); an object
of another kind carries the bytes that reading it yields before end of file. -/
inductive Node
  | file (perm : Nat) (content : List Byte)
  | dir (perm : Nat) (entries : List (Path × Node))
  | other (kind : Kind) (perm : Nat) (stream : List Byte)

/-- The field `d_type` of the `dirent` of an object (`DT_DIR = 4`, `DT_REG = 8`). -/
def Node.d_type : Node → Nat
  | .file _ _ => 8
  | .dir _ _ => 4
  | .other k _ _ => k.code

/-- The field `st_mode` that `stat` reports: type bits and permission bits. -/
def Node.st_mode : Node → Nat
  | .file perm _ => 8 * 4096 + perm % 4096
  | .dir perm _ => 4 * 4096 + perm % 4096
  | .other k perm _ => k.code * 4096 + perm % 4096

/-- The macro `S_ISDIR(m)`, that is `(m & 0170000) == 0040000`. -/
def S_ISDIR (m : Nat) : Bool := m / 4096 % 16 == 4

/-- What `read` delivers from an object; reading a directory fails (`EISDIR`). -/
def Node.data : Node → Option (List Byte)
  | .file _ content => some content
  | .dir _ _ => none
  | .other _ _ stream => some stream

/-- An object of the destination side, with the mode it was created with. -/
inductive DNode
  | file (mode : Nat) (content : List Byte)
  | dir (mode : Nat)
deriving DecidableEq, Repr

/-- The scheduled outcome of one system call. -/
inductive Ev
  | ok
  | err
  | eintr
  | shortRead (k : Nat)
  | shortWrite (k : Nat)
deriving DecidableEq, Repr

/-- A system call that was made, with its arguments and its return value. -/
inductive Call
  | open_rd (path : Path) (ret : Int)
  | open_wr (path : Path) (mode : Nat) (ret : Int)
  | stat (path : Path) (ret : Int)
  | read (fd : Nat) (ret : Int)
  | write (fd : Nat) (count : Nat) (ret : Int)
  | close (fd : Nat) (ret : Int)
  | opendir (path : Path) (ret : Int)
  | mkdir (path : Path) (mode : Nat) (ret : Int)
  | readdir (dirp : Nat) (name : Option Path)
  | closedir (dirp : Nat) (ret : Int)
  | malloc (size : Nat) (ok : Bool)
deriving DecidableEq, Repr

/-- A printed line: the progress line `"%s -> %s"`, the summary line of
`treecopy`, or a `copy:` diagnostic on the error stream. -/
inductive Msg
  | copied (source dest : Path)
  | summary (num_dir num_files num_bytes : Int) (source dest : Path)
  | diag (text : String) (path : Path)
deriving DecidableEq, Repr

/-- The state of the process and of the destination side of the file system. -/
structure World where
  fs : Path → Option DNode
  script : List Ev
  handles : List Nat
  next : Nat
  trace : List Call
  out : List Msg

/-- What a call of the engine ends with: a return to the caller with the
`copy_info` it leaves, `exit(code)`, or an exhausted loop bound. -/
inductive Result
  | ret (code : Int) (ci : copy_info) (w : World)
  | exit (code : Int) (w : World)
  | stuck

/-- The result of `read` or `write`: a byte count, or `-1` with `errno`
`EINTR` or another value. -/
inductive RW
  | done (n : Nat)
  | eintr
  | err
deriving DecidableEq, Repr

/-! ## System calls -/

/-- Take the outcome scheduled for the next system call. -/
def World.next_ev (w : World) : Ev × World :=
  match w.script with
  | [] => (.ok, w)
  | e :: rest => (e, { w with script := rest })

def Ev.fails : Ev → Bool
  | .err => true
  | .eintr => true
  | _ => false

def World.log (w : World) (c : Call) : World := { w with trace := c :: w.trace }

def World.print (w : World) (m : Msg) : World := { w with out := m :: w.out }

/-- Allocate a fresh descriptor. -/
def World.alloc (w : World) : Nat × World :=
  (w.next, { w with handles := w.next :: w.handles, next := w.next + 1 })

/-- Model of `open(source, O_RDONLY, 0)`. -/
def sys_open_rd (path : Path) (w : World) : Option Nat × World :=
  match w.next_ev with
  | (e, w) =>
    if e.fails then (none, w.log (.open_rd path (-1)))
    else
      match w.alloc with
      | (fd, w) => (some fd, w.log (.open_rd path fd))

/-- Model of `stat(path, &stat_buffer)`: fails on an empty or dangling path. -/
def sys_stat (path : Path) (obj : Option Node) (w : World) : Option Nat × World :=
  match w.next_ev with
  | (e, w) =>
    match obj with
    | none => (none, w.log (.stat path (-1)))
    | some n =>
      if e.fails || path.isEmpty then (none, w.log (.stat path (-1)))
      else (some n.st_mode, w.log (.stat path 0))

/-- Model of `open(dest, O_CREAT|O_WRONLY, mode)`: an existing directory cannot
be opened for writing, an existing file is opened as it is (there is no
`O_TRUNC`), an absent file is created empty with `mode`. -/
def sys_open_wr (path : Path) (mode : Nat) (w : World) : Option Nat × World :=
  match w.next_ev with
  | (e, w) =>
    if e.fails then (none, w.log (.open_wr path mode (-1)))
    else
      match w.fs path with
      | some (.dir _) => (none, w.log (.open_wr path mode (-1)))
      | some (.file _ _) =>
        match w.alloc with
        | (fd, w) => (some fd, w.log (.open_wr path mode fd))
      | none =>
        match w.alloc with
        | (fd, w) =>
          (some fd, { w with fs := fun p => if p = path then some (.file mode []) else w.fs p }.log
            (.open_wr path mode fd))

/-- Model of `read(input_fd, buffer, 4096)` on the bytes not yet read: the
result, the buffer contents and the bytes that remain. -/
def sys_read (fd : Nat) (rest : Option (List Byte)) (w : World) :
    RW × List Byte × Option (List Byte) × World :=
  match w.next_ev with
  | (e, w) =>
    match rest with
    | none => (.err, [], rest, w.log (.read fd (-1)))
    | some bytes =>
      match e with
      | .err => (.err, [], rest, w.log (.read fd (-1)))
      | .eintr => (.eintr, [], rest, w.log (.read fd (-1)))
      | .shortRead k =>
        let n := min (max k 1) (min 4096 bytes.length)
        (.done n, bytes.take n, some (bytes.drop n), w.log (.read fd n))
      | _ =>
        let n := min 4096 bytes.length
        (.done n, bytes.take n, some (bytes.drop n), w.log (.read fd n))

/-- The content of a file after `data` is written at offset `off`. -/
def overwrite (content : List Byte) (off : Nat) (data : List Byte) : List Byte :=
  content.take off ++ data ++ content.drop (off + data.length)

/-- An open destination file: descriptor, path and file offset. -/
structure OutFd where
  fd : Nat
  path : Path
  off : Nat
deriving DecidableEq, Repr

/-- The file system after `data` is written through `d`. -/
def World.put (w : World) (d : OutFd) (data : List Byte) : World :=
  { w with fs := fun p =>
      if p = d.path then
        match w.fs p with
        | some (.file mode content) => some (.file mode (overwrite content d.off data))
        | x => x
      else w.fs p }

/-- Model of `write(dest_fd, buffer, count)` with `count = buffer.length`: the
bytes go to the file at the descriptor's offset, which advances. -/
def sys_write (d : OutFd) (buffer : List Byte) (w : World) : RW × OutFd × World :=
  match w.next_ev with
  | (e, w) =>
    match e with
    | .err => (.err, d, w.log (.write d.fd buffer.length (-1)))
    | .eintr => (.eintr, d, w.log (.write d.fd buffer.length (-1)))
    | .shortWrite k =>
      let n := min k buffer.length
      (.done n, { d with off := d.off + n }, (w.put d (buffer.take n)).log (.write d.fd buffer.length n))
    | _ =>
      (.done buffer.length, { d with off := d.off + buffer.length },
        (w.put d buffer).log (.write d.fd buffer.length buffer.length))

/-- Model of `close(fd)`: fails on a descriptor that is not open. -/
def sys_close (fd : Nat) (w : World) : Bool × World :=
  match w.next_ev with
  | (e, w) =>
    if e.fails || !(w.handles.contains fd) then (false, w.log (.close fd (-1)))
    else (true, { w with handles := w.handles.erase fd }.log (.close fd 0))

/-- Model of `opendir(dirname)`: fails on an object that is not a directory. -/
def sys_opendir (path : Path) (isdir : Bool) (w : World) : Option Nat × World :=
  match w.next_ev with
  | (e, w) =>
    if e.fails || !isdir then (none, w.log (.opendir path (-1)))
    else
      match w.alloc with
      | (dirp, w) => (some dirp, w.log (.opendir path dirp))

/-- Model of `mkdir(destname, mode)`: fails when the path exists. -/
def sys_mkdir (path : Path) (mode : Nat) (w : World) : Bool × World :=
  match w.next_ev with
  | (e, w) =>
    if e.fails || (w.fs path).isSome then (false, w.log (.mkdir path mode (-1)))
    else
      (true, { w with fs := fun p => if p = path then some (.dir mode) else w.fs p }.log
        (.mkdir path mode 0))

/-- Model of `closedir(current_dir)`. -/
def sys_closedir (dirp : Nat) (w : World) : Bool × World :=
  match w.next_ev with
  | (e, w) =>
    if e.fails || !(w.handles.contains dirp) then (false, w.log (.closedir dirp (-1)))
    else (true, { w with handles := w.handles.erase dirp }.log (.closedir dirp 0))

/-- Model of `errno = 0; dir_info = readdir(current_dir)`, where `name` is the
next entry of the stream (`none` at its end): `false` when `errno` is set. -/
def sys_readdir (dirp : Nat) (name : Option Path) (w : World) : Bool × World :=
  match w.next_ev with
  | (e, w) =>
    if e.fails then (false, w.log (.readdir dirp none))
    else (true, w.log (.readdir dirp name))

/-- Model of `malloc(size)`: `false` for a `NULL` result. -/
def sys_malloc (size : Nat) (w : World) : Bool × World :=
  match w.next_ev with
  | (e, w) => (!e.fails, w.log (.malloc size (!e.fails)))

/-! ## The copy engine -/

/-- A loop either falls through to the code after it or leaves the function. -/
inductive Step (α : Type)
  | next (a : α) (w : World)
  | stop (r : Result)

/-- The idiom `close_err = close(fd); if ( close_err < 0 ) { fprintf(...); exit(1); }`. -/
def close_or_exit (fd : Nat) (name : Path) (w : World) (k : World → Result) : Result :=
  match sys_close fd w with
  | (false, w) => .exit 1 (w.print (.diag "Unable to close file" name))
  | (true, w) => k w

/-- The idiom `close_err = closedir(current_dir); if ( close_err == -1 ) { fprintf(...); exit(1); }`. -/
def closedir_or_exit (current_dir : Nat) (dirname : Path) (w : World) (k : World → Result) :
    Result :=
  match sys_closedir current_dir w with
  | (false, w) => .exit 1 (w.print (.diag "Unable to close directory" dirname))
  | (true, w) => k w

/-- The error exit of the copy loop: close both files, then `return 1`. -/
def abort_copy (source dest : Path) (input_fd dest_fd : Nat) (ci : copy_info) (w : World) :
    Result :=
  close_or_exit input_fd source w fun w =>
  close_or_exit dest_fd dest w fun w => .ret 1 ci w

/-- The loop `while (current_bytes_written < read_ret)` of `filecopy`; `buffer`
holds the `read_ret` bytes of the chunk, and every pass hands the whole buffer
to `write` again. -/
def write_loop (source dest : Path) (input_fd : Nat) (ci : copy_info) (buffer : List Byte) :
    Nat → OutFd → Int → World → Step (OutFd × Int)
  | 0, _, _, _ => .stop .stuck
  | fuel + 1, dest_fd, current_bytes_written, w =>
    if current_bytes_written < (buffer.length : Int) then
      match sys_write dest_fd buffer w with
      | (.eintr, dest_fd, w) =>
        write_loop source dest input_fd ci buffer fuel dest_fd current_bytes_written w
      | (.err, dest_fd, w) =>
        .stop (abort_copy source dest input_fd dest_fd.fd ci
          (w.print (.diag "Unable to write to file" source)))
      | (.done write_ret, dest_fd, w) =>
        write_loop source dest input_fd ci buffer fuel dest_fd
          (current_bytes_written + write_ret) w
    else .next (dest_fd, current_bytes_written) w

/-- The loop `while (1)` of `filecopy`: read a chunk, write it, retry the
write; falls through (with `total_bytes_written`) at end of file. -/
def copy_loop (source dest : Path) (input_fd : Nat) (ci : copy_info) :
    Nat → Option (List Byte) → OutFd → Int → World → Step Int
  | 0, _, _, _, _ => .stop .stuck
  | fuel + 1, rest, dest_fd, total_bytes_written, w =>
    match sys_read input_fd rest w with
    | (.eintr, _, rest, w) =>
      copy_loop source dest input_fd ci fuel rest dest_fd total_bytes_written w
    | (.err, _, _, w) =>
      .stop (abort_copy source dest input_fd dest_fd.fd ci
        (w.print (.diag "Unable to read from file" source)))
    | (.done 0, _, _, w) => .next total_bytes_written w
    | (.done (_ + 1), buffer, rest, w) =>
      match sys_write dest_fd buffer w with
      | (.err, dest_fd, w) =>
        .stop (abort_copy source dest input_fd dest_fd.fd ci
          (w.print (.diag "Unable to write to file" dest)))
      | (write_ret, dest_fd, w) =>
        let current_bytes_written : Int :=
          match write_ret with
          | .done k => k
          | _ => 0
        match write_loop source dest input_fd ci buffer (w.script.length + 2) dest_fd
            current_bytes_written w with
        | .stop r => .stop r
        | .next (dest_fd, current_bytes_written) w =>
          copy_loop source dest input_fd ci fuel rest dest_fd
            (wrap32 (total_bytes_written + current_bytes_written)) w

/-- The function `filecopy` of `myshell.c`; `src` is the object `source` names. -/
def filecopy (source dest : Path) (src : Node) (ci : copy_info) (w : World) : Result :=
  match sys_open_rd source w with
  | (none, w) => .ret 1 ci (w.print (.diag "Unable to open file" source))
  | (some input_fd, w) =>
    match sys_stat source (some src) w with
    | (none, w) =>
      close_or_exit input_fd source (w.print (.diag "Unable to stat file" source)) fun w =>
        .ret 1 ci w
    | (some st_mode, w) =>
      match sys_open_wr dest st_mode w with
      | (none, w) =>
        close_or_exit input_fd source (w.print (.diag "Unable to create file" dest)) fun w =>
          .ret 1 ci w
      | (some dest_fd, w) =>
        match copy_loop source dest input_fd ci
            (w.script.length + (src.data.getD []).length + 1) src.data ⟨dest_fd, dest, 0⟩ 0 w with
        | .stop r => r
        | .next total_bytes_written w =>
          match sys_close input_fd (w.print (.copied source dest)) with
          | (false, w) =>
            match sys_close dest_fd (w.print (.diag "Unable to close file" source)) with
            | (false, w) => .exit 1 (w.print (.diag "Unable to close file" dest))
            | (true, w) => .exit 1 w
          | (true, w) =>
            close_or_exit dest_fd dest w fun w =>
              .ret 0
                { ci with
                  num_bytes := wrap32 (ci.num_bytes + total_bytes_written)
                  num_files := wrap32 (ci.num_files + 1) } w

mutual
/-- The function `recursive_directory_copy` of `myshell.c`; `src` is the object
`dirname` names. -/
def recursive_directory_copy (dirname destname : Path) (src : Node) (ci : copy_info)
    (w : World) : Result :=
  match src with
  | .dir perm entries =>
    match sys_opendir dirname true w with
    | (none, w) => .ret 1 ci (w.print (.diag "Unable to open directory" dirname))
    | (some current_dir, w) =>
      match sys_stat dirname (some (.dir perm entries)) w with
      | (none, w) =>
        closedir_or_exit current_dir dirname
          (w.print (.diag "Unable to stat directory" dirname)) fun w => .ret 1 ci w
      | (some st_mode, w) =>
        match sys_mkdir destname st_mode w with
        | (false, w) =>
          closedir_or_exit current_dir dirname
            (w.print (.diag "Unable to create directory" destname)) fun w => .ret 1 ci w
        | (true, w) =>
          dir_loop dirname destname current_dir true entries
            { ci with num_dir := wrap32 (ci.num_dir + 1) } (w.print (.copied dirname destname))
  | _ =>
    match sys_opendir dirname false w with
    | (_, w) => .ret 1 ci (w.print (.diag "Unable to open directory" dirname))
termination_by structural src
/-- The `readdir` loop of `recursive_directory_copy` over the entries not yet
enumerated; `first` tells the call before the loop from the one at its end. -/
def dir_loop (dirname destname : Path) (current_dir : Nat) (first : Bool)
    (entries : List (Path × Node)) (ci : copy_info) (w : World) : Result :=
  match entries with
  | [] =>
    match sys_readdir current_dir none w with
    | (false, w) =>
      closedir_or_exit current_dir dirname
        (w.print (.diag (if first then "Unable to read directory"
          else "Unable to read from directory") dirname)) fun w => .ret 1 ci w
    | (true, w) => closedir_or_exit current_dir dirname w fun w => .ret 0 ci w
  | (d_name, node) :: rest =>
    match sys_readdir current_dir (some d_name) w with
    | (false, w) =>
      closedir_or_exit current_dir dirname
        (w.print (.diag (if first then "Unable to read directory"
          else "Unable to read from directory") dirname)) fun w => .ret 1 ci w
    | (true, w) =>
      if d_name ≠ ['.'] ∧ d_name ≠ ['.', '.'] then
        match sys_malloc (dirname.length + d_name.length + 2) w with
        | (false, w) =>
          closedir_or_exit current_dir dirname
            (w.print (.diag "Unable to allocate memory: exiting program" [])) fun w =>
              .ret 1 ci w
        | (true, w) =>
          match sys_malloc (destname.length + d_name.length + 2) w with
          | (false, w) =>
            closedir_or_exit current_dir dirname
              (w.print (.diag "Unable to allocate memory: exiting program" [])) fun w =>
                .ret 1 ci w
          | (true, w) =>
            if node.d_type = 4 then
              match recursive_directory_copy (dirname ++ '/' :: d_name)
                  (destname ++ '/' :: d_name) node ci w with
              | .ret dir_copy_ret ci w =>
                if dir_copy_ret ≠ 0 then
                  closedir_or_exit current_dir dirname w fun w => .ret 1 ci w
                else dir_loop dirname destname current_dir false rest ci w
              | r => r
            else if node.d_type = 8 then
              match filecopy (dirname ++ '/' :: d_name) (destname ++ '/' :: d_name) node ci w with
              | .ret file_copy_ret ci w =>
                if file_copy_ret ≠ 0 then
                  closedir_or_exit current_dir dirname w fun w => .ret 1 ci w
                else dir_loop dirname destname current_dir false rest ci w
              | r => r
            else
              closedir_or_exit current_dir dirname
                (w.print (.diag "Unable to copy file" (dirname ++ '/' :: d_name))) fun w =>
                  .ret 1 ci w
      else dir_loop dirname destname current_dir false rest ci w
termination_by structural entries
end

/-- The function `treecopy` of `myshell.c`; `src` is the object `source_file`
names (`none` when there is none).  The result carries the final value of the
local `copy_info`. -/
def treecopy (source_file dest_file : Path) (src : Option Node) (w : World) : Result :=
  let ci : copy_info := ⟨0, 0, 0⟩
  match sys_stat source_file src w, src with
  | (some st_mode, w), some node =>
    if !S_ISDIR st_mode then
      match filecopy source_file dest_file node ci w with
      | .ret code ci w =>
        if code ≠ 0 then .ret 0 ci w
        else
          .ret 0 ci
            (w.print (.summary ci.num_dir ci.num_files ci.num_bytes source_file dest_file))
      | r => r
    else if source_file.getLast? = some '/' then
      match sys_malloc (source_file.length + 1) w with
      | (false, w) => .exit 1 (w.print (.diag "Unable to allocate memory: exiting program" []))
      | (true, w) =>
        match recursive_directory_copy source_file.dropLast dest_file node ci w with
        | .ret copy_ret ci w =>
          if copy_ret ≠ 0 then .ret 1 ci w
          else
            .ret 0 ci
              (w.print (.summary ci.num_dir ci.num_files ci.num_bytes source_file dest_file))
        | r => r
    else
      match recursive_directory_copy source_file dest_file node ci w with
      | .ret copy_ret ci w =>
        if copy_ret ≠ 0 then .ret 1 ci w
        else
          .ret 0 ci
            (w.print (.summary ci.num_dir ci.num_files ci.num_bytes source_file dest_file))
      | r => r
  | (_, w), _ => .ret 1 ci (w.print (.diag "Unable to stat file" source_file))

/-! ## Reading results -/

/-- The value returned to the caller, if the call returns. -/
def Result.code : Result → Option Int
  | .ret c _ _ => some c
  | _ => none

/-- The `copy_info` a call leaves when it returns. -/
def Result.info : Result → Option copy_info
  | .ret _ ci _ => some ci
  | _ => none

/-- The state a call leaves, on return or on `exit`. -/
def Result.world : Result → Option World
  | .ret _ _ w => some w
  | .exit _ w => some w
  | .stuck => none

/-- The call ended the process with `exit(code)`. -/
def Result.exited : Result → Option Int
  | .exit c _ => some c
  | _ => none

/-- The state `w'` comes after `w`: it has consumed a prefix of the script, and
every object of the destination side is still there. -/
structure Later (w w' : World) : Prop where
  script : w'.script <:+ w.script
  fs : ∀ p, (w.fs p).isSome → (w'.fs p).isSome

/-- The open handles a call leaves when it returns. -/
def Result.handles : Result → Option (List Nat)
  | .ret _ _ w => some w.handles
  | _ => none

/-- The object at `p` on the destination side when the call has ended. -/
def Result.file (r : Result) (p : Path) : Option DNode :=
  match r.world with
  | some w => w.fs p
  | none => none

/-- The system calls made up to the end of the call, oldest first. -/
def Result.calls (r : Result) : List Call :=
  match r.world with
  | some w => w.trace.reverse
  | none => []

/-- The lines printed up to the end of the call, oldest first. -/
def Result.printed (r : Result) : List Msg :=
  match r.world with
  | some w => w.out.reverse
  | none => []

/-- An empty destination side, no open handle, and the given script. -/
def World.init (script : List Ev) : World :=
  { fs := fun _ => none, script := script, handles := [], next := 3, trace := [], out := [] }

/-- The calls `recursive_directory_copy` makes on `dirname` and `destname`
themselves before it enumerates the directory: `opendir` and `stat` of the
source, a failed `mkdir` of the destination, and `closedir`. -/
def Call.isSetup (dirname destname : Path) : Call → Bool
  | .opendir p _ => p == dirname
  | .stat p _ => p == dirname
  | .mkdir p _ r => p == destname && r == -1
  | .closedir _ _ => true
  | _ => false

/-- The numbers of directories, regular files and bytes of regular files. -/
structure Census where
  dirs : Nat
  files : Nat
  bytes : Nat
deriving DecidableEq, Repr

mutual
/-- The census of the tree below (and including) an object; the pseudo-entries
`.` and `..` of a directory are not part of it. -/
def Node.census : Node → Census
  | .file _ content => ⟨0, 1, content.length⟩
  | .dir _ entries =>
    ⟨(census_entries entries).dirs + 1, (census_entries entries).files,
      (census_entries entries).bytes⟩
  | .other _ _ _ => ⟨0, 0, 0⟩
termination_by structural n => n
/-- The census of the entries of a directory. -/
def census_entries : List (Path × Node) → Census
  | [] => ⟨0, 0, 0⟩
  | (d_name, node) :: rest =>
    if d_name ≠ ['.'] ∧ d_name ≠ ['.', '.'] then
      ⟨node.census.dirs + (census_entries rest).dirs,
        node.census.files + (census_entries rest).files,
        node.census.bytes + (census_entries rest).bytes⟩
    else census_entries rest
termination_by structural l => l
end

/-- The counters after `c` more objects are counted, in `int` arithmetic. -/
def copy_info.plus (ci : copy_info) (c : Census) : copy_info :=
  ⟨wrap32 (ci.num_dir + c.dirs), wrap32 (ci.num_files + c.files),
    wrap32 (ci.num_bytes + c.bytes)⟩

/-- The counters are values of type `int`. -/
def copy_info.InRange (ci : copy_info) : Prop :=
  wrap32 ci.num_dir = ci.num_dir ∧ wrap32 ci.num_files = ci.num_files ∧
    wrap32 ci.num_bytes = ci.num_bytes

/-- The handle a call opened: the result of a successful `open` or `opendir`. -/
def Call.opens : Call → List Nat
  | .open_rd _ r => if 0 ≤ r then [r.toNat] else []
  | .open_wr _ _ r => if 0 ≤ r then [r.toNat] else []
  | .opendir _ r => if 0 ≤ r then [r.toNat] else []
  | _ => []

/-- The handle a call closed: the argument of a successful `close` or `closedir`. -/
def Call.closes : Call → List Nat
  | .close fd r => if r = 0 then [fd] else []
  | .closedir fd r => if r = 0 then [fd] else []
  | _ => []

/-- The handles opened in a list of calls, in the order of the list. -/
def opened : List Call → List Nat
  | [] => []
  | c :: t => c.opens ++ opened t

/-- The handles closed in a list of calls, in the order of the list. -/
def closed : List Call → List Nat
  | [] => []
  | c :: t => c.closes ++ closed t

/-- Handle accounting between two states: the calls made in between opened
the handles `o` and closed the handles `c` (latest first), and the handles
opened are the fresh ones, each once. -/
structure Acct (w w' : World) (o c : List Nat) : Prop where
  trace : ∃ new, w'.trace = new ++ w.trace ∧ opened new = o ∧ closed new = c
  next : w'.next = w.next + o.length
  fresh : o = (List.range' w.next o.length).reverse

/-- The calls made between the state `w` and the end of the call, latest first. -/
def Result.since (r : Result) (w : World) : List Call :=
  match r.world with
  | some w' => w'.trace.take (w'.trace.length - w.trace.length)
  | none => []

/-- A call that is not a short `write`: a `write` that failed, transferred
nothing, or transferred all the bytes it was given; any other call. -/
def Call.fullWrite : Call → Bool
  | .write _ count ret => decide (ret ≤ 0) || decide (ret = (count : Int))
  | _ => true

/-- No `write` among the calls was short. -/
def FullWrites (calls : List Call) : Prop := ∀ c ∈ calls, c.fullWrite = true

instance (calls : List Call) : Decidable (FullWrites calls) := by
  unfold FullWrites; infer_instance

/-- The state `w'` comes after `w`, and no `write` made in between was short. -/
def FullSince (w w' : World) : Prop := ∃ new, w'.trace = new ++ w.trace ∧ FullWrites new

/-! ## The process controller -/

/-- What `myshell.c` takes from the C library for the process controller: the
status tests of `<sys/wait.h>`, the constant `ECHILD` of `<errno.h>` and the
function `strsignal`.  They are not part of the repository and are a
parameter of the model. -/
structure libc where
  WIFEXITED : Int → Bool
  WEXITSTATUS : Int → Int
  WIFSIGNALED : Int → Bool
  WTERMSIG : Int → Int
  ECHILD : Int
  strsignal : Int → String

/-- The encoding of a wait status on Linux, a value for the parameter `libc`:
the low seven bits hold the terminating signal (0 for a normal exit, 127 for a
stopped child), the next bit the core-dump flag, the second byte the exit
code; `ECHILD` is 10. -/
def linux : libc where
  WIFEXITED status := status % 128 == 0
  WEXITSTATUS status := status / 256 % 256
  WIFSIGNALED status := decide (1 ≤ status % 128 ∧ status % 128 ≤ 126)
  WTERMSIG status := status % 128
  ECHILD := 10
  strsignal sig := if sig = 15 then "Terminated" else if sig = 9 then "Killed" else "Unknown signal"

/-- What the kernel answers to one system call of the process controller: the
return value, the value stored through the `status` pointer of `wait` and
`waitpid`, and `errno` after a failure. -/
structure Answer where
  ret : Int
  status : Int
  errno : Int
deriving DecidableEq, Repr

/-- A system call of the process controller, with its arguments and result. -/
inductive PCall
  | fork (ret : Int)
  | execvp (file : Path) (argv : List Path) (ret : Int)
  | wait (ret : Int)
  | waitpid (pid : Int) (options : Int) (ret : Int)
  | kill (pid : Int) (sig : Int) (ret : Int)
deriving DecidableEq, Repr

/-- A line the process controller prints.  The lines of `printf` go to the
standard output; `diag` is a line of `fprintf(stderr, ...)` with the value
printed through `%d` or `%s` and the `errno` handed to `strerror`. -/
inductive PMsg
  | started (pid : Int)
  | exited (pid : Int) (status : Int)
  | signaled (pid : Int) (sig : Int) (name : String)
  | unknown_state (pid : Int)
  | no_children
  | no_such_child
  | killed (pid : Int)
  | diag (text : String) (pid : Option Int) (word : Option Path) (errno : Int)
deriving DecidableEq, Repr

/-- The state of the shell process as the process controller sees it: the
answers the kernel will give, the calls made and the lines printed, latest
first. -/
structure Shell where
  answers : List Answer
  calls : List PCall
  out : List PMsg
deriving DecidableEq, Repr

/-- How a call of the process controller ends: it returns a value, the process
calls `exit(code)`, `execvp` replaces the process image with the program
`file` run on `argv`, or a `NULL` pointer is handed to `execvp`. -/
inductive PResult
  | ret (value : Int) (s : Shell)
  | exit (code : Int) (s : Shell)
  | exec (file : Path) (argv : List Path) (s : Shell)
  | fault (s : Shell)
deriving DecidableEq, Repr

/-- Take the kernel's answer to the next call; with none scheduled the call
succeeds with result 0. -/
def Shell.next_answer (s : Shell) : Answer × Shell :=
  match s.answers with
  | [] => (⟨0, 0, 0⟩, s)
  | a :: rest => (a, { s with answers := rest })

def Shell.log (s : Shell) (c : PCall) : Shell := { s with calls := c :: s.calls }

def Shell.print (s : Shell) (m : PMsg) : Shell := { s with out := m :: s.out }

/-- Model of `fork()`, followed in one of the two processes: the answer is the
child's pid in the parent, 0 in the child, negative when no child was made. -/
def sys_fork (s : Shell) : Answer × Shell :=
  match s.next_answer with
  | (a, s) => (a, s.log (.fork a.ret))

/-- Model of `execvp(file, argv)`: it returns (with -1) only when the program
could not be loaded. -/
def sys_execvp (file : Path) (argv : List Path) (s : Shell) : Answer × Shell :=
  match s.next_answer with
  | (a, s) => (a, s.log (.execvp file argv a.ret))

/-- Model of `wait(&status)`. -/
def sys_wait (s : Shell) : Answer × Shell :=
  match s.next_answer with
  | (a, s) => (a, s.log (.wait a.ret))

/-- Model of `waitpid(child_pid, &status, 0)`. -/
def sys_waitpid (child_pid : Int) (options : Int) (s : Shell) : Answer × Shell :=
  match s.next_answer with
  | (a, s) => (a, s.log (.waitpid child_pid options a.ret))

/-- Model of `kill(pid, sig)`. -/
def sys_kill (pid : Int) (sig : Int) (s : Shell) : Answer × Shell :=
  match s.next_answer with
  | (a, s) => (a, s.log (.kill pid sig a.ret))

/-- The function `start_process` of `myshell.c`.  `words` holds the tokens of
the command line; the array of the source ends with a `NULL` entry after them,
so `&words[1]` is the vector of the tokens from index 1 on. -/
def start_process (words : List Path) (s : Shell) : PResult :=
  match sys_fork s with
  | (a, s) =>
    let pid := a.ret
    if pid < 0 then
      .exit 1 (s.print (.diag "myshell: unable to fork" none none a.errno))
    else if pid = 0 then
      match words.get? 1 with
      | none => .fault s
      | some file =>
        match sys_execvp file (words.drop 1) s with
        | (e, s) =>
          if e.ret < 0 then
            .exit 1 (s.print (.diag "myshell: unable to execute" none (words.get? 0) e.errno))
          else .exec file (words.drop 1) s
    else .ret pid (s.print (.started pid))

/-- The function `wait_for_process` of `myshell.c`. -/
def wait_for_process (m : libc) (s : Shell) : PResult :=
  match sys_wait s with
  | (a, s) =>
    let pid := a.ret
    let status := a.status
    if pid < 0 then
      if a.errno = m.ECHILD then .ret 0 (s.print .no_children)
      else .exit 1 (s.print (.diag "myshell: unable to wait for any child" none none a.errno))
    else if m.WIFEXITED status then .ret 0 (s.print (.exited pid (m.WEXITSTATUS status)))
    else if m.WIFSIGNALED status then
      .ret 0 (s.print (.signaled pid (m.WTERMSIG status) (m.strsignal (m.WTERMSIG status))))
    else .ret 1 (s.print (.unknown_state pid))

/-- The function `wait_for_specific_process` of `myshell.c`. -/
def wait_for_specific_process (m : libc) (child_pid : Int) (s : Shell) : PResult :=
  match sys_waitpid child_pid 0 s with
  | (a, s) =>
    let pid := a.ret
    let status := a.status
    if pid < 0 then
      if a.errno = m.ECHILD then .ret 0 (s.print .no_such_child)
      else
        .exit 1 (s.print (.diag "myshell: unable to wait for child with PID" (some child_pid)
          none a.errno))
    else if m.WIFEXITED status then .ret 0 (s.print (.exited pid (m.WEXITSTATUS status)))
    else if m.WIFSIGNALED status then
      .ret 0 (s.print (.signaled pid (m.WTERMSIG status) (m.strsignal (m.WTERMSIG status))))
    else .ret 1 (s.print (.unknown_state pid))

/-- The function `kill_process` of `myshell.c`. -/
def kill_process (pid : Int) (s : Shell) : PResult :=
  match sys_kill pid 15 s with
  | (a, s) =>
    let kill_ret := a.ret
    if kill_ret < 0 then
      .ret 1 (s.print (.diag "kill: unable to kill process" (some pid) none a.errno))
    else .ret 0 (s.print (.killed pid))

/-- The value a call returns to its caller, if it returns. -/
def PResult.value : PResult → Option Int
  | .ret v _ => some v
  | _ => none

/-- The state a call of the process controller ends in. -/
def PResult.shell : PResult → Shell
  | .ret _ s => s
  | .exit _ s => s
  | .exec _ _ s => s
  | .fault s => s

/-- The call ended the process with `exit(code)`. -/
def PResult.exited : PResult → Option Int
  | .exit c _ => some c
  | _ => none

/-- The last line printed. -/
def PResult.last_line (r : PResult) : Option PMsg := r.shell.out.head?

/-- The system calls made between the state `s` and the end of the call,
oldest first. -/
def PResult.calls_since (r : PResult) (s : Shell) : List PCall :=
  (r.shell.calls.take (r.shell.calls.length - s.calls.length)).reverse

/-- The lines printed between the state `s` and the end of the call, oldest
first. -/
def PResult.lines_since (r : PResult) (s : Shell) : List PMsg :=
  (r.shell.out.take (r.shell.out.length - s.out.length)).reverse

/-- A state with the given answers scheduled and nothing done yet. -/
def Shell.init (answers : List Answer) : Shell := ⟨answers, [], []⟩

/-- A signal was sent: a successful or failed call of `kill`. -/
def PCall.signal : PCall → Option Int
  | .kill _ sig _ => some sig
  | _ => none

/-! ## The command loop of `main` -/

/-- The delimiters `" \t\n"` that `main` hands to `strtok`. -/
def is_delim (c : Char) : Bool := c == ' ' || c == '\t' || c == '\n'

/-- Model of one call of `strtok` on the text not yet scanned: the next token
and the text after the delimiter that ends it, or `none` (the result `NULL`)
when only delimiters are left. -/
def strtok (text : List Char) : Option (Path × List Char) :=
  match text.dropWhile is_delim with
  | [] => none
  | c :: rest =>
    some ((c :: rest).takeWhile (fun x => !is_delim x),
      ((c :: rest).dropWhile (fun x => !is_delim x)).drop 1)

/-- How the tokenizing loop of `main` ends: with the array `words` filled (and
`NULL` after the tokens), with `exit(1)` at the 129th token, or with an
exhausted loop bound. -/
inductive Tokens
  | words (words : List Path)
  | too_many
  | stuck
deriving DecidableEq, Repr

/-- The loop `while (words[nwords] != NULL)` of `main`: `words` holds the
`nwords` tokens stored so far and `current` is `words[nwords]`. -/
def tokenize_loop : Nat → List Path → Option (Path × List Char) → Tokens
  | 0, _, _ => .stuck
  | _ + 1, words, none => .words words
  | fuel + 1, words, some (token, text) =>
    if (words ++ [token]).length = 129 then .too_many
    else tokenize_loop fuel (words ++ [token]) (strtok text)

/-- The tokens of the line in `input_buff`. -/
def tokenize (input_buff : List Char) : Tokens :=
  tokenize_loop (input_buff.length + 1) [] (strtok input_buff)

/-- The operation a pass of the loop of `main` calls, with its arguments; an
argument `words[i]` is `none` when that entry of the array is `NULL`.  `run`
stands for `wait_for_specific_process(start_process(words))`, and the argument
of `wait_for_specific_process` and of `kill_process` is the token handed to
`atoi`. -/
inductive Op
  | list_current_dir
  | chdir (path : Option Path)
  | print_working_directory
  | treecopy (source_file dest_file : Option Path)
  | start_process (words : List Path)
  | wait_for_process
  | wait_for_specific_process (arg : Option Path)
  | run (words : List Path)
  | kill_process (arg : Option Path)
deriving DecidableEq, Repr

/-- What one pass of the loop `while (1)` of `main` does:
`eof`: `fgets` gave `NULL`, the loop is left and the process calls `exit(0)`;
`skip`: the line is `"\n"`, the pass ends at once;
`too_many`: `exit(1)` at the 129th token;
`fault`: `strcmp` is called on `words[0]`, which is `NULL`;
`error`: a line starting with `Error:` is printed and the pass ends;
`call`: an operation is called and the loop goes on;
`quit`: `exit(0)`;
`unknown`: the line `Unknown command:` is printed. -/
inductive Pass
  | eof
  | skip
  | too_many
  | fault
  | error (text : String)
  | call (op : Op)
  | quit
  | unknown (word : Path)
  | stuck
deriving DecidableEq, Repr

/-- The pass calls `strcmp` on a `NULL` pointer. -/
def Pass.is_fault : Pass → Bool
  | .fault => true
  | _ => false

/-- The chain of `strcmp` tests of `main` on the `nwords` tokens in `words`. -/
def dispatch (words : List Path) : Pass :=
  let nwords := words.length
  match words.get? 0 with
  | none => .fault
  | some w0 =>
    if w0 = ['l', 'i', 's', 't'] then
      if nwords > 1 then .error "Error: list does not accept arguments"
      else .call .list_current_dir
    else if w0 = ['c', 'h', 'd', 'i', 'r'] then
      if nwords > 2 ∨ nwords = 1 then .error "Error: chdir only accepts one argument"
      else .call (.chdir (words.get? 1))
    else if w0 = ['p', 'w', 'd'] then
      if nwords > 1 then .error "Error: pwd does not accept arguments"
      else .call .print_working_directory
    else if w0 = ['c', 'o', 'p', 'y'] then
      if nwords ≠ 3 then .error "Error: copy only accepts two arguments"
      else .call (.treecopy (words.get? 1) (words.get? 2))
    else if w0 = ['s', 't', 'a', 'r', 't'] then
      if nwords < 2 then .error "Error: start requires at least a program to run"
      else .call (.start_process words)
    else if w0 = ['w', 'a', 'i', 't'] then
      if nwords > 1 then .error "Error: wait takes no arguments"
      else .call .wait_for_process
    else if w0 = ['w', 'a', 'i', 't', 'f', 'o', 'r'] then
      if nwords ≠ 2 then .error "Error: waitfor takes exactly one argument"
      else .call (.wait_for_specific_process (words.get? 1))
    else if w0 = ['r', 'u', 'n'] then
      if nwords < 2 then .error "Error: run requires at least a program to run"
      else .call (.run words)
    else if w0 = ['k', 'i', 'l', 'l'] then
      if nwords < 2 then .error "Error: kill requires the pid of the target process"
      else .call (.kill_process (words.get? 1))
    else if w0 = ['q', 'u', 'i', 't'] ∨ w0 = ['e', 'x', 'i', 't'] then .quit
    else .unknown w0

/-- One pass of the loop of `main`; `line` is what `fgets` leaves in
`input_buff`, `none` when it returns `NULL`. -/
def main_pass (line : Option (List Char)) : Pass :=
  match line with
  | none => .eof
  | some input_buff =>
    if input_buff = ['\n'] then .skip
    else
      match tokenize input_buff with
      | .stuck => .stuck
      | .too_many => .too_many
      | .words words => dispatch words

/-! ## Growth of the counters -/

/-- No counter of `b` is smaller than in `a`. -/
def copy_info.le (a b : copy_info) : Prop :=
  a.num_dir ≤ b.num_dir ∧ a.num_files ≤ b.num_files ∧ a.num_bytes ≤ b.num_bytes

instance (a b : copy_info) : Decidable (a.le b) := by
  unfold copy_info.le; infer_instance

/-- From `ci` to `ci'` no counter went down, and each grew by at most the
matching number of the census `c`. -/
def copy_info.within (ci ci' : copy_info) (c : Census) : Prop :=
  ci.le ci' ∧ ci'.num_dir ≤ ci.num_dir + c.dirs ∧ ci'.num_files ≤ ci.num_files + c.files ∧
    ci'.num_bytes ≤ ci.num_bytes + c.bytes

instance (ci ci' : copy_info) (c : Census) : Decidable (ci.within ci' c) := by
  unfold copy_info.within; infer_instance

/-- The counters are not negative, and counting the census `c` on top of them
stays below `2^31`, the range of `int`. -/
def copy_info.room (ci : copy_info) (c : Census) : Prop :=
  (⟨0, 0, 0⟩ : copy_info).le ci ∧ ci.num_dir + c.dirs < 2147483648 ∧
    ci.num_files + c.files < 2147483648 ∧ ci.num_bytes + c.bytes < 2147483648

instance (ci : copy_info) (c : Census) : Decidable (ci.room c) := by
  unfold copy_info.room; infer_instance

/-! ## The directory path of `treecopy` -/

/-- The path an `opendir` call was made on. -/
def Call.opendir_path : Call → Option Path
  | .opendir p _ => some p
  | _ => none

/-- The path of the first `opendir` among the calls, given oldest first. -/
def first_opendir (calls : List Call) : Option Path := calls.findSome? Call.opendir_path

/-- The source path with one trailing `'/'` removed, if it has one. -/
def strip_slash (source_file : Path) : Path :=
  if source_file.getLast? = some '/' then source_file.dropLast else source_file

/-! ## The copy engine of `treecopy.h` -/

namespace treecopy_h

/-- The loop `while (current_bytes_written < read_ret)` of `filecopy` in
`treecopy.h`: a failing `write` ends the process. -/
def write_loop (source : Path) (buffer : List Byte) :
    Nat → OutFd → Int → World → Step (OutFd × Int)
  | 0, _, _, _ => .stop .stuck
  | fuel + 1, dest_fd, current_bytes_written, w =>
    if current_bytes_written < (buffer.length : Int) then
      match sys_write dest_fd buffer w with
      | (.eintr, dest_fd, w) => write_loop source buffer fuel dest_fd current_bytes_written w
      | (.err, _, w) => .stop (.exit 1 (w.print (.diag "Unable to write to file" source)))
      | (.done write_ret, dest_fd, w) =>
        write_loop source buffer fuel dest_fd (current_bytes_written + write_ret) w
    else .next (dest_fd, current_bytes_written) w

/-- The loop `while (1)` of `filecopy` in `treecopy.h`. -/
def copy_loop (source dest : Path) (input_fd : Nat) :
    Nat → Option (List Byte) → OutFd → Int → World → Step Int
  | 0, _, _, _, _ => .stop .stuck
  | fuel + 1, rest, dest_fd, total_bytes_written, w =>
    match sys_read input_fd rest w with
    | (.eintr, _, rest, w) => copy_loop source dest input_fd fuel rest dest_fd total_bytes_written w
    | (.err, _, _, w) => .stop (.exit 1 (w.print (.diag "Unable to read from file" source)))
    | (.done 0, _, _, w) => .next total_bytes_written w
    | (.done (_ + 1), buffer, rest, w) =>
      match sys_write dest_fd buffer w with
      | (.err, _, w) => .stop (.exit 1 (w.print (.diag "Unable to write to file" dest)))
      | (write_ret, dest_fd, w) =>
        let current_bytes_written : Int :=
          match write_ret with
          | .done k => k
          | _ => 0
        match write_loop source buffer (w.script.length + 2) dest_fd current_bytes_written w with
        | .stop r => .stop r
        | .next (dest_fd, current_bytes_written) w =>
          copy_loop source dest input_fd fuel rest dest_fd
            (wrap32 (total_bytes_written + current_bytes_written)) w

/-- The function `filecopy` of `treecopy.h`, which returns nothing: a return is
the result `ret 0`.  Every failure ends the process with `exit(1)`. -/
def filecopy (source dest : Path) (src : Node) (ci : copy_info) (w : World) : Result :=
  match sys_open_rd source w with
  | (none, w) => .exit 1 (w.print (.diag "Unable to open file" source))
  | (some input_fd, w) =>
    match sys_stat source (some src) w with
    | (none, w) => .exit 1 (w.print (.diag "Unable to stat file" source))
    | (some st_mode, w) =>
      match sys_open_wr dest st_mode w with
      | (none, w) => .exit 1 (w.print (.diag "Unable to create file" dest))
      | (some dest_fd, w) =>
        match copy_loop source dest input_fd
            (w.script.length + (src.data.getD []).length + 1) src.data ⟨dest_fd, dest, 0⟩ 0 w with
        | .stop r => r
        | .next total_bytes_written w =>
          close_or_exit input_fd source (w.print (.copied source dest)) fun w =>
          close_or_exit dest_fd dest w fun w =>
            .ret 0
              { ci with
                num_bytes := wrap32 (ci.num_bytes + total_bytes_written)
                num_files := wrap32 (ci.num_files + 1) } w

mutual
/-- The function `recursive_directory_copy` of `treecopy.h`. -/
def recursive_directory_copy (dirname destname : Path) (src : Node) (ci : copy_info)
    (w : World) : Result :=
  match src with
  | .dir perm entries =>
    match sys_opendir dirname true w with
    | (none, w) => .exit 1 (w.print (.diag "Unable to open directory" dirname))
    | (some current_dir, w) =>
      match sys_stat dirname (some (.dir perm entries)) w with
      | (none, w) => .exit 1 (w.print (.diag "Unable to stat directory" dirname))
      | (some st_mode, w) =>
        match sys_mkdir destname st_mode w with
        | (false, w) => .exit 1 (w.print (.diag "Unable to create directory" destname))
        | (true, w) =>
          dir_loop dirname destname current_dir true entries
            { ci with num_dir := wrap32 (ci.num_dir + 1) } (w.print (.copied dirname destname))
  | _ =>
    match sys_opendir dirname false w with
    | (_, w) => .exit 1 (w.print (.diag "Unable to open directory" dirname))
termination_by structural src
/-- The `readdir` loop of `recursive_directory_copy` in `treecopy.h`. -/
def dir_loop (dirname destname : Path) (current_dir : Nat) (first : Bool)
    (entries : List (Path × Node)) (ci : copy_info) (w : World) : Result :=
  match entries with
  | [] =>
    match sys_readdir current_dir none w with
    | (false, w) =>
      .exit 1 (w.print (.diag (if first then "Unable to read directory"
        else "Unable to read from directory") dirname))
    | (true, w) => closedir_or_exit current_dir dirname w fun w => .ret 0 ci w
  | (d_name, node) :: rest =>
    match sys_readdir current_dir (some d_name) w with
    | (false, w) =>
      .exit 1 (w.print (.diag (if first then "Unable to read directory"
        else "Unable to read from directory") dirname))
    | (true, w) =>
      if d_name ≠ ['.'] ∧ d_name ≠ ['.', '.'] then
        match sys_malloc (dirname.length + d_name.length + 2) w with
        | (false, w) => .exit 1 (w.print (.diag "Unable to allocate memory: exiting program" []))
        | (true, w) =>
          match sys_malloc (destname.length + d_name.length + 2) w with
          | (false, w) =>
            .exit 1 (w.print (.diag "Unable to allocate memory: exiting program" []))
          | (true, w) =>
            if node.d_type = 4 then
              match recursive_directory_copy (dirname ++ '/' :: d_name)
                  (destname ++ '/' :: d_name) node ci w with
              | .ret _ ci w => dir_loop dirname destname current_dir false rest ci w
              | r => r
            else if node.d_type = 8 then
              match filecopy (dirname ++ '/' :: d_name) (destname ++ '/' :: d_name) node ci w with
              | .ret _ ci w => dir_loop dirname destname current_dir false rest ci w
              | r => r
            else .exit 1 (w.print (.diag "Unable to copy file" (dirname ++ '/' :: d_name)))
      else dir_loop dirname destname current_dir false rest ci w
termination_by structural entries
end

/-- The function `treecopy` of `treecopy.h`. -/
def treecopy (source_file dest_file : Path) (src : Option Node) (w : World) : Result :=
  let ci : copy_info := ⟨0, 0, 0⟩
  match sys_stat source_file src w, src with
  | (some st_mode, w), some node =>
    if !S_ISDIR st_mode then
      match filecopy source_file dest_file node ci w with
      | .ret _ ci w =>
        .ret 0 ci (w.print (.summary ci.num_dir ci.num_files ci.num_bytes source_file dest_file))
      | r => r
    else if source_file.getLast? = some '/' then
      match sys_malloc (source_file.length + 1) w with
      | (false, w) => .exit 1 (w.print (.diag "Unable to allocate memory: exiting program" []))
      | (true, w) =>
        match recursive_directory_copy source_file.dropLast dest_file node ci w with
        | .ret _ ci w =>
          .ret 0 ci
            (w.print (.summary ci.num_dir ci.num_files ci.num_bytes source_file dest_file))
        | r => r
    else
      match recursive_directory_copy source_file dest_file node ci w with
      | .ret _ ci w =>
        .ret 0 ci (w.print (.summary ci.num_dir ci.num_files ci.num_bytes source_file dest_file))
      | r => r
  | (_, w), _ => .exit 1 (w.print (.diag "Unable to stat file" source_file))

end treecopy_h

/-! ## Comparing the two engines -/

/-- A call that releases a handle: `close` or `closedir`. -/
def Call.releases : Call → Bool
  | .close _ _ => true
  | .closedir _ _ => true
  | _ => false

/-- The state `w` is the state `wh`, whose last printed line is a diagnostic,
after some calls of `close` and `closedir` and nothing else: no further line
and no change of the destination side. -/
structure Unwinds (wh w : World) : Prop where
  out : w.out = wh.out
  fs : w.fs = wh.fs
  diag : ∃ text path rest, wh.out = .diag text path :: rest
  trace : ∃ extra, w.trace = extra ++ wh.trace ∧ ∀ x ∈ extra, x.releases = true

/-- The state `w` comes after `wh` with the same destination side, after
calls of `close` and `closedir` and lines printed since. -/
structure Behind (wh w : World) : Prop where
  out : ∃ more, w.out = more ++ wh.out
  fs : w.fs = wh.fs
  trace : ∃ extra, w.trace = extra ++ wh.trace ∧ ∀ x ∈ extra, x.releases = true

/-- The result `rc` of the engine of `myshell.c` is a failure that the engine
of `treecopy.h` ends with `exit(1)` in the state `wh`: a return of a non-zero
value after the diagnostic printed in `wh` and the release of handles, or an
`exit(1)` at `wh` or after it. -/
def FailsLike (rc : Result) (wh : World) : Prop :=
  match rc with
  | .ret c _ w => c ≠ 0 ∧ Unwinds wh w
  | .exit c w => c = 1 ∧ Behind wh w
  | .stuck => False

/-- The result `rh` of the engine of `treecopy.h` matches the result `rc` of
the engine of `myshell.c`: both return with the same counters in the same
state (`rc` with value 0), or `rc` is a failure and `rh` is `exit(1)`. -/
def Simulates (rc rh : Result) : Prop :=
  (∃ ci w, rc = .ret 0 ci w ∧ rh = .ret 0 ci w) ∨
    (∃ wh, rh = .exit 1 wh ∧ FailsLike rc wh) ∨ (rc = .stuck ∧ rh = .stuck)

/-- The same for a loop: both engines fall through with the same value in the
same state, or the loop of `myshell.c` leaves the function with a failure that
the loop of `treecopy.h` ends with `exit(1)`. -/
def StepSimulates {α : Type} (sc sh : Step α) : Prop :=
  match sc with
  | .next a w => sh = .next a w
  | .stop rc =>
    (∃ wh, sh = .stop (.exit 1 wh) ∧ FailsLike rc wh) ∨ (rc = .stuck ∧ sh = .stop .stuck)

/-- The run `rh` of the engine of `treecopy.h` has called `exit(1)` at the
diagnostic of the run `rc` of the engine of `myshell.c`: the lines printed are
the same and end with a diagnostic, the calls of `rc` are those of `rh`
followed by calls of `close` and `closedir` only, and the destination side is
the same. -/
def ExitsAtDiagnostic (rh rc : Result) : Prop :=
  rh.exited = some 1 ∧ rh.printed = rc.printed ∧
    (∃ text path, rh.printed.getLast? = some (.diag text path)) ∧
    (∃ extra, rc.calls = rh.calls ++ extra ∧ ∀ x ∈ extra, x.releases = true) ∧
    ∀ p, rh.file p = rc.file p

/-! # Lemmas -/

/-! ## Frame facts of the system calls -/

theorem next_ev_spec {w w1 : World} {e : Ev} (h : w.next_ev = (e, w1)) :
    w1.fs = w.fs ∧ w1.handles = w.handles ∧ w1.next = w.next ∧ w1.trace = w.trace ∧
      w1.out = w.out ∧ ((w.script = [] ∧ w1.script = [] ∧ e = .ok) ∨ w.script = e :: w1.script) := by
  unfold World.next_ev at h
  split at h
  · next hs => simp at h; obtain ⟨rfl, rfl⟩ := h; simp [hs]
  · next e' rest hs => simp at h; obtain ⟨rfl, rfl⟩ := h; simp [hs]

theorem next_ev_suffix {w w1 : World} {e : Ev} (h : w.next_ev = (e, w1)) :
    w1.script <:+ w.script := by
  rcases (next_ev_spec h).2.2.2.2.2 with ⟨h1, h2, _⟩ | h1
  · rw [h1, h2]
  · rw [h1]; exact List.suffix_cons _ _

theorem close_or_exit_ret {fd : Nat} {name : Path} {w : World} {k : World → Result}
    {c : Int} {ci' : copy_info} {w' : World}
    (h : close_or_exit fd name w k = .ret c ci' w') :
    ∃ w1, sys_close fd w = (true, w1) ∧ k w1 = .ret c ci' w' := by
  unfold close_or_exit at h
  rcases hc : sys_close fd w with ⟨b, w1⟩
  rw [hc] at h
  cases b
  · simp at h
  · exact ⟨w1, rfl, h⟩

theorem abort_copy_ret {source dest : Path} {i d : Nat} {ci : copy_info} {w : World}
    {c : Int} {ci' : copy_info} {w' : World}
    (h : abort_copy source dest i d ci w = .ret c ci' w') : c = 1 ∧ ci' = ci := by
  unfold abort_copy at h
  obtain ⟨w1, _, h⟩ := close_or_exit_ret h
  obtain ⟨w2, _, h⟩ := close_or_exit_ret h
  simp at h
  exact ⟨h.1.symm, h.2.1.symm⟩

theorem write_loop_ret {source dest : Path} {i : Nat} {ci : copy_info} {buffer : List Byte}
    {c : Int} {ci' : copy_info} {w' : World} :
    ∀ (fuel : Nat) (d : OutFd) (cur : Int) (w : World),
      write_loop source dest i ci buffer fuel d cur w = .stop (.ret c ci' w') →
      c = 1 ∧ ci' = ci := by
  intro fuel
  induction fuel with
  | zero => intro d cur w h; simp [write_loop] at h
  | succ n ih =>
    intro d cur w h
    simp only [write_loop] at h
    split at h
    · split at h
      · exact ih _ _ _ h
      · simp at h; exact abort_copy_ret h
      · exact ih _ _ _ h
    · simp at h

theorem copy_loop_ret {source dest : Path} {i : Nat} {ci : copy_info}
    {c : Int} {ci' : copy_info} {w' : World} :
    ∀ (fuel : Nat) (rest : Option (List Byte)) (d : OutFd) (t : Int) (w : World),
      copy_loop source dest i ci fuel rest d t w = .stop (.ret c ci' w') →
      c = 1 ∧ ci' = ci := by
  intro fuel
  induction fuel with
  | zero => intro rest d t w h; simp [copy_loop] at h
  | succ n ih =>
    intro rest d t w h
    simp only [copy_loop] at h
    split at h
    · exact ih _ _ _ _ h
    · simp at h; exact abort_copy_ret h
    · simp at h
    · split at h
      · simp at h; exact abort_copy_ret h
      · split at h
        · simp at h; exact write_loop_ret _ _ _ _ (by rw [‹write_loop _ _ _ _ _ _ _ _ _ = _›, h])
        · exact ih _ _ _ _ h

theorem sys_open_rd_spec {path : Path} {w w1 : World} {r : Option Nat}
    (h : sys_open_rd path w = (r, w1)) :
    w1.fs = w.fs ∧ w1.script <:+ w.script ∧
      (r = none → w1.handles = w.handles ∧ w1.next = w.next) ∧
      (∀ fd, r = some fd → fd = w.next ∧ w1.handles = fd :: w.handles ∧ w1.next = w.next + 1) := by
  unfold sys_open_rd at h
  rcases hn : w.next_ev with ⟨e, w0⟩
  have hs := next_ev_spec hn
  have hsuf := next_ev_suffix hn
  simp only [hn] at h
  split at h <;> simp [World.alloc, World.log] at h <;> obtain ⟨rfl, rfl⟩ := h <;>
    simp [hs.1, hs.2.1, hs.2.2.1, hsuf]

theorem sys_stat_spec {path : Path} {obj : Option Node} {w w1 : World} {r : Option Nat}
    (h : sys_stat path obj w = (r, w1)) :
    w1.fs = w.fs ∧ w1.script <:+ w.script ∧ w1.handles = w.handles ∧ w1.next = w.next ∧
      (∀ m, r = some m → ∃ n, obj = some n ∧ m = n.st_mode) := by
  unfold sys_stat at h
  rcases hn : w.next_ev with ⟨e, w0⟩
  have hs := next_ev_spec hn
  have hsuf := next_ev_suffix hn
  simp only [hn] at h
  split at h
  · simp [World.log] at h; obtain ⟨rfl, rfl⟩ := h; simp [hs.1, hs.2.1, hs.2.2.1, hsuf]
  · split at h <;> simp [World.log] at h <;> obtain ⟨rfl, rfl⟩ := h <;>
      simp [hs.1, hs.2.1, hs.2.2.1, hsuf]

theorem sys_open_wr_spec {path : Path} {mode : Nat} {w w1 : World} {r : Option Nat}
    (h : sys_open_wr path mode w = (r, w1)) :
    w1.script <:+ w.script ∧
      (r = none → w1.fs = w.fs ∧ w1.handles = w.handles ∧ w1.next = w.next) ∧
      (∀ fd, r = some fd → fd = w.next ∧ w1.handles = fd :: w.handles ∧ w1.next = w.next + 1 ∧
        (∀ p, p ≠ path → w1.fs p = w.fs p) ∧
        ((w.fs path = none ∧ w1.fs path = some (.file mode [])) ∨
          (∃ m c, w.fs path = some (.file m c) ∧ w1.fs path = some (.file m c)))) := by
  unfold sys_open_wr at h
  rcases hn : w.next_ev with ⟨e, w0⟩
  have hs := next_ev_spec hn
  have hsuf := next_ev_suffix hn
  simp only [hn] at h
  split at h
  · simp [World.log] at h; obtain ⟨rfl, rfl⟩ := h; simp [hs.1, hs.2.1, hs.2.2.1, hsuf]
  · split at h
    · simp [World.log] at h; obtain ⟨rfl, rfl⟩ := h; simp [hs.1, hs.2.1, hs.2.2.1, hsuf]
    · next m c hf =>
      simp [World.log, World.alloc] at h; obtain ⟨rfl, rfl⟩ := h
      simp [hs.1, hs.2.1, hs.2.2.1, hsuf]
      rw [← hs.1, hf]; simp
    · next hf =>
      simp [World.log, World.alloc] at h; obtain ⟨rfl, rfl⟩ := h
      simp [hs.1, hs.2.1, hs.2.2.1, hsuf]
      rw [← hs.1, hf]; simp
      intro p hp; simp [hp, hs.1]

theorem sys_close_spec {fd : Nat} {w w1 : World} {b : Bool} (h : sys_close fd w = (b, w1)) :
    w1.fs = w.fs ∧ w1.script <:+ w.script ∧ w1.next = w.next ∧
      (b = false → w1.handles = w.handles) ∧
      (b = true → fd ∈ w.handles ∧ w1.handles = w.handles.erase fd) := by
  unfold sys_close at h
  rcases hn : w.next_ev with ⟨e, w0⟩
  have hs := next_ev_spec hn
  have hsuf := next_ev_suffix hn
  simp only [hn] at h
  split at h
  · simp [World.log] at h; obtain ⟨rfl, rfl⟩ := h; simp [hs.1, hs.2.1, hs.2.2.1, hsuf]
  · next hc =>
    simp [World.log] at h; obtain ⟨rfl, rfl⟩ := h
    simp [hs.1, hs.2.1, hs.2.2.1, hsuf]
    simp [hs.2.1] at hc
    exact hc.2

theorem sys_closedir_spec {fd : Nat} {w w1 : World} {b : Bool}
    (h : sys_closedir fd w = (b, w1)) :
    w1.fs = w.fs ∧ w1.script <:+ w.script ∧ w1.next = w.next ∧
      (b = false → w1.handles = w.handles) ∧
      (b = true → fd ∈ w.handles ∧ w1.handles = w.handles.erase fd) := by
  unfold sys_closedir at h
  rcases hn : w.next_ev with ⟨e, w0⟩
  have hs := next_ev_spec hn
  have hsuf := next_ev_suffix hn
  simp only [hn] at h
  split at h
  · simp [World.log] at h; obtain ⟨rfl, rfl⟩ := h; simp [hs.1, hs.2.1, hs.2.2.1, hsuf]
  · next hc =>
    simp [World.log] at h; obtain ⟨rfl, rfl⟩ := h
    simp [hs.1, hs.2.1, hs.2.2.1, hsuf]
    simp [hs.2.1] at hc
    exact hc.2

theorem sys_opendir_spec {path : Path} {isdir : Bool} {w w1 : World} {r : Option Nat}
    (h : sys_opendir path isdir w = (r, w1)) :
    w1.fs = w.fs ∧ w1.script <:+ w.script ∧
      (r = none → w1.handles = w.handles ∧ w1.next = w.next) ∧
      (∀ fd, r = some fd → isdir = true ∧ fd = w.next ∧ w1.handles = fd :: w.handles ∧
        w1.next = w.next + 1) := by
  unfold sys_opendir at h
  rcases hn : w.next_ev with ⟨e, w0⟩
  have hs := next_ev_spec hn
  have hsuf := next_ev_suffix hn
  simp only [hn] at h
  split at h
  · simp [World.log] at h; obtain ⟨rfl, rfl⟩ := h; simp [hs.1, hs.2.1, hs.2.2.1, hsuf]
  · next hc =>
    simp [World.alloc, World.log] at h; obtain ⟨rfl, rfl⟩ := h
    simp [hs.1, hs.2.1, hs.2.2.1, hsuf]
    simp at hc
    exact hc.2

theorem sys_mkdir_spec {path : Path} {mode : Nat} {w w1 : World} {b : Bool}
    (h : sys_mkdir path mode w = (b, w1)) :
    w1.script <:+ w.script ∧ w1.handles = w.handles ∧ w1.next = w.next ∧
      (b = false → w1.fs = w.fs) ∧
      (b = true → w.fs path = none ∧ w1.fs path = some (.dir mode) ∧
        ∀ p, p ≠ path → w1.fs p = w.fs p) := by
  unfold sys_mkdir at h
  rcases hn : w.next_ev with ⟨e, w0⟩
  have hs := next_ev_spec hn
  have hsuf := next_ev_suffix hn
  simp only [hn] at h
  split at h
  · simp [World.log] at h; obtain ⟨rfl, rfl⟩ := h; simp [hs.1, hs.2.1, hs.2.2.1, hsuf]
  · next hc =>
    simp [World.log] at h; obtain ⟨rfl, rfl⟩ := h
    simp [hs.1, hs.2.1, hs.2.2.1, hsuf]
    simp [hs.1] at hc
    refine ⟨hc.2, ?_⟩
    intro p hp; simp [hp]

theorem sys_readdir_spec {dirp : Nat} {name : Option Path} {w w1 : World} {b : Bool}
    (h : sys_readdir dirp name w = (b, w1)) :
    w1.fs = w.fs ∧ w1.script <:+ w.script ∧ w1.handles = w.handles ∧ w1.next = w.next := by
  unfold sys_readdir at h
  rcases hn : w.next_ev with ⟨e, w0⟩
  have hs := next_ev_spec hn
  have hsuf := next_ev_suffix hn
  simp only [hn] at h
  split at h <;> simp [World.log] at h <;> obtain ⟨rfl, rfl⟩ := h <;>
    simp [hs.1, hs.2.1, hs.2.2.1, hsuf]

theorem sys_malloc_spec {size : Nat} {w w1 : World} {b : Bool}
    (h : sys_malloc size w = (b, w1)) :
    w1.fs = w.fs ∧ w1.script <:+ w.script ∧ w1.handles = w.handles ∧ w1.next = w.next := by
  unfold sys_malloc at h
  rcases hn : w.next_ev with ⟨e, w0⟩
  have hs := next_ev_spec hn
  have hsuf := next_ev_suffix hn
  simp only [hn] at h
  simp [World.log] at h; obtain ⟨_, rfl⟩ := h
  simp [hs.1, hs.2.1, hs.2.2.1, hsuf]

theorem sys_read_spec {fd : Nat} {rest rest' : Option (List Byte)} {w w1 : World} {r : RW}
    {buf : List Byte} (h : sys_read fd rest w = (r, buf, rest', w1)) :
    w1.fs = w.fs ∧ w1.script <:+ w.script ∧ w1.handles = w.handles ∧ w1.next = w.next ∧
      (r = .eintr → rest' = rest ∧ w1.script.length < w.script.length) ∧
      (∀ n, r = .done n → ∃ bytes, rest = some bytes ∧ buf = bytes.take n ∧
        rest' = some (bytes.drop n) ∧ n ≤ bytes.length ∧ buf.length = n ∧
        (n = 0 → bytes = [])) := by
  unfold sys_read at h
  rcases hn : w.next_ev with ⟨e, w0⟩
  have hs := next_ev_spec hn
  have hsuf := next_ev_suffix hn
  simp only [hn] at h
  split at h
  · simp [World.log] at h; obtain ⟨rfl, rfl, rfl, rfl⟩ := h; simp [hs.1, hs.2.1, hs.2.2.1, hsuf]
  · next bytes =>
    split at h
    · simp [World.log] at h; obtain ⟨rfl, rfl, rfl, rfl⟩ := h
      simp [hs.1, hs.2.1, hs.2.2.1, hsuf]
    · simp [World.log] at h; obtain ⟨rfl, rfl, rfl, rfl⟩ := h
      simp [hs.1, hs.2.1, hs.2.2.1, hsuf]
      rcases hs.2.2.2.2.2 with ⟨_, _, h3⟩ | h3
      · cases h3
      · rw [h3]; simp
    · next k =>
      simp [World.log] at h; obtain ⟨rfl, rfl, rfl, rfl⟩ := h
      simp [hs.1, hs.2.1, hs.2.2.1, hsuf]
    · simp [World.log] at h; obtain ⟨rfl, rfl, rfl, rfl⟩ := h
      simp [hs.1, hs.2.1, hs.2.2.1, hsuf]

@[simp] theorem put_script (w : World) (d : OutFd) (data : List Byte) :
    (w.put d data).script = w.script := rfl

@[simp] theorem put_handles (w : World) (d : OutFd) (data : List Byte) :
    (w.put d data).handles = w.handles := rfl

@[simp] theorem put_next (w : World) (d : OutFd) (data : List Byte) :
    (w.put d data).next = w.next := rfl

theorem put_fs (w : World) (d : OutFd) (data : List Byte) (p : Path) :
    (w.put d data).fs p =
      if p = d.path then
        match w.fs p with
        | some (.file mode content) => some (.file mode (overwrite content d.off data))
        | x => x
      else w.fs p := rfl

theorem put_fs_isSome (w : World) (d : OutFd) (data : List Byte) (p : Path) :
    ((w.put d data).fs p).isSome = (w.fs p).isSome := by
  rw [put_fs]
  split
  · split <;> simp_all
  · rfl

theorem overwrite_nil (content : List Byte) (off : Nat) : overwrite content off [] = content := by
  simp [overwrite]

theorem put_nil (w : World) (d : OutFd) : (w.put d []).fs = w.fs := by
  funext p
  rw [put_fs]
  split
  · split <;> simp_all [overwrite_nil]
  · rfl

theorem sys_write_spec {d d' : OutFd} {buf : List Byte} {w w1 : World} {r : RW}
    (h : sys_write d buf w = (r, d', w1)) :
    w1.script <:+ w.script ∧ w1.handles = w.handles ∧ w1.next = w.next ∧
      d'.fd = d.fd ∧ d'.path = d.path ∧
      (r = .eintr → d' = d ∧ w1.fs = w.fs ∧ w1.script.length < w.script.length) ∧
      (r = .err → d' = d ∧ w1.fs = w.fs) ∧
      (∀ n, r = .done n → n ≤ buf.length ∧ d'.off = d.off + n ∧
        w1.fs = (w.put d (buf.take n)).fs ∧
        (n < buf.length → w1.script.length < w.script.length) ∧
        w1.trace = .write d.fd buf.length n :: w.trace) := by
  unfold sys_write at h
  rcases hn : w.next_ev with ⟨e, w0⟩
  have hs := next_ev_spec hn
  have hsuf := next_ev_suffix hn
  simp only [hn] at h
  split at h
  · simp [World.log] at h; obtain ⟨rfl, rfl, rfl⟩ := h
    simp [hs.1, hs.2.1, hs.2.2.1, hsuf]
  · simp [World.log] at h; obtain ⟨rfl, rfl, rfl⟩ := h
    simp [hs.1, hs.2.1, hs.2.2.1, hsuf]
    rcases hs.2.2.2.2.2 with ⟨_, _, h3⟩ | h3
    · cases h3
    · rw [h3]; simp
  · next k =>
    simp [World.log] at h; obtain ⟨rfl, rfl, rfl⟩ := h
    simp [hs.1, hs.2.1, hs.2.2.1, hsuf]
    have hsc : w.script = Ev.shortWrite k :: w0.script := by
      rcases hs.2.2.2.2.2 with ⟨_, _, h3⟩ | h3
      · cases h3
      · exact h3
    refine ⟨?_, ?_, ?_⟩
    · funext p; simp [World.put, hs.1]
    · intro _; rw [hsc]; simp
    · simp [World.put, hs.2.2.2.1]
  · simp [World.log] at h; obtain ⟨rfl, rfl, rfl⟩ := h
    simp [hs.1, hs.2.1, hs.2.2.1, hsuf]
    refine ⟨?_, ?_⟩
    · funext p; simp [World.put, hs.1]
    · simp [World.put, hs.2.2.2.1]

theorem sys_write_fs_mono {d d' : OutFd} {buf : List Byte} {w w1 : World} {r : RW}
    (h : sys_write d buf w = (r, d', w1)) (p : Path) : (w1.fs p).isSome = (w.fs p).isSome := by
  have hs := sys_write_spec h
  cases r with
  | done n => rw [(hs.2.2.2.2.2.2.2 n rfl).2.2.1, put_fs_isSome]
  | eintr => rw [(hs.2.2.2.2.2.1 rfl).2.1]
  | err => rw [(hs.2.2.2.2.2.2.1 rfl).2]

theorem Later.refl (w : World) : Later w w := ⟨List.suffix_refl _, fun _ h => h⟩

theorem Later.trans {a b c : World} (h1 : Later a b) (h2 : Later b c) : Later a c :=
  ⟨h2.script.trans h1.script, fun p h => h2.fs p (h1.fs p h)⟩

theorem Later.of_eq {w w' : World} (hs : w'.script <:+ w.script) (hf : w'.fs = w.fs) :
    Later w w' := ⟨hs, fun p h => by rw [hf]; exact h⟩

theorem Later.print (w : World) (m : Msg) : Later w (w.print m) :=
  ⟨List.suffix_refl _, fun _ h => h⟩

theorem later_open_rd {path : Path} {w w1 : World} {r : Option Nat}
    (h : sys_open_rd path w = (r, w1)) : Later w w1 :=
  Later.of_eq (sys_open_rd_spec h).2.1 (sys_open_rd_spec h).1

theorem later_stat {path : Path} {obj : Option Node} {w w1 : World} {r : Option Nat}
    (h : sys_stat path obj w = (r, w1)) : Later w w1 :=
  Later.of_eq (sys_stat_spec h).2.1 (sys_stat_spec h).1

theorem later_close {fd : Nat} {w w1 : World} {b : Bool} (h : sys_close fd w = (b, w1)) :
    Later w w1 :=
  Later.of_eq (sys_close_spec h).2.1 (sys_close_spec h).1

theorem later_closedir {fd : Nat} {w w1 : World} {b : Bool} (h : sys_closedir fd w = (b, w1)) :
    Later w w1 :=
  Later.of_eq (sys_closedir_spec h).2.1 (sys_closedir_spec h).1

theorem later_opendir {path : Path} {isdir : Bool} {w w1 : World} {r : Option Nat}
    (h : sys_opendir path isdir w = (r, w1)) : Later w w1 :=
  Later.of_eq (sys_opendir_spec h).2.1 (sys_opendir_spec h).1

theorem later_readdir {dirp : Nat} {name : Option Path} {w w1 : World} {b : Bool}
    (h : sys_readdir dirp name w = (b, w1)) : Later w w1 :=
  Later.of_eq (sys_readdir_spec h).2.1 (sys_readdir_spec h).1

theorem later_malloc {size : Nat} {w w1 : World} {b : Bool}
    (h : sys_malloc size w = (b, w1)) : Later w w1 :=
  Later.of_eq (sys_malloc_spec h).2.1 (sys_malloc_spec h).1

theorem later_read {fd : Nat} {rest rest' : Option (List Byte)} {w w1 : World} {r : RW}
    {buf : List Byte} (h : sys_read fd rest w = (r, buf, rest', w1)) : Later w w1 :=
  Later.of_eq (sys_read_spec h).2.1 (sys_read_spec h).1

theorem later_write {d d' : OutFd} {buf : List Byte} {w w1 : World} {r : RW}
    (h : sys_write d buf w = (r, d', w1)) : Later w w1 :=
  ⟨(sys_write_spec h).1, fun p hp => by rw [sys_write_fs_mono h]; exact hp⟩

theorem later_mkdir {path : Path} {mode : Nat} {w w1 : World} {b : Bool}
    (h : sys_mkdir path mode w = (b, w1)) : Later w w1 := by
  have hs := sys_mkdir_spec h
  refine ⟨hs.1, fun p hp => ?_⟩
  cases b with
  | false => rw [hs.2.2.2.1 rfl]; exact hp
  | true =>
    obtain ⟨h0, h1, h2⟩ := hs.2.2.2.2 rfl
    by_cases hpp : p = path
    · subst hpp; rw [h1]; rfl
    · rw [h2 p hpp]; exact hp

theorem later_open_wr {path : Path} {mode : Nat} {w w1 : World} {r : Option Nat}
    (h : sys_open_wr path mode w = (r, w1)) : Later w w1 := by
  have hs := sys_open_wr_spec h
  refine ⟨hs.1, fun p hp => ?_⟩
  cases r with
  | none => rw [(hs.2.1 rfl).1]; exact hp
  | some fd =>
    obtain ⟨_, _, _, h2, h3⟩ := hs.2.2 fd rfl
    by_cases hpp : p = path
    · subst hpp
      rcases h3 with ⟨_, h3⟩ | ⟨m, c, _, h3⟩ <;> rw [h3] <;> rfl
    · rw [h2 p hpp]; exact hp

/-- A returning `close_or_exit` closed the descriptor and ran its continuation. -/
theorem close_or_exit_ret' {fd : Nat} {name : Path} {w : World} {k : World → Result}
    {c : Int} {ci' : copy_info} {w' : World}
    (h : close_or_exit fd name w k = .ret c ci' w') :
    ∃ w1, Later w w1 ∧ fd ∈ w.handles ∧ w1.handles = w.handles.erase fd ∧
      k w1 = .ret c ci' w' := by
  obtain ⟨w1, hc, hk⟩ := close_or_exit_ret h
  have hs := sys_close_spec hc
  exact ⟨w1, later_close hc, (hs.2.2.2.2 rfl).1, (hs.2.2.2.2 rfl).2, hk⟩

theorem closedir_or_exit_ret {fd : Nat} {name : Path} {w : World} {k : World → Result}
    {c : Int} {ci' : copy_info} {w' : World}
    (h : closedir_or_exit fd name w k = .ret c ci' w') :
    ∃ w1, Later w w1 ∧ fd ∈ w.handles ∧ w1.handles = w.handles.erase fd ∧
      k w1 = .ret c ci' w' := by
  unfold closedir_or_exit at h
  rcases hc : sys_closedir fd w with ⟨b, w1⟩
  rw [hc] at h
  cases b
  · simp at h
  · have hs := sys_closedir_spec hc
    exact ⟨w1, later_closedir hc, (hs.2.2.2.2 rfl).1, (hs.2.2.2.2 rfl).2, h⟩

theorem abort_copy_frame {source dest : Path} {i d : Nat} {ci : copy_info} {w : World}
    {c : Int} {ci' : copy_info} {w' : World}
    (h : abort_copy source dest i d ci w = .ret c ci' w') :
    Later w w' ∧ w'.handles = (w.handles.erase i).erase d := by
  unfold abort_copy at h
  obtain ⟨w1, hl1, _, hh1, h⟩ := close_or_exit_ret' h
  obtain ⟨w2, hl2, _, hh2, h⟩ := close_or_exit_ret' h
  simp at h
  obtain ⟨_, _, rfl⟩ := h
  exact ⟨hl1.trans hl2, by rw [hh2, hh1]⟩

theorem write_loop_frame {source dest : Path} {i : Nat} {ci : copy_info} {buffer : List Byte} :
    ∀ (fuel : Nat) (d : OutFd) (cur : Int) (w : World),
      (∀ d' cur' w', write_loop source dest i ci buffer fuel d cur w = .next (d', cur') w' →
        Later w w' ∧ w'.handles = w.handles ∧ d'.fd = d.fd ∧ d'.path = d.path) ∧
      (∀ c ci' w', write_loop source dest i ci buffer fuel d cur w = .stop (.ret c ci' w') →
        Later w w' ∧ w'.handles = (w.handles.erase i).erase d.fd) := by
  intro fuel
  induction fuel with
  | zero => intro d cur w; simp [write_loop]
  | succ n ih =>
    intro d cur w
    simp only [write_loop]
    split
    · split
      · next d1 w1 hw =>
        have hs := sys_write_spec hw
        have hl := later_write hw
        obtain ⟨ih1, ih2⟩ := ih d1 cur w1
        constructor
        · intro d' cur' w' h
          obtain ⟨a, b, c, e⟩ := ih1 d' cur' w' h
          exact ⟨hl.trans a, by rw [b, hs.2.1], by rw [c, hs.2.2.2.1], by rw [e, hs.2.2.2.2.1]⟩
        · intro c ci' w' h
          obtain ⟨a, b⟩ := ih2 c ci' w' h
          exact ⟨hl.trans a, by rw [b, hs.2.1, hs.2.2.2.1]⟩
      · next d1 w1 hw =>
        have hs := sys_write_spec hw
        have hl := later_write hw
        constructor
        · intro d' cur' w' h; simp at h
        · intro c ci' w' h
          simp at h
          obtain ⟨a, b⟩ := abort_copy_frame h
          exact ⟨hl.trans ((Later.print _ _).trans a), by rw [b]; simp [World.print, hs.2.1, hs.2.2.2.1]⟩
      · next k d1 w1 hw =>
        have hs := sys_write_spec hw
        have hl := later_write hw
        obtain ⟨ih1, ih2⟩ := ih d1 (cur + k) w1
        constructor
        · intro d' cur' w' h
          obtain ⟨a, b, c, e⟩ := ih1 d' cur' w' h
          exact ⟨hl.trans a, by rw [b, hs.2.1], by rw [c, hs.2.2.2.1], by rw [e, hs.2.2.2.2.1]⟩
        · intro c ci' w' h
          obtain ⟨a, b⟩ := ih2 c ci' w' h
          exact ⟨hl.trans a, by rw [b, hs.2.1, hs.2.2.2.1]⟩
    · constructor
      · intro d' cur' w' h
        simp at h
        obtain ⟨⟨rfl, _⟩, rfl⟩ := h
        exact ⟨Later.refl _, rfl, rfl, rfl⟩
      · intro c ci' w' h; simp at h

theorem copy_loop_frame {source dest : Path} {i : Nat} {ci : copy_info} :
    ∀ (fuel : Nat) (rest : Option (List Byte)) (d : OutFd) (t : Int) (w : World),
      (∀ t' w', copy_loop source dest i ci fuel rest d t w = .next t' w' →
        Later w w' ∧ w'.handles = w.handles) ∧
      (∀ c ci' w', copy_loop source dest i ci fuel rest d t w = .stop (.ret c ci' w') →
        Later w w' ∧ w'.handles = (w.handles.erase i).erase d.fd) := by
  intro fuel
  induction fuel with
  | zero => intro rest d t w; simp [copy_loop]
  | succ n ih =>
    intro rest d t w
    simp only [copy_loop]
    split
    · next rest1 w1 hr =>
      have hs := sys_read_spec hr
      have hl := later_read hr
      obtain ⟨ih1, ih2⟩ := ih rest1 d t w1
      constructor
      · intro t' w' h
        obtain ⟨a, b⟩ := ih1 t' w' h
        exact ⟨hl.trans a, by rw [b, hs.2.2.1]⟩
      · intro c ci' w' h
        obtain ⟨a, b⟩ := ih2 c ci' w' h
        exact ⟨hl.trans a, by rw [b, hs.2.2.1]⟩
    · next w1 hr =>
      have hs := sys_read_spec hr
      have hl := later_read hr
      constructor
      · intro t' w' h; simp at h
      · intro c ci' w' h
        simp at h
        obtain ⟨a, b⟩ := abort_copy_frame h
        exact ⟨hl.trans ((Later.print _ _).trans a), by rw [b]; simp [World.print, hs.2.2.1]⟩
    · next w1 hr =>
      have hs := sys_read_spec hr
      have hl := later_read hr
      constructor
      · intro t' w' h
        simp at h
        obtain ⟨_, rfl⟩ := h
        exact ⟨hl, hs.2.2.1⟩
      · intro c ci' w' h; simp at h
    · next k buffer rest1 w1 hr =>
      have hs := sys_read_spec hr
      have hl := later_read hr
      split
      · next d1 w2 hw =>
        have hws := sys_write_spec hw
        have hwl := later_write hw
        constructor
        · intro t' w' h; simp at h
        · intro c ci' w' h
          simp at h
          obtain ⟨a, b⟩ := abort_copy_frame h
          exact ⟨hl.trans (hwl.trans ((Later.print _ _).trans a)),
            by rw [b]; simp [World.print, hs.2.2.1, hws.2.1, hws.2.2.2.1]⟩
      · next r d1 w2 _ hw =>
        have hws := sys_write_spec hw
        have hwl := later_write hw
        split
        · next res hwl' =>
          constructor
          · intro t' w' h; simp at h
          · intro c ci' w' h
            simp at h
            subst h
            obtain ⟨a, b⟩ := (write_loop_frame _ _ _ _).2 c ci' w' hwl'
            exact ⟨hl.trans (hwl.trans a), by rw [b, hws.2.1, hs.2.2.1, hws.2.2.2.1]⟩
        · next d2 cur2 w3 hwl' =>
          obtain ⟨a, b, c1, c2⟩ := (write_loop_frame _ _ _ _).1 d2 cur2 w3 hwl'
          obtain ⟨ih1, ih2⟩ := ih rest1 d2 (wrap32 (t + cur2)) w3
          constructor
          · intro t' w' h
            obtain ⟨a', b'⟩ := ih1 t' w' h
            exact ⟨hl.trans (hwl.trans (a.trans a')), by rw [b', b, hws.2.1, hs.2.2.1]⟩
          · intro c ci' w' h
            obtain ⟨a', b'⟩ := ih2 c ci' w' h
            exact ⟨hl.trans (hwl.trans (a.trans a')),
              by rw [b', b, hws.2.1, hs.2.2.1, c1, hws.2.2.2.1]⟩

/-- A returning `filecopy` leaves a later state with the same open handles. -/
theorem filecopy_frame {source dest : Path} {src : Node} {ci : copy_info} {w : World}
    {c : Int} {ci' : copy_info} {w' : World}
    (h : filecopy source dest src ci w = .ret c ci' w') :
    Later w w' ∧ w'.handles = w.handles := by
  unfold filecopy at h
  split at h
  · next w1 ho =>
    simp at h
    obtain ⟨_, _, rfl⟩ := h
    have hs := sys_open_rd_spec ho
    exact ⟨(later_open_rd ho).trans (Later.print _ _), (hs.2.2.1 rfl).1⟩
  · next input_fd w1 ho =>
    have hs := sys_open_rd_spec ho
    obtain ⟨hfd, hh1, hn1⟩ := hs.2.2.2 input_fd rfl
    have hl1 := later_open_rd ho
    split at h
    · next w2 hst =>
      have hss := sys_stat_spec hst
      obtain ⟨w3, hl3, _, hh3, h⟩ := close_or_exit_ret' h
      simp at h
      obtain ⟨_, _, rfl⟩ := h
      refine ⟨hl1.trans ((later_stat hst).trans ((Later.print _ _).trans hl3)), ?_⟩
      rw [hh3]; simp [World.print, hss.2.2.1, hh1]
    · next st_mode w2 hst =>
      have hss := sys_stat_spec hst
      have hl2 := later_stat hst
      split at h
      · next w3 hop =>
        have hos := sys_open_wr_spec hop
        obtain ⟨w4, hl4, _, hh4, h⟩ := close_or_exit_ret' h
        simp at h
        obtain ⟨_, _, rfl⟩ := h
        refine ⟨hl1.trans (hl2.trans ((later_open_wr hop).trans ((Later.print _ _).trans hl4))), ?_⟩
        rw [hh4]; simp [World.print, (hos.2.1 rfl).2.1, hss.2.2.1, hh1]
      · next dest_fd w3 hop =>
        have hos := sys_open_wr_spec hop
        have hl3 := later_open_wr hop
        obtain ⟨hfd3, hh3, _⟩ := hos.2.2 dest_fd rfl
        have hne : dest_fd ≠ input_fd := by
          rw [hfd3, hss.2.2.2.1, hn1, hfd]; omega
        have hw3 : w3.handles = dest_fd :: input_fd :: w.handles := by
          rw [hh3, hss.2.2.1, hh1]
        have herase : (w3.handles.erase input_fd).erase dest_fd = w.handles := by
          rw [hw3, List.erase_cons_tail (by simpa using hne), List.erase_cons_head,
            List.erase_cons_head]
        split at h
        · next r hcl =>
          subst h
          obtain ⟨a, b⟩ := (copy_loop_frame _ _ _ _ _).2 c ci' w' hcl
          exact ⟨hl1.trans (hl2.trans (hl3.trans a)), by rw [b]; exact herase⟩
        · next total w4 hcl =>
          obtain ⟨a, b⟩ := (copy_loop_frame _ _ _ _ _).1 total w4 hcl
          split at h
          · split at h <;> simp at h
          · next w5 hc1 =>
            have hcs := sys_close_spec hc1
            obtain ⟨w6, hl6, _, hh6, h⟩ := close_or_exit_ret' h
            simp at h
            obtain ⟨_, _, rfl⟩ := h
            refine ⟨hl1.trans (hl2.trans (hl3.trans (a.trans
              ((Later.print _ _).trans ((later_close hc1).trans hl6))))), ?_⟩
            rw [hh6, (hcs.2.2.2.2 rfl).2]
            simp only [World.print]
            rw [b]; exact herase

mutual
theorem recursive_directory_copy_frame (dirname destname : Path) :
    ∀ (src : Node) (ci : copy_info) (w : World) (c : Int) (ci' : copy_info) (w' : World),
      recursive_directory_copy dirname destname src ci w = .ret c ci' w' →
      Later w w' ∧ w'.handles = w.handles
  | .file _ _, ci, w, c, ci', w' => by
    intro h
    simp only [recursive_directory_copy] at h
    rcases ho : sys_opendir dirname false w with ⟨r, w1⟩
    rw [ho] at h
    simp at h
    obtain ⟨_, _, rfl⟩ := h
    have hs := sys_opendir_spec ho
    cases r with
    | none => exact ⟨(later_opendir ho).trans (Later.print _ _), (hs.2.2.1 rfl).1⟩
    | some fd => simpa using (hs.2.2.2 fd rfl).1
  | .other _ _ _, ci, w, c, ci', w' => by
    intro h
    simp only [recursive_directory_copy] at h
    rcases ho : sys_opendir dirname false w with ⟨r, w1⟩
    rw [ho] at h
    simp at h
    obtain ⟨_, _, rfl⟩ := h
    have hs := sys_opendir_spec ho
    cases r with
    | none => exact ⟨(later_opendir ho).trans (Later.print _ _), (hs.2.2.1 rfl).1⟩
    | some fd => simpa using (hs.2.2.2 fd rfl).1
  | .dir perm entries, ci, w, c, ci', w' => by
    intro h
    simp only [recursive_directory_copy] at h
    split at h
    · next w1 ho =>
      simp at h
      obtain ⟨_, _, rfl⟩ := h
      have hs := sys_opendir_spec ho
      exact ⟨(later_opendir ho).trans (Later.print _ _), (hs.2.2.1 rfl).1⟩
    · next current_dir w1 ho =>
      have hs := sys_opendir_spec ho
      obtain ⟨_, _, hh1, _⟩ := hs.2.2.2 current_dir rfl
      have hl1 := later_opendir ho
      split at h
      · next w2 hst =>
        have hss := sys_stat_spec hst
        obtain ⟨w3, hl3, _, hh3, h⟩ := closedir_or_exit_ret h
        simp at h
        obtain ⟨_, _, rfl⟩ := h
        refine ⟨hl1.trans ((later_stat hst).trans ((Later.print _ _).trans hl3)), ?_⟩
        rw [hh3]; simp [World.print, hss.2.2.1, hh1]
      · next st_mode w2 hst =>
        have hss := sys_stat_spec hst
        have hl2 := later_stat hst
        split at h
        · next w3 hmk =>
          have hms := sys_mkdir_spec hmk
          obtain ⟨w4, hl4, _, hh4, h⟩ := closedir_or_exit_ret h
          simp at h
          obtain ⟨_, _, rfl⟩ := h
          refine ⟨hl1.trans (hl2.trans ((later_mkdir hmk).trans ((Later.print _ _).trans hl4))), ?_⟩
          rw [hh4]; simp [World.print, hms.2.1, hss.2.2.1, hh1]
        · next w3 hmk =>
          have hms := sys_mkdir_spec hmk
          obtain ⟨a, b⟩ := dir_loop_frame dirname destname current_dir true entries _ _ _ _ _ h
          refine ⟨hl1.trans (hl2.trans ((later_mkdir hmk).trans ((Later.print _ _).trans a))), ?_⟩
          rw [b]; simp [World.print, hms.2.1, hss.2.2.1, hh1]
termination_by structural src => src
theorem dir_loop_frame (dirname destname : Path) (current_dir : Nat) (first : Bool) :
    ∀ (entries : List (Path × Node)) (ci : copy_info) (w : World) (c : Int) (ci' : copy_info)
      (w' : World),
      dir_loop dirname destname current_dir first entries ci w = .ret c ci' w' →
      Later w w' ∧ w'.handles = w.handles.erase current_dir
  | [], ci, w, c, ci', w' => by
    intro h
    simp only [dir_loop] at h
    split at h
    · next w1 hrd =>
      have hrs := sys_readdir_spec hrd
      obtain ⟨w2, hl2, _, hh2, h⟩ := closedir_or_exit_ret h
      simp at h
      obtain ⟨_, _, rfl⟩ := h
      exact ⟨(later_readdir hrd).trans ((Later.print _ _).trans hl2),
        by rw [hh2]; simp [World.print, hrs.2.2.1]⟩
    · next w1 hrd =>
      have hrs := sys_readdir_spec hrd
      obtain ⟨w2, hl2, _, hh2, h⟩ := closedir_or_exit_ret h
      simp at h
      obtain ⟨_, _, rfl⟩ := h
      exact ⟨(later_readdir hrd).trans hl2, by rw [hh2, hrs.2.2.1]⟩
  | (d_name, node) :: rest, ci, w, c, ci', w' => by
    intro h
    simp only [dir_loop] at h
    split at h
    · next w1 hrd =>
      have hrs := sys_readdir_spec hrd
      obtain ⟨w2, hl2, _, hh2, h⟩ := closedir_or_exit_ret h
      simp at h
      obtain ⟨_, _, rfl⟩ := h
      exact ⟨(later_readdir hrd).trans ((Later.print _ _).trans hl2),
        by rw [hh2]; simp [World.print, hrs.2.2.1]⟩
    · next w1 hrd =>
      have hrs := sys_readdir_spec hrd
      have hl1 := later_readdir hrd
      split at h
      · split at h
        · next w2 hm1 =>
          have hm1s := sys_malloc_spec hm1
          obtain ⟨w3, hl3, _, hh3, h⟩ := closedir_or_exit_ret h
          simp at h
          obtain ⟨_, _, rfl⟩ := h
          exact ⟨hl1.trans ((later_malloc hm1).trans ((Later.print _ _).trans hl3)),
            by rw [hh3]; simp [World.print, hrs.2.2.1, hm1s.2.2.1]⟩
        · next w2 hm1 =>
          have hm1s := sys_malloc_spec hm1
          have hl2 := later_malloc hm1
          split at h
          · next w3 hm2 =>
            have hm2s := sys_malloc_spec hm2
            obtain ⟨w4, hl4, _, hh4, h⟩ := closedir_or_exit_ret h
            simp at h
            obtain ⟨_, _, rfl⟩ := h
            exact ⟨hl1.trans (hl2.trans ((later_malloc hm2).trans ((Later.print _ _).trans hl4))),
              by rw [hh4]; simp [World.print, hrs.2.2.1, hm1s.2.2.1, hm2s.2.2.1]⟩
          · next w3 hm2 =>
            have hm2s := sys_malloc_spec hm2
            have hl3 := later_malloc hm2
            have hh3 : w3.handles = w.handles := by rw [hm2s.2.2.1, hm1s.2.2.1, hrs.2.2.1]
            split at h
            · split at h
              · next code ci1 w4 hrec =>
                obtain ⟨a, b⟩ := recursive_directory_copy_frame _ _ node _ _ _ _ _ hrec
                split at h
                · obtain ⟨w5, hl5, _, hh5, h⟩ := closedir_or_exit_ret h
                  simp at h
                  obtain ⟨_, _, rfl⟩ := h
                  exact ⟨hl1.trans (hl2.trans (hl3.trans (a.trans hl5))), by rw [hh5, b, hh3]⟩
                · obtain ⟨a', b'⟩ := dir_loop_frame dirname destname current_dir false rest _ _ _ _ _ h
                  exact ⟨hl1.trans (hl2.trans (hl3.trans (a.trans a'))), by rw [b', b, hh3]⟩
              · next hnr => exact absurd h (hnr c ci' w')
            · split at h
              · split at h
                · next code ci1 w4 hfc =>
                  obtain ⟨a, b⟩ := filecopy_frame hfc
                  split at h
                  · obtain ⟨w5, hl5, _, hh5, h⟩ := closedir_or_exit_ret h
                    simp at h
                    obtain ⟨_, _, rfl⟩ := h
                    exact ⟨hl1.trans (hl2.trans (hl3.trans (a.trans hl5))), by rw [hh5, b, hh3]⟩
                  · obtain ⟨a', b'⟩ :=
                      dir_loop_frame dirname destname current_dir false rest _ _ _ _ _ h
                    exact ⟨hl1.trans (hl2.trans (hl3.trans (a.trans a'))), by rw [b', b, hh3]⟩
                · next hnr => exact absurd h (hnr c ci' w')
              · obtain ⟨w5, hl5, _, hh5, h⟩ := closedir_or_exit_ret h
                simp at h
                obtain ⟨_, _, rfl⟩ := h
                exact ⟨hl1.trans (hl2.trans (hl3.trans ((Later.print _ _).trans hl5))),
                  by rw [hh5]; simp [World.print, hh3]⟩
      · obtain ⟨a', b'⟩ := dir_loop_frame dirname destname current_dir false rest _ _ _ _ _ h
        exact ⟨hl1.trans a', by rw [b', hrs.2.2.1]⟩
termination_by structural entries => entries
end

/-- A returning `filecopy` returns 1 with `copy_info` untouched, or 0. -/
theorem filecopy_ret_cases {source dest : Path} {src : Node} {ci : copy_info} {w : World}
    {c : Int} {ci' : copy_info} {w' : World}
    (h : filecopy source dest src ci w = .ret c ci' w') :
    (c = 1 ∧ ci' = ci) ∨
      (c = 0 ∧ ∃ total : Int, ci' = { ci with
        num_bytes := wrap32 (ci.num_bytes + total), num_files := wrap32 (ci.num_files + 1) }) := by
  unfold filecopy at h
  split at h
  · simp at h; left; exact ⟨h.1.symm, h.2.1.symm⟩
  · split at h
    · obtain ⟨_, _, h⟩ := close_or_exit_ret h
      simp at h; left; exact ⟨h.1.symm, h.2.1.symm⟩
    · split at h
      · obtain ⟨_, _, h⟩ := close_or_exit_ret h
        simp at h; left; exact ⟨h.1.symm, h.2.1.symm⟩
      · split at h
        · next r hcl =>
          subst h
          left; exact copy_loop_ret _ _ _ _ _ hcl
        · next total w4 hcl =>
          split at h
          · split at h <;> simp at h
          · obtain ⟨_, _, h⟩ := close_or_exit_ret h
            simp at h
            right; exact ⟨h.1.symm, total, h.2.1.symm⟩

/-! ## The loop bounds are never exhausted -/

theorem close_or_exit_not_stuck {fd : Nat} {name : Path} {w : World} {k : World → Result}
    (hk : ∀ w1, k w1 ≠ .stuck) : close_or_exit fd name w k ≠ .stuck := by
  unfold close_or_exit
  split
  · simp
  · exact hk _

theorem closedir_or_exit_not_stuck {fd : Nat} {name : Path} {w : World} {k : World → Result}
    (hk : ∀ w1, k w1 ≠ .stuck) : closedir_or_exit fd name w k ≠ .stuck := by
  unfold closedir_or_exit
  split
  · simp
  · exact hk _

theorem abort_copy_not_stuck {source dest : Path} {i d : Nat} {ci : copy_info} {w : World} :
    abort_copy source dest i d ci w ≠ .stuck := by
  unfold abort_copy
  exact close_or_exit_not_stuck fun _ => close_or_exit_not_stuck fun _ => by simp

theorem write_loop_not_stuck {source dest : Path} {i : Nat} {ci : copy_info}
    {buffer : List Byte} :
    ∀ (fuel : Nat) (d : OutFd) (cur : Int) (w : World), 0 ≤ cur →
      (w.script.length + 2 ≤ fuel ∨ (1 ≤ fuel ∧ (buffer.length : Int) ≤ cur)) →
      write_loop source dest i ci buffer fuel d cur w ≠ .stop .stuck := by
  intro fuel
  induction fuel with
  | zero => intro d cur w _ h; omega
  | succ n ih =>
    intro d cur w hcur h
    simp only [write_loop]
    split
    · next hlt =>
      have hfuel : w.script.length + 2 ≤ n + 1 := by omega
      split
      · next d1 w1 hw =>
        have hs := sys_write_spec hw
        have := (hs.2.2.2.2.2.1 rfl).2.2
        exact ih _ _ _ hcur (Or.inl (by omega))
      · intro hst
        simp at hst
        exact abort_copy_not_stuck hst
      · next k d1 w1 hw =>
        have hs := sys_write_spec hw
        obtain ⟨hk, _, _, hshort, _⟩ := hs.2.2.2.2.2.2.2 k rfl
        have hsl := hs.1.length_le
        apply ih _ _ _ (by omega)
        by_cases hkn : k < buffer.length
        · have := hshort hkn
          exact Or.inl (by omega)
        · exact Or.inr ⟨by omega, by omega⟩
    · simp

theorem copy_loop_not_stuck {source dest : Path} {i : Nat} {ci : copy_info} :
    ∀ (fuel : Nat) (rest : Option (List Byte)) (d : OutFd) (t : Int) (w : World),
      w.script.length + (rest.getD []).length + 1 ≤ fuel →
      copy_loop source dest i ci fuel rest d t w ≠ .stop .stuck := by
  intro fuel
  induction fuel with
  | zero => intro rest d t w h; omega
  | succ n ih =>
    intro rest d t w h
    simp only [copy_loop]
    split
    · next rest1 w1 hr =>
      have hs := sys_read_spec hr
      obtain ⟨h1, h2⟩ := hs.2.2.2.2.1 rfl
      subst h1
      exact ih _ _ _ _ (by omega)
    · intro hst
      simp at hst
      exact abort_copy_not_stuck hst
    · simp
    · next k buffer rest1 w1 hr =>
      have hs := sys_read_spec hr
      obtain ⟨bytes, hb, hbuf, hrest, hle, hlen, _⟩ := hs.2.2.2.2.2 (k + 1) rfl
      subst hb hrest
      have hl1 := hs.2.1.length_le
      split
      · intro hst
        simp at hst
        exact abort_copy_not_stuck hst
      · next r d1 w2 _ hw =>
        have hws := sys_write_spec hw
        have hl2 := hws.1.length_le
        split
        · next res hwl =>
          intro hst
          simp at hst
          subst hst
          refine write_loop_not_stuck _ _ _ _ ?_ (Or.inl (le_refl _)) hwl
          split <;> simp
        · next d2 cur2 w3 hwl =>
          have hl3 := ((write_loop_frame _ _ _ _).1 _ _ _ hwl).1.script.length_le
          apply ih
          simp at h ⊢
          omega

theorem filecopy_not_stuck (source dest : Path) (src : Node) (ci : copy_info) (w : World) :
    filecopy source dest src ci w ≠ .stuck := by
  unfold filecopy
  split
  · simp
  · split
    · exact close_or_exit_not_stuck fun _ => by simp
    · split
      · exact close_or_exit_not_stuck fun _ => by simp
      · split
        · next r hcl =>
          intro hst
          subst hst
          exact copy_loop_not_stuck _ _ _ _ _ (le_refl _) hcl
        · split
          · split <;> simp
          · exact close_or_exit_not_stuck fun _ => by simp

mutual
theorem recursive_directory_copy_not_stuck (dirname destname : Path) :
    ∀ (src : Node) (ci : copy_info) (w : World),
      recursive_directory_copy dirname destname src ci w ≠ .stuck
  | .file _ _, ci, w => by simp [recursive_directory_copy]
  | .other _ _ _, ci, w => by simp [recursive_directory_copy]
  | .dir perm entries, ci, w => by
    simp only [recursive_directory_copy]
    split
    · simp
    · split
      · exact closedir_or_exit_not_stuck fun _ => by simp
      · split
        · exact closedir_or_exit_not_stuck fun _ => by simp
        · exact dir_loop_not_stuck dirname destname _ true entries _ _
termination_by structural src => src
theorem dir_loop_not_stuck (dirname destname : Path) (current_dir : Nat) (first : Bool) :
    ∀ (entries : List (Path × Node)) (ci : copy_info) (w : World),
      dir_loop dirname destname current_dir first entries ci w ≠ .stuck
  | [], ci, w => by
    simp only [dir_loop]
    split
    · exact closedir_or_exit_not_stuck fun _ => by simp
    · exact closedir_or_exit_not_stuck fun _ => by simp
  | (d_name, node) :: rest, ci, w => by
    simp only [dir_loop]
    split
    · exact closedir_or_exit_not_stuck fun _ => by simp
    · split
      · split
        · exact closedir_or_exit_not_stuck fun _ => by simp
        · split
          · exact closedir_or_exit_not_stuck fun _ => by simp
          · split
            · split
              · split
                · exact closedir_or_exit_not_stuck fun _ => by simp
                · exact dir_loop_not_stuck dirname destname current_dir false rest _ _
              · next hnr =>
                exact recursive_directory_copy_not_stuck _ _ node _ _
            · split
              · split
                · split
                  · exact closedir_or_exit_not_stuck fun _ => by simp
                  · exact dir_loop_not_stuck dirname destname current_dir false rest _ _
                · exact filecopy_not_stuck _ _ _ _ _
              · exact closedir_or_exit_not_stuck fun _ => by simp
      · exact dir_loop_not_stuck dirname destname current_dir false rest _ _
termination_by structural entries => entries
end

/-- Totality: `treecopy` always returns or exits. -/
theorem treecopy_not_stuck (source_file dest_file : Path) (src : Option Node) (w : World) :
    treecopy source_file dest_file src w ≠ .stuck := by
  unfold treecopy
  simp only
  split
  · split
    · split
      · split <;> simp
      · exact filecopy_not_stuck _ _ _ _ _
    · split
      · split
        · simp
        · split
          · split <;> simp
          · exact recursive_directory_copy_not_stuck _ _ _ _ _
      · split
        · split <;> simp
        · exact recursive_directory_copy_not_stuck _ _ _ _ _
  · simp

/-! ## An existing destination directory -/

theorem sys_opendir_trace {path : Path} {isdir : Bool} {w w1 : World} {r : Option Nat}
    (h : sys_opendir path isdir w = (r, w1)) :
    ∃ ret, w1.trace = .opendir path ret :: w.trace ∧ w1.out = w.out := by
  unfold sys_opendir at h
  rcases hn : w.next_ev with ⟨e, w0⟩
  have hs := next_ev_spec hn
  simp only [hn] at h
  split at h <;> simp [World.alloc, World.log] at h <;> obtain ⟨_, rfl⟩ := h <;>
    simp [hs.2.2.2.1, hs.2.2.2.2.1]

theorem sys_stat_trace {path : Path} {obj : Option Node} {w w1 : World} {r : Option Nat}
    (h : sys_stat path obj w = (r, w1)) :
    ∃ ret, w1.trace = .stat path ret :: w.trace ∧ w1.out = w.out := by
  unfold sys_stat at h
  rcases hn : w.next_ev with ⟨e, w0⟩
  have hs := next_ev_spec hn
  simp only [hn] at h
  split at h
  · simp [World.log] at h; obtain ⟨_, rfl⟩ := h; simp [hs.2.2.2.1, hs.2.2.2.2.1]
  · split at h <;> simp [World.log] at h <;> obtain ⟨_, rfl⟩ := h <;>
      simp [hs.2.2.2.1, hs.2.2.2.2.1]

theorem sys_mkdir_trace {path : Path} {mode : Nat} {w w1 : World}
    (h : sys_mkdir path mode w = (false, w1)) :
    w1.trace = .mkdir path mode (-1) :: w.trace ∧ w1.out = w.out := by
  unfold sys_mkdir at h
  rcases hn : w.next_ev with ⟨e, w0⟩
  have hs := next_ev_spec hn
  simp only [hn] at h
  split at h <;> simp [World.log] at h
  subst h
  simp [hs.2.2.2.1, hs.2.2.2.2.1]

theorem sys_closedir_trace {fd : Nat} {w w1 : World} {b : Bool}
    (h : sys_closedir fd w = (b, w1)) :
    w1.trace = .closedir fd (if b then 0 else -1) :: w.trace ∧ w1.out = w.out := by
  unfold sys_closedir at h
  rcases hn : w.next_ev with ⟨e, w0⟩
  have hs := next_ev_spec hn
  simp only [hn] at h
  split at h <;> simp [World.log] at h <;> obtain ⟨rfl, rfl⟩ := h <;>
    simp [hs.2.2.2.1, hs.2.2.2.2.1]

/-- The two ends of the idiom `closedir`, then `return 1`: a return, or `exit(1)`
when `closedir` fails; the destination side is not touched. -/
theorem closedir_or_exit_fail (fd : Nat) (name : Path) (ci : copy_info) (w : World) :
    ∃ b w1, sys_closedir fd w = (b, w1) ∧
      closedir_or_exit fd name w (fun w => .ret 1 ci w) =
        (if b then .ret 1 ci w1
          else .exit 1 (w1.print (.diag "Unable to close directory" name))) := by
  rcases hc : sys_closedir fd w with ⟨b, w1⟩
  refine ⟨b, w1, rfl, ?_⟩
  unfold closedir_or_exit
  rw [hc]
  cases b <;> rfl

theorem existing_destination_cases (dirname destname : Path) (src : Node) (ci : copy_info)
    (w : World) (hex : (w.fs destname).isSome) :
    ∃ w' calls,
      (recursive_directory_copy dirname destname src ci w = .ret 1 ci w' ∨
        (recursive_directory_copy dirname destname src ci w = .exit 1 w' ∧
          ∃ d, calls.head? = some (.closedir d (-1)))) ∧
      w'.fs = w.fs ∧ w'.trace = calls ++ w.trace ∧
      ∀ c ∈ calls, c.isSetup dirname destname = true := by
  have hnondir : ∀ w1 r, sys_opendir dirname false w = (r, w1) →
      ∃ w' calls,
        (Result.ret 1 ci (w1.print (.diag "Unable to open directory" dirname)) = .ret 1 ci w' ∨
          (Result.ret 1 ci (w1.print (.diag "Unable to open directory" dirname)) = .exit 1 w' ∧
            ∃ d, calls.head? = some (.closedir d (-1)))) ∧
        w'.fs = w.fs ∧ w'.trace = calls ++ w.trace ∧
        ∀ c ∈ calls, c.isSetup dirname destname = true := by
    intro w1 r ho
    obtain ⟨ret, ht, _⟩ := sys_opendir_trace ho
    refine ⟨_, [.opendir dirname ret], Or.inl rfl, ?_, ?_, ?_⟩
    · simp [World.print, (sys_opendir_spec ho).1]
    · simp [World.print, ht]
    · simp [Call.isSetup]
  cases src with
  | file perm content =>
    simp only [recursive_directory_copy]
    rcases ho : sys_opendir dirname false w with ⟨r, w1⟩
    exact hnondir w1 r ho
  | other kind perm stream =>
    simp only [recursive_directory_copy]
    rcases ho : sys_opendir dirname false w with ⟨r, w1⟩
    exact hnondir w1 r ho
  | dir perm entries =>
    simp only [recursive_directory_copy]
    rcases ho : sys_opendir dirname true w with ⟨r, w1⟩
    obtain ⟨ret1, ht1, _⟩ := sys_opendir_trace ho
    have hf1 := (sys_opendir_spec ho).1
    cases r with
    | none =>
      refine ⟨_, [.opendir dirname ret1], Or.inl rfl, ?_, ?_, ?_⟩
      · simp [World.print, hf1]
      · simp [World.print, ht1]
      · simp [Call.isSetup]
    | some current_dir =>
      simp only
      rcases hst : sys_stat dirname (some (Node.dir perm entries)) w1 with ⟨m, w2⟩
      obtain ⟨ret2, ht2, _⟩ := sys_stat_trace hst
      have hf2 := (sys_stat_spec hst).1
      cases m with
      | none =>
        simp only
        obtain ⟨b, w3, hc, hr⟩ := closedir_or_exit_fail current_dir dirname ci
          (w2.print (.diag "Unable to stat directory" dirname))
        obtain ⟨ht3, _⟩ := sys_closedir_trace hc
        have hf3 := (sys_closedir_spec hc).1
        rw [hr]
        cases b with
        | true =>
          refine ⟨w3, [.closedir current_dir 0, .stat dirname ret2, .opendir dirname ret1],
            Or.inl rfl, ?_, ?_, ?_⟩
          · rw [hf3]; simp [World.print, hf2, hf1]
          · simp at ht3; rw [ht3]; simp [World.print, ht2, ht1]
          · simp [Call.isSetup]
        | false =>
          refine ⟨_, [.closedir current_dir (-1), .stat dirname ret2, .opendir dirname ret1],
            Or.inr ⟨rfl, current_dir, rfl⟩, ?_, ?_, ?_⟩
          · simp only [World.print]; rw [hf3]; simp [World.print, hf2, hf1]
          · simp at ht3; simp only [World.print]; rw [ht3]; simp [World.print, ht2, ht1]
          · simp [Call.isSetup]
      | some st_mode =>
        simp only
        rcases hmk : sys_mkdir destname st_mode w2 with ⟨ok, w3⟩
        have hms := sys_mkdir_spec hmk
        cases ok with
        | true =>
          have := (hms.2.2.2.2 rfl).1
          rw [hf2, hf1] at this
          rw [this] at hex
          simp at hex
        | false =>
          simp only
          obtain ⟨ht3, _⟩ := sys_mkdir_trace hmk
          have hf3 := hms.2.2.2.1 rfl
          obtain ⟨b, w4, hc, hr⟩ := closedir_or_exit_fail current_dir dirname ci
            (w3.print (.diag "Unable to create directory" destname))
          obtain ⟨ht4, _⟩ := sys_closedir_trace hc
          have hf4 := (sys_closedir_spec hc).1
          rw [hr]
          cases b with
          | true =>
            refine ⟨w4, [.closedir current_dir 0, .mkdir destname st_mode (-1),
              .stat dirname ret2, .opendir dirname ret1], Or.inl rfl, ?_, ?_, ?_⟩
            · rw [hf4]; simp [World.print, hf3, hf2, hf1]
            · simp at ht4; rw [ht4]; simp [World.print, ht3, ht2, ht1]
            · simp [Call.isSetup]
          | false =>
            refine ⟨_, [.closedir current_dir (-1), .mkdir destname st_mode (-1),
              .stat dirname ret2, .opendir dirname ret1], Or.inr ⟨rfl, current_dir, rfl⟩,
              ?_, ?_, ?_⟩
            · simp only [World.print]; rw [hf4]; simp [World.print, hf3, hf2, hf1]
            · simp at ht4; simp only [World.print]; rw [ht4]; simp [World.print, ht3, ht2, ht1]
            · simp [Call.isSetup]

/-! ## Handle accounting on the trace -/

theorem opened_append (a b : List Call) : opened (a ++ b) = opened a ++ opened b := by
  induction a with
  | nil => rfl
  | cons c t ih => simp [opened, ih]

theorem closed_append (a b : List Call) : closed (a ++ b) = closed a ++ closed b := by
  induction a with
  | nil => rfl
  | cons c t ih => simp [closed, ih]

theorem Acct.same (w : World) : Acct w w [] [] :=
  ⟨⟨[], rfl, rfl, rfl⟩, rfl, rfl⟩

theorem Acct.seq {a b c : World} {o1 c1 o2 c2 : List Nat} (h1 : Acct a b o1 c1)
    (h2 : Acct b c o2 c2) : Acct a c (o2 ++ o1) (c2 ++ c1) := by
  obtain ⟨n1, t1, ho1, hc1⟩ := h1.trace
  obtain ⟨n2, t2, ho2, hc2⟩ := h2.trace
  refine ⟨⟨n2 ++ n1, ?_, ?_, ?_⟩, ?_, ?_⟩
  · rw [t2, t1, List.append_assoc]
  · rw [opened_append, ho1, ho2]
  · rw [closed_append, hc1, hc2]
  · rw [h2.next, h1.next, List.length_append]; omega
  · have e1 := h1.fresh
    have e2 := h2.fresh
    rw [h1.next] at e2
    rw [List.length_append, ← List.range'_append_1, List.reverse_append, ← e1, ← e2]

theorem Acct.printed (w : World) (m : Msg) : Acct w (w.print m) [] [] :=
  ⟨⟨[], rfl, rfl, rfl⟩, rfl, rfl⟩

/-- A call that neither opens nor closes a handle. -/
theorem Acct.of_call {w w1 : World} (call : Call) (ht : w1.trace = call :: w.trace)
    (hn : w1.next = w.next) (ho : call.opens = []) (hc : call.closes = []) :
    Acct w w1 [] [] :=
  ⟨⟨[call], by simp [ht], by simp [opened, ho], by simp [closed, hc]⟩, by simp [hn], rfl⟩

theorem Acct.of_open {w w1 : World} (call : Call) (ht : w1.trace = call :: w.trace)
    (hn : w1.next = w.next + 1) (ho : call.opens = [w.next]) (hc : call.closes = []) :
    Acct w w1 [w.next] [] :=
  ⟨⟨[call], by simp [ht], by simp [opened, ho], by simp [closed, hc]⟩, by simp [hn],
    by simp [List.range']⟩

theorem Acct.of_close {w w1 : World} (call : Call) {fd : Nat} (ht : w1.trace = call :: w.trace)
    (hn : w1.next = w.next) (ho : call.opens = []) (hc : call.closes = [fd]) :
    Acct w w1 [] [fd] :=
  ⟨⟨[call], by simp [ht], by simp [opened, ho], by simp [closed, hc]⟩, by simp [hn], rfl⟩

theorem acct_open_rd {path : Path} {w w1 : World} {r : Option Nat}
    (h : sys_open_rd path w = (r, w1)) : Acct w w1 r.toList [] := by
  unfold sys_open_rd at h
  rcases hn : w.next_ev with ⟨e, w0⟩
  have hs := next_ev_spec hn
  simp only [hn] at h
  split at h <;> simp [World.alloc, World.log] at h <;> obtain ⟨rfl, rfl⟩ := h
  · exact Acct.of_call (.open_rd path (-1)) (by simp [hs.2.2.2.1]) (by simp [hs.2.2.1])
      (by simp [Call.opens]) rfl
  · rw [hs.2.2.1]
    exact Acct.of_open (.open_rd path w.next) (by simp [hs.2.2.2.1]) (by simp [hs.2.2.1])
      (by simp [Call.opens]) rfl

theorem acct_opendir {path : Path} {isdir : Bool} {w w1 : World} {r : Option Nat}
    (h : sys_opendir path isdir w = (r, w1)) : Acct w w1 r.toList [] := by
  unfold sys_opendir at h
  rcases hn : w.next_ev with ⟨e, w0⟩
  have hs := next_ev_spec hn
  simp only [hn] at h
  split at h <;> simp [World.alloc, World.log] at h <;> obtain ⟨rfl, rfl⟩ := h
  · exact Acct.of_call (.opendir path (-1)) (by simp [hs.2.2.2.1]) (by simp [hs.2.2.1])
      (by simp [Call.opens]) rfl
  · rw [hs.2.2.1]
    exact Acct.of_open (.opendir path w.next) (by simp [hs.2.2.2.1]) (by simp [hs.2.2.1])
      (by simp [Call.opens]) rfl

theorem acct_open_wr {path : Path} {mode : Nat} {w w1 : World} {r : Option Nat}
    (h : sys_open_wr path mode w = (r, w1)) : Acct w w1 r.toList [] := by
  unfold sys_open_wr at h
  rcases hn : w.next_ev with ⟨e, w0⟩
  have hs := next_ev_spec hn
  simp only [hn] at h
  split at h
  · simp [World.log] at h; obtain ⟨rfl, rfl⟩ := h
    exact Acct.of_call (.open_wr path mode (-1)) (by simp [hs.2.2.2.1]) (by simp [hs.2.2.1])
      (by simp [Call.opens]) rfl
  · split at h
    · simp [World.log] at h; obtain ⟨rfl, rfl⟩ := h
      exact Acct.of_call (.open_wr path mode (-1)) (by simp [hs.2.2.2.1]) (by simp [hs.2.2.1])
        (by simp [Call.opens]) rfl
    · simp [World.log, World.alloc] at h; obtain ⟨rfl, rfl⟩ := h
      rw [hs.2.2.1]
      exact Acct.of_open (.open_wr path mode w.next) (by simp [hs.2.2.2.1]) (by simp [hs.2.2.1])
        (by simp [Call.opens]) rfl
    · simp [World.log, World.alloc] at h; obtain ⟨rfl, rfl⟩ := h
      rw [hs.2.2.1]
      exact Acct.of_open (.open_wr path mode w.next) (by simp [hs.2.2.2.1]) (by simp [hs.2.2.1])
        (by simp [Call.opens]) rfl

theorem acct_stat {path : Path} {obj : Option Node} {w w1 : World} {r : Option Nat}
    (h : sys_stat path obj w = (r, w1)) : Acct w w1 [] [] := by
  obtain ⟨ret, ht, _⟩ := sys_stat_trace h
  exact Acct.of_call _ ht (sys_stat_spec h).2.2.2.1 rfl rfl

theorem acct_close {fd : Nat} {w w1 : World} {b : Bool} (h : sys_close fd w = (b, w1)) :
    Acct w w1 [] (if b then [fd] else []) := by
  unfold sys_close at h
  rcases hn : w.next_ev with ⟨e, w0⟩
  have hs := next_ev_spec hn
  simp only [hn] at h
  split at h <;> simp [World.log] at h <;> obtain ⟨rfl, rfl⟩ := h
  · exact Acct.of_call (.close fd (-1)) (by simp [hs.2.2.2.1]) (by simp [hs.2.2.1]) rfl
      (by simp [Call.closes])
  · exact Acct.of_close (.close fd 0) (by simp [hs.2.2.2.1]) (by simp [hs.2.2.1]) rfl
      (by simp [Call.closes])

theorem acct_closedir {fd : Nat} {w w1 : World} {b : Bool} (h : sys_closedir fd w = (b, w1)) :
    Acct w w1 [] (if b then [fd] else []) := by
  obtain ⟨ht, _⟩ := sys_closedir_trace h
  have hn := (sys_closedir_spec h).2.2.1
  cases b with
  | true => exact Acct.of_close _ ht hn rfl (by simp [Call.closes])
  | false => exact Acct.of_call _ ht hn rfl (by simp [Call.closes])

theorem acct_mkdir {path : Path} {mode : Nat} {w w1 : World} {b : Bool}
    (h : sys_mkdir path mode w = (b, w1)) : Acct w w1 [] [] := by
  unfold sys_mkdir at h
  rcases hn : w.next_ev with ⟨e, w0⟩
  have hs := next_ev_spec hn
  simp only [hn] at h
  split at h <;> simp [World.log] at h <;> obtain ⟨rfl, rfl⟩ := h
  · exact Acct.of_call (.mkdir path mode (-1)) (by simp [hs.2.2.2.1]) (by simp [hs.2.2.1]) rfl rfl
  · exact Acct.of_call (.mkdir path mode 0) (by simp [hs.2.2.2.1]) (by simp [hs.2.2.1]) rfl rfl

theorem acct_readdir {dirp : Nat} {name : Option Path} {w w1 : World} {b : Bool}
    (h : sys_readdir dirp name w = (b, w1)) : Acct w w1 [] [] := by
  unfold sys_readdir at h
  rcases hn : w.next_ev with ⟨e, w0⟩
  have hs := next_ev_spec hn
  simp only [hn] at h
  split at h <;> simp [World.log] at h <;> obtain ⟨rfl, rfl⟩ := h
  · exact Acct.of_call (.readdir dirp none) (by simp [hs.2.2.2.1]) (by simp [hs.2.2.1]) rfl rfl
  · exact Acct.of_call (.readdir dirp name) (by simp [hs.2.2.2.1]) (by simp [hs.2.2.1]) rfl rfl

theorem acct_malloc {size : Nat} {w w1 : World} {b : Bool}
    (h : sys_malloc size w = (b, w1)) : Acct w w1 [] [] := by
  unfold sys_malloc at h
  rcases hn : w.next_ev with ⟨e, w0⟩
  have hs := next_ev_spec hn
  simp only [hn] at h
  simp [World.log] at h
  obtain ⟨_, rfl⟩ := h
  exact Acct.of_call (.malloc size (!e.fails)) (by simp [hs.2.2.2.1]) (by simp [hs.2.2.1]) rfl rfl

theorem acct_read {fd : Nat} {rest rest' : Option (List Byte)} {w w1 : World} {r : RW}
    {buf : List Byte} (h : sys_read fd rest w = (r, buf, rest', w1)) :
    ∃ ret, Acct w w1 [] [] ∧ w1.trace = .read fd ret :: w.trace := by
  unfold sys_read at h
  rcases hn : w.next_ev with ⟨e, w0⟩
  have hs := next_ev_spec hn
  simp only [hn] at h
  split at h
  · simp [World.log] at h; obtain ⟨_, _, _, rfl⟩ := h
    exact ⟨-1, Acct.of_call (.read fd (-1)) (by simp [hs.2.2.2.1]) (by simp [hs.2.2.1]) rfl rfl,
      by simp [hs.2.2.2.1]⟩
  · split at h
    · simp [World.log] at h; obtain ⟨_, _, _, rfl⟩ := h
      exact ⟨-1, Acct.of_call (.read fd (-1)) (by simp [hs.2.2.2.1]) (by simp [hs.2.2.1]) rfl rfl,
        by simp [hs.2.2.2.1]⟩
    · simp [World.log] at h; obtain ⟨_, _, _, rfl⟩ := h
      exact ⟨-1, Acct.of_call (.read fd (-1)) (by simp [hs.2.2.2.1]) (by simp [hs.2.2.1]) rfl rfl,
        by simp [hs.2.2.2.1]⟩
    · simp [World.log] at h; obtain ⟨_, _, _, rfl⟩ := h
      exact ⟨_, Acct.of_call (.read fd _) (by simp [hs.2.2.2.1]; rfl) (by simp [hs.2.2.1]) rfl rfl,
        by simp [hs.2.2.2.1]; rfl⟩
    · simp [World.log] at h; obtain ⟨_, _, _, rfl⟩ := h
      exact ⟨_, Acct.of_call (.read fd _) (by simp [hs.2.2.2.1]; rfl) (by simp [hs.2.2.1]) rfl rfl,
        by simp [hs.2.2.2.1]; rfl⟩

theorem acct_write {d d' : OutFd} {buf : List Byte} {w w1 : World} {r : RW}
    (h : sys_write d buf w = (r, d', w1)) :
    ∃ ret, Acct w w1 [] [] ∧ w1.trace = .write d.fd buf.length ret :: w.trace := by
  unfold sys_write at h
  rcases hn : w.next_ev with ⟨e, w0⟩
  have hs := next_ev_spec hn
  simp only [hn] at h
  split at h
  · simp [World.log] at h; obtain ⟨_, _, rfl⟩ := h
    exact ⟨-1, Acct.of_call (.write d.fd buf.length (-1)) (by simp [hs.2.2.2.1])
      (by simp [hs.2.2.1]) rfl rfl, by simp [hs.2.2.2.1]⟩
  · simp [World.log] at h; obtain ⟨_, _, rfl⟩ := h
    exact ⟨-1, Acct.of_call (.write d.fd buf.length (-1)) (by simp [hs.2.2.2.1])
      (by simp [hs.2.2.1]) rfl rfl, by simp [hs.2.2.2.1]⟩
  · simp [World.log] at h; obtain ⟨_, _, rfl⟩ := h
    exact ⟨_, Acct.of_call (.write d.fd buf.length _) (by simp [World.put, hs.2.2.2.1]; rfl)
      (by simp [hs.2.2.1]) rfl rfl, by simp [World.put, hs.2.2.2.1]; rfl⟩
  · simp [World.log] at h; obtain ⟨_, _, rfl⟩ := h
    exact ⟨_, Acct.of_call (.write d.fd buf.length _) (by simp [World.put, hs.2.2.2.1]; rfl)
      (by simp [hs.2.2.1]) rfl rfl, by simp [World.put, hs.2.2.2.1]; rfl⟩

theorem Acct.cast {w w' : World} {o c o' c' : List Nat} (h : Acct w w' o c) (ho : o = o')
    (hc : c = c') : Acct w w' o' c' := by
  subst ho hc
  exact h

theorem close_or_exit_acct {fd : Nat} {name : Path} {w : World} {k : World → Result}
    {c : Int} {ci' : copy_info} {w' : World}
    (h : close_or_exit fd name w k = .ret c ci' w') :
    ∃ w1, Acct w w1 [] [fd] ∧ k w1 = .ret c ci' w' := by
  obtain ⟨w1, hc, hk⟩ := close_or_exit_ret h
  exact ⟨w1, by simpa using acct_close hc, hk⟩

theorem closedir_or_exit_acct {fd : Nat} {name : Path} {w : World} {k : World → Result}
    {c : Int} {ci' : copy_info} {w' : World}
    (h : closedir_or_exit fd name w k = .ret c ci' w') :
    ∃ w1, Acct w w1 [] [fd] ∧ k w1 = .ret c ci' w' := by
  unfold closedir_or_exit at h
  rcases hc : sys_closedir fd w with ⟨b, w1⟩
  rw [hc] at h
  cases b
  · simp at h
  · exact ⟨w1, by simpa using acct_closedir hc, h⟩

theorem abort_copy_acct {source dest : Path} {i d : Nat} {ci : copy_info} {w : World}
    {c : Int} {ci' : copy_info} {w' : World}
    (h : abort_copy source dest i d ci w = .ret c ci' w') : Acct w w' [] [d, i] := by
  unfold abort_copy at h
  obtain ⟨w1, a1, h⟩ := close_or_exit_acct h
  obtain ⟨w2, a2, h⟩ := close_or_exit_acct h
  simp at h
  obtain ⟨_, _, rfl⟩ := h
  exact (a1.seq a2).cast rfl rfl

theorem write_loop_acct {source dest : Path} {i : Nat} {ci : copy_info} {buffer : List Byte} :
    ∀ (fuel : Nat) (d : OutFd) (cur : Int) (w : World),
      (∀ d' cur' w', write_loop source dest i ci buffer fuel d cur w = .next (d', cur') w' →
        Acct w w' [] []) ∧
      (∀ c ci' w', write_loop source dest i ci buffer fuel d cur w = .stop (.ret c ci' w') →
        Acct w w' [] [d.fd, i]) := by
  intro fuel
  induction fuel with
  | zero => intro d cur w; simp [write_loop]
  | succ n ih =>
    intro d cur w
    simp only [write_loop]
    split
    · split
      · next d1 w1 hw =>
        obtain ⟨_, a, _⟩ := acct_write hw
        have hfd := (sys_write_spec hw).2.2.2.1
        obtain ⟨ih1, ih2⟩ := ih d1 cur w1
        exact ⟨fun d' cur' w' h => (a.seq (ih1 d' cur' w' h)).cast rfl rfl,
          fun c ci' w' h => (a.seq (ih2 c ci' w' h)).cast rfl (by simp [hfd])⟩
      · next d1 w1 hw =>
        obtain ⟨_, a, _⟩ := acct_write hw
        have hfd := (sys_write_spec hw).2.2.2.1
        constructor
        · intro d' cur' w' h; simp at h
        · intro c ci' w' h
          simp at h
          exact (a.seq ((Acct.printed _ _).seq (abort_copy_acct h))).cast rfl (by simp [hfd])
      · next k d1 w1 hw =>
        obtain ⟨_, a, _⟩ := acct_write hw
        have hfd := (sys_write_spec hw).2.2.2.1
        obtain ⟨ih1, ih2⟩ := ih d1 (cur + k) w1
        exact ⟨fun d' cur' w' h => (a.seq (ih1 d' cur' w' h)).cast rfl rfl,
          fun c ci' w' h => (a.seq (ih2 c ci' w' h)).cast rfl (by simp [hfd])⟩
    · constructor
      · intro d' cur' w' h
        simp at h
        obtain ⟨_, rfl⟩ := h
        exact Acct.same _
      · intro c ci' w' h; simp at h

theorem copy_loop_acct {source dest : Path} {i : Nat} {ci : copy_info} :
    ∀ (fuel : Nat) (rest : Option (List Byte)) (d : OutFd) (t : Int) (w : World),
      (∀ t' w', copy_loop source dest i ci fuel rest d t w = .next t' w' → Acct w w' [] []) ∧
      (∀ c ci' w', copy_loop source dest i ci fuel rest d t w = .stop (.ret c ci' w') →
        Acct w w' [] [d.fd, i]) := by
  intro fuel
  induction fuel with
  | zero => intro rest d t w; simp [copy_loop]
  | succ n ih =>
    intro rest d t w
    simp only [copy_loop]
    split
    · next rest1 w1 hr =>
      obtain ⟨_, a, _⟩ := acct_read hr
      obtain ⟨ih1, ih2⟩ := ih rest1 d t w1
      exact ⟨fun t' w' h => (a.seq (ih1 t' w' h)).cast rfl rfl,
        fun c ci' w' h => (a.seq (ih2 c ci' w' h)).cast rfl rfl⟩
    · next w1 hr =>
      obtain ⟨_, a, _⟩ := acct_read hr
      constructor
      · intro t' w' h; simp at h
      · intro c ci' w' h
        simp at h
        exact (a.seq ((Acct.printed _ _).seq (abort_copy_acct h))).cast rfl rfl
    · next w1 hr =>
      obtain ⟨_, a, _⟩ := acct_read hr
      constructor
      · intro t' w' h
        simp at h
        obtain ⟨_, rfl⟩ := h
        exact a
      · intro c ci' w' h; simp at h
    · next k buffer rest1 w1 hr =>
      obtain ⟨_, a, _⟩ := acct_read hr
      split
      · next d1 w2 hw =>
        obtain ⟨_, a2, _⟩ := acct_write hw
        have hfd := (sys_write_spec hw).2.2.2.1
        constructor
        · intro t' w' h; simp at h
        · intro c ci' w' h
          simp at h
          exact (a.seq (a2.seq ((Acct.printed _ _).seq (abort_copy_acct h)))).cast rfl
            (by simp [hfd])
      · next r d1 w2 _ hw =>
        obtain ⟨_, a2, _⟩ := acct_write hw
        have hfd := (sys_write_spec hw).2.2.2.1
        split
        · next res hwl =>
          constructor
          · intro t' w' h; simp at h
          · intro c ci' w' h
            simp at h
            subst h
            exact (a.seq (a2.seq ((write_loop_acct _ _ _ _).2 c ci' w' hwl))).cast rfl
              (by simp [hfd])
        · next d2 cur2 w3 hwl =>
          have a3 := (write_loop_acct _ _ _ _).1 d2 cur2 w3 hwl
          have hfd2 := ((write_loop_frame _ _ _ _).1 d2 cur2 w3 hwl).2.2.1
          obtain ⟨ih1, ih2⟩ := ih rest1 d2 (wrap32 (t + cur2)) w3
          exact ⟨fun t' w' h => (a.seq (a2.seq (a3.seq (ih1 t' w' h)))).cast rfl rfl,
            fun c ci' w' h => (a.seq (a2.seq (a3.seq (ih2 c ci' w' h)))).cast rfl
              (by simp [hfd, hfd2])⟩

/-- A returning `filecopy` has closed, once each, exactly the handles it opened. -/
theorem filecopy_acct {source dest : Path} {src : Node} {ci : copy_info} {w : World}
    {c : Int} {ci' : copy_info} {w' : World}
    (h : filecopy source dest src ci w = .ret c ci' w') : ∃ o, Acct w w' o o := by
  unfold filecopy at h
  split at h
  · next w1 ho =>
    simp at h
    obtain ⟨_, _, rfl⟩ := h
    exact ⟨[], ((acct_open_rd ho).seq (Acct.printed _ _)).cast rfl rfl⟩
  · next input_fd w1 ho =>
    have a1 := acct_open_rd ho
    simp only [Option.toList] at a1
    split at h
    · next w2 hst =>
      obtain ⟨w3, a3, h⟩ := close_or_exit_acct h
      simp at h
      obtain ⟨_, _, rfl⟩ := h
      exact ⟨[input_fd], (a1.seq ((acct_stat hst).seq ((Acct.printed _ _).seq a3))).cast
        rfl rfl⟩
    · next st_mode w2 hst =>
      have a2 := acct_stat hst
      split at h
      · next w3 hop =>
        obtain ⟨w4, a4, h⟩ := close_or_exit_acct h
        simp at h
        obtain ⟨_, _, rfl⟩ := h
        exact ⟨[input_fd], (a1.seq (a2.seq ((acct_open_wr hop).seq
          ((Acct.printed _ _).seq a4)))).cast rfl rfl⟩
      · next dest_fd w3 hop =>
        have a3 := acct_open_wr hop
        simp only [Option.toList] at a3
        split at h
        · next r hcl =>
          subst h
          have a4 := (copy_loop_acct _ _ _ _ _).2 c ci' w' hcl
          exact ⟨[dest_fd, input_fd], (a1.seq (a2.seq (a3.seq a4))).cast rfl rfl⟩
        · next total w4 hcl =>
          have a4 := (copy_loop_acct _ _ _ _ _).1 total w4 hcl
          split at h
          · split at h <;> simp at h
          · next w5 hc1 =>
            have a5 := acct_close hc1
            obtain ⟨w6, a6, h⟩ := close_or_exit_acct h
            simp at h
            obtain ⟨_, _, rfl⟩ := h
            exact ⟨[dest_fd, input_fd], (a1.seq (a2.seq (a3.seq (a4.seq
              ((Acct.printed _ _).seq (a5.seq a6)))))).cast rfl rfl⟩

mutual
theorem recursive_directory_copy_acct (dirname destname : Path) :
    ∀ (src : Node) (ci : copy_info) (w : World) (c : Int) (ci' : copy_info) (w' : World),
      recursive_directory_copy dirname destname src ci w = .ret c ci' w' →
      ∃ o cl, Acct w w' o cl ∧ cl.Perm o
  | .file _ _, ci, w, c, ci', w' => by
    intro h
    simp only [recursive_directory_copy] at h
    rcases ho : sys_opendir dirname false w with ⟨r, w1⟩
    rw [ho] at h
    simp at h
    obtain ⟨_, _, rfl⟩ := h
    have hr : r = none := by
      cases r with
      | none => rfl
      | some fd => simpa using ((sys_opendir_spec ho).2.2.2 fd rfl).1
    subst hr
    exact ⟨[], [], ((acct_opendir ho).seq (Acct.printed _ _)).cast rfl rfl, List.Perm.refl _⟩
  | .other _ _ _, ci, w, c, ci', w' => by
    intro h
    simp only [recursive_directory_copy] at h
    rcases ho : sys_opendir dirname false w with ⟨r, w1⟩
    rw [ho] at h
    simp at h
    obtain ⟨_, _, rfl⟩ := h
    have hr : r = none := by
      cases r with
      | none => rfl
      | some fd => simpa using ((sys_opendir_spec ho).2.2.2 fd rfl).1
    subst hr
    exact ⟨[], [], ((acct_opendir ho).seq (Acct.printed _ _)).cast rfl rfl, List.Perm.refl _⟩
  | .dir perm entries, ci, w, c, ci', w' => by
    intro h
    simp only [recursive_directory_copy] at h
    split at h
    · next w1 ho =>
      simp at h
      obtain ⟨_, _, rfl⟩ := h
      exact ⟨[], [], ((acct_opendir ho).seq (Acct.printed _ _)).cast rfl rfl, List.Perm.refl _⟩
    · next current_dir w1 ho =>
      have a1 := acct_opendir ho
      simp only [Option.toList] at a1
      split at h
      · next w2 hst =>
        obtain ⟨w3, a3, h⟩ := closedir_or_exit_acct h
        simp at h
        obtain ⟨_, _, rfl⟩ := h
        exact ⟨[current_dir], [current_dir],
          (a1.seq ((acct_stat hst).seq ((Acct.printed _ _).seq a3))).cast rfl rfl,
          List.Perm.refl _⟩
      · next st_mode w2 hst =>
        have a2 := acct_stat hst
        split at h
        · next w3 hmk =>
          obtain ⟨w4, a4, h⟩ := closedir_or_exit_acct h
          simp at h
          obtain ⟨_, _, rfl⟩ := h
          exact ⟨[current_dir], [current_dir],
            (a1.seq (a2.seq ((acct_mkdir hmk).seq ((Acct.printed _ _).seq a4)))).cast
              rfl rfl, List.Perm.refl _⟩
        · next w3 hmk =>
          obtain ⟨o, cl, a4, hp⟩ :=
            dir_loop_acct dirname destname current_dir true entries _ _ _ _ _ h
          refine ⟨o ++ [current_dir], cl,
            (a1.seq (a2.seq ((acct_mkdir hmk).seq ((Acct.printed _ _).seq a4)))).cast
              (by simp) (by simp), ?_⟩
          exact hp.trans (List.perm_append_singleton _ _).symm
termination_by structural src => src
theorem dir_loop_acct (dirname destname : Path) (current_dir : Nat) (first : Bool) :
    ∀ (entries : List (Path × Node)) (ci : copy_info) (w : World) (c : Int) (ci' : copy_info)
      (w' : World),
      dir_loop dirname destname current_dir first entries ci w = .ret c ci' w' →
      ∃ o cl, Acct w w' o cl ∧ cl.Perm (current_dir :: o)
  | [], ci, w, c, ci', w' => by
    intro h
    simp only [dir_loop] at h
    split at h
    · next w1 hrd =>
      obtain ⟨w2, a2, h⟩ := closedir_or_exit_acct h
      simp at h
      obtain ⟨_, _, rfl⟩ := h
      exact ⟨[], [current_dir],
        ((acct_readdir hrd).seq ((Acct.printed _ _).seq a2)).cast rfl rfl, List.Perm.refl _⟩
    · next w1 hrd =>
      obtain ⟨w2, a2, h⟩ := closedir_or_exit_acct h
      simp at h
      obtain ⟨_, _, rfl⟩ := h
      exact ⟨[], [current_dir], ((acct_readdir hrd).seq a2).cast rfl rfl, List.Perm.refl _⟩
  | (d_name, node) :: rest, ci, w, c, ci', w' => by
    intro h
    simp only [dir_loop] at h
    split at h
    · next w1 hrd =>
      obtain ⟨w2, a2, h⟩ := closedir_or_exit_acct h
      simp at h
      obtain ⟨_, _, rfl⟩ := h
      exact ⟨[], [current_dir],
        ((acct_readdir hrd).seq ((Acct.printed _ _).seq a2)).cast rfl rfl, List.Perm.refl _⟩
    · next w1 hrd =>
      have a1 := acct_readdir hrd
      split at h
      · split at h
        · next w2 hm1 =>
          obtain ⟨w3, a3, h⟩ := closedir_or_exit_acct h
          simp at h
          obtain ⟨_, _, rfl⟩ := h
          exact ⟨[], [current_dir],
            (a1.seq ((acct_malloc hm1).seq ((Acct.printed _ _).seq a3))).cast rfl rfl,
            List.Perm.refl _⟩
        · next w2 hm1 =>
          have a2 := acct_malloc hm1
          split at h
          · next w3 hm2 =>
            obtain ⟨w4, a4, h⟩ := closedir_or_exit_acct h
            simp at h
            obtain ⟨_, _, rfl⟩ := h
            exact ⟨[], [current_dir],
              (a1.seq (a2.seq ((acct_malloc hm2).seq ((Acct.printed _ _).seq a4)))).cast
                rfl rfl, List.Perm.refl _⟩
          · next w3 hm2 =>
            have a3 := acct_malloc hm2
            have a123 : Acct w w3 [] [] := (a1.seq (a2.seq a3)).cast rfl rfl
            split at h
            · split at h
              · next code ci1 w4 hrec =>
                obtain ⟨o1, c1, a4, hp1⟩ :=
                  recursive_directory_copy_acct _ _ node _ _ _ _ _ hrec
                split at h
                · obtain ⟨w5, a5, h⟩ := closedir_or_exit_acct h
                  simp at h
                  obtain ⟨_, _, rfl⟩ := h
                  exact ⟨o1, current_dir :: c1, (a123.seq (a4.seq a5)).cast (by simp)
                    (by simp), List.Perm.cons _ hp1⟩
                · obtain ⟨o2, c2, a5, hp2⟩ :=
                    dir_loop_acct dirname destname current_dir false rest _ _ _ _ _ h
                  refine ⟨o2 ++ o1, c2 ++ c1, (a123.seq (a4.seq a5)).cast (by simp)
                    (by simp), ?_⟩
                  exact (List.Perm.append hp2 hp1)
              · next hnr => exact absurd h (hnr c ci' w')
            · split at h
              · split at h
                · next code ci1 w4 hfc =>
                  obtain ⟨o1, a4⟩ := filecopy_acct hfc
                  split at h
                  · obtain ⟨w5, a5, h⟩ := closedir_or_exit_acct h
                    simp at h
                    obtain ⟨_, _, rfl⟩ := h
                    exact ⟨o1, current_dir :: o1, (a123.seq (a4.seq a5)).cast (by simp)
                      (by simp), List.Perm.refl _⟩
                  · obtain ⟨o2, c2, a5, hp2⟩ :=
                      dir_loop_acct dirname destname current_dir false rest _ _ _ _ _ h
                    refine ⟨o2 ++ o1, c2 ++ o1, (a123.seq (a4.seq a5)).cast (by simp)
                      (by simp), ?_⟩
                    exact (List.Perm.append hp2 (List.Perm.refl _))
                · next hnr => exact absurd h (hnr c ci' w')
              · obtain ⟨w5, a5, h⟩ := closedir_or_exit_acct h
                simp at h
                obtain ⟨_, _, rfl⟩ := h
                exact ⟨[], [current_dir], (a123.seq ((Acct.printed _ _).seq a5)).cast rfl rfl,
                  List.Perm.refl _⟩
      · obtain ⟨o2, c2, a5, hp2⟩ :=
          dir_loop_acct dirname destname current_dir false rest _ _ _ _ _ h
        exact ⟨o2, c2, (a1.seq a5).cast (by simp) (by simp), hp2⟩
termination_by structural entries => entries
end

theorem Acct.since {w w' : World} {o cl : List Nat} (h : Acct w w' o cl) (c : Int)
    (ci' : copy_info) :
    opened ((Result.ret c ci' w').since w) = o ∧ closed ((Result.ret c ci' w').since w) = cl := by
  obtain ⟨new, ht, ho, hc⟩ := h.trace
  have : (Result.ret c ci' w').since w = new := by
    simp [Result.since, Result.world, ht]
  rw [this]
  exact ⟨ho, hc⟩

theorem Acct.nodup {w w' : World} {o cl : List Nat} (h : Acct w w' o cl) : o.Nodup := by
  rw [h.fresh, List.nodup_reverse]
  exact List.nodup_range' _ _

/-! ## Runs without a short write -/

theorem Acct.ext {w w' : World} {o c : List Nat} (h : Acct w w' o c) :
    ∃ new, w'.trace = new ++ w.trace := by
  obtain ⟨new, ht, _, _⟩ := h.trace
  exact ⟨new, ht⟩

theorem FullSince.split {w w1 w' : World} (h1 : ∃ n1, w1.trace = n1 ++ w.trace)
    (h2 : ∃ n2, w'.trace = n2 ++ w1.trace) (hf : FullSince w w') :
    FullSince w w1 ∧ FullSince w1 w' := by
  obtain ⟨n1, e1⟩ := h1
  obtain ⟨n2, e2⟩ := h2
  obtain ⟨new, e, hall⟩ := hf
  have : new = n2 ++ n1 := by
    rw [e2, e1, ← List.append_assoc] at e
    exact (List.append_cancel_right e).symm
  subst this
  exact ⟨⟨n1, e1, fun c hc => hall c (List.mem_append_right _ hc)⟩,
    ⟨n2, e2, fun c hc => hall c (List.mem_append_left _ hc)⟩⟩

theorem FullSince.chain {w w1 w' : World} (h1 : FullSince w w1) (h2 : FullSince w1 w') :
    FullSince w w' := by
  obtain ⟨n1, e1, f1⟩ := h1
  obtain ⟨n2, e2, f2⟩ := h2
  refine ⟨n2 ++ n1, by rw [e2, e1, List.append_assoc], fun c hc => ?_⟩
  rcases List.mem_append.mp hc with hc | hc
  · exact f2 c hc
  · exact f1 c hc

theorem FullSince.last_call {w w1 : World} {call : Call} (ht : w1.trace = call :: w.trace)
    (hf : FullSince w w1) : call.fullWrite = true := by
  obtain ⟨new, e, hall⟩ := hf
  have : new = [call] := by
    rw [ht] at e
    exact (@List.append_cancel_right _ [call] _ _ e).symm
  subst this
  exact hall call (by simp)

theorem FullSince.call {w w1 : World} (call : Call) (ht : w1.trace = call :: w.trace)
    (hf : call.fullWrite = true) : FullSince w w1 :=
  ⟨[call], by simp [ht], fun c hc => by simp at hc; subst hc; exact hf⟩

theorem full_write_count {fd count n : Nat}
    (h : (Call.write fd count (n : Int)).fullWrite = true) : n = 0 ∨ n = count := by
  simp only [Call.fullWrite, Bool.or_eq_true, decide_eq_true_eq] at h
  rcases h with h | h
  · left; omega
  · right; exact_mod_cast h

/-- The result of a `write` in a run without a short write: nothing or all. -/
theorem sys_write_full {d d' : OutFd} {buf : List Byte} {w w1 w' : World} {n : Nat}
    (h : sys_write d buf w = (.done n, d', w1)) (h2 : ∃ n2, w'.trace = n2 ++ w1.trace)
    (hf : FullSince w w') : n = 0 ∨ n = buf.length := by
  have ht := ((sys_write_spec h).2.2.2.2.2.2.2 n rfl).2.2.2.2
  have hf1 := (FullSince.split ⟨[.write d.fd buf.length n], by simp [ht]⟩ h2 hf).1
  exact full_write_count (FullSince.last_call ht hf1)

theorem FullSince.after_print (w : World) (m : Msg) : FullSince w (w.print m) :=
  ⟨[], rfl, fun c hc => by simp at hc⟩

theorem FullSince.of_since {w w' : World} {c : Int} {ci : copy_info}
    (he : ∃ new, w'.trace = new ++ w.trace)
    (h : FullWrites ((Result.ret c ci w').since w)) : FullSince w w' := by
  obtain ⟨new, hnew⟩ := he
  have : (Result.ret c ci w').since w = new := by
    simp [Result.since, Result.world, hnew]
  rw [this] at h
  exact ⟨new, hnew, h⟩

theorem Acct.ext_then {w w1 w' : World} {o c : List Nat} (h : Acct w w1 o c)
    (h2 : ∃ n2, w'.trace = n2 ++ w1.trace) : ∃ new, w'.trace = new ++ w.trace := by
  obtain ⟨n1, e1⟩ := h.ext
  obtain ⟨n2, e2⟩ := h2
  exact ⟨n2 ++ n1, by rw [e2, e1, List.append_assoc]⟩

theorem ext_trans {w w1 w' : World} (h1 : ∃ n1, w1.trace = n1 ++ w.trace)
    (h2 : ∃ n2, w'.trace = n2 ++ w1.trace) : ∃ new, w'.trace = new ++ w.trace := by
  obtain ⟨n1, e1⟩ := h1
  obtain ⟨n2, e2⟩ := h2
  exact ⟨n2 ++ n1, by rw [e2, e1, List.append_assoc]⟩

theorem ext_print (w : World) (m : Msg) : ∃ new, (w.print m).trace = new ++ w.trace :=
  ⟨[], rfl⟩

theorem FullSince.head {w w1 w' : World} (h1 : ∃ n1, w1.trace = n1 ++ w.trace)
    (h2 : ∃ n2, w'.trace = n2 ++ w1.trace) (hf : FullSince w w') : FullSince w w1 :=
  (FullSince.split h1 h2 hf).1

theorem FullSince.tail {w w1 w' : World} (h1 : ∃ n1, w1.trace = n1 ++ w.trace)
    (h2 : ∃ n2, w'.trace = n2 ++ w1.trace) (hf : FullSince w w') : FullSince w1 w' :=
  (FullSince.split h1 h2 hf).2

theorem filecopy_ext {source dest : Path} {src : Node} {ci : copy_info} {w : World}
    {c : Int} {ci' : copy_info} {w' : World}
    (h : filecopy source dest src ci w = .ret c ci' w') : ∃ new, w'.trace = new ++ w.trace := by
  obtain ⟨_, a⟩ := filecopy_acct h
  exact a.ext

theorem recursive_directory_copy_ext {dirname destname : Path} {src : Node} {ci : copy_info}
    {w : World} {c : Int} {ci' : copy_info} {w' : World}
    (h : recursive_directory_copy dirname destname src ci w = .ret c ci' w') :
    ∃ new, w'.trace = new ++ w.trace := by
  obtain ⟨_, _, a, _⟩ := recursive_directory_copy_acct _ _ _ _ _ _ _ _ h
  exact a.ext

theorem dir_loop_ext {dirname destname : Path} {current_dir : Nat} {first : Bool}
    {entries : List (Path × Node)} {ci : copy_info} {w : World} {c : Int} {ci' : copy_info}
    {w' : World} (h : dir_loop dirname destname current_dir first entries ci w = .ret c ci' w') :
    ∃ new, w'.trace = new ++ w.trace := by
  obtain ⟨_, _, a, _⟩ := dir_loop_acct _ _ _ _ _ _ _ _ _ _ h
  exact a.ext

/-! ## What a successful `filecopy` writes and counts -/

theorem wrap32_idem (x : Int) : wrap32 (wrap32 x) = wrap32 x := by
  unfold wrap32; omega

theorem wrap32_add_left (a b : Int) : wrap32 (wrap32 a + b) = wrap32 (a + b) := by
  unfold wrap32; omega

theorem wrap32_add_right (a b : Int) : wrap32 (a + wrap32 b) = wrap32 (a + b) := by
  unfold wrap32; omega

theorem wrap32_of_range {x : Int} (h1 : -2147483648 ≤ x) (h2 : x < 2147483648) :
    wrap32 x = x := by
  unfold wrap32; omega

theorem overwrite_append (done old buf : List Byte) :
    overwrite (done ++ old.drop done.length) done.length buf =
      (done ++ buf) ++ old.drop (done.length + buf.length) := by
  unfold overwrite
  rw [List.take_left, List.drop_append, List.drop_drop]

theorem write_loop_content {source dest : Path} {i : Nat} {ci : copy_info}
    {buffer : List Byte} {m : Nat} {c0 : List Byte} {off0 : Nat} {path : Path} :
    ∀ (fuel : Nat) (d : OutFd) (cur : Int) (w : World), d.path = path →
      ((cur = 0 ∧ d.off = off0 ∧ w.fs path = some (.file m c0)) ∨
        (cur = buffer.length ∧ d.off = off0 + buffer.length ∧
          w.fs path = some (.file m (overwrite c0 off0 buffer)))) →
      ∀ d' cur' w', write_loop source dest i ci buffer fuel d cur w = .next (d', cur') w' →
        FullSince w w' →
        cur' = buffer.length ∧ d'.off = off0 + buffer.length ∧
          w'.fs path = some (.file m (overwrite c0 off0 buffer)) := by
  intro fuel
  induction fuel with
  | zero => intro d cur w _ _ d' cur' w' h; simp [write_loop] at h
  | succ n ih =>
    intro d cur w hp hst d' cur' w' h hfull
    simp only [write_loop] at h
    split at h
    · next hlt =>
      have hst0 : cur = 0 ∧ d.off = off0 ∧ w.fs path = some (.file m c0) := by
        rcases hst with h0 | h1
        · exact h0
        · omega
      obtain ⟨hc0, hoff, hfs⟩ := hst0
      split at h
      · next d1 w1 hw =>
        have hs := sys_write_spec hw
        obtain ⟨e1, e2, _⟩ := hs.2.2.2.2.2.1 rfl
        subst e1
        obtain ⟨_, a1, _⟩ := acct_write hw
        have a2 := (write_loop_acct _ _ _ _).1 _ _ _ h
        exact ih _ _ _ hp (Or.inl ⟨hc0, hoff, by rw [e2]; exact hfs⟩) _ _ _ h
          (FullSince.split a1.ext a2.ext hfull).2
      · simp at h
      · next k d1 w1 hw =>
        have hs := sys_write_spec hw
        obtain ⟨_, hoff1, hfs1, _, _⟩ := hs.2.2.2.2.2.2.2 k rfl
        have hp1 : d1.path = path := by rw [hs.2.2.2.2.1, hp]
        obtain ⟨_, a1, _⟩ := acct_write hw
        have a2 := (write_loop_acct _ _ _ _).1 _ _ _ h
        have hfull1 := (FullSince.split a1.ext a2.ext hfull).2
        rcases sys_write_full hw a2.ext hfull with hk0 | hkn
        · subst hk0
          refine ih _ _ _ hp1 (Or.inl ⟨by simp [hc0], by omega, ?_⟩) _ _ _ h hfull1
          rw [hfs1]; simp [put_nil, hfs]
        · subst hkn
          refine ih _ _ _ hp1 (Or.inr ⟨by simp [hc0], by omega, ?_⟩) _ _ _ h hfull1
          rw [hfs1, put_fs]; simp [hp, hfs, hoff]
    · next hge =>
      simp at h
      obtain ⟨⟨rfl, rfl⟩, rfl⟩ := h
      rcases hst with ⟨h0, hoff, hfs⟩ | h1
      · have hb : buffer = [] := by
          have : buffer.length = 0 := by omega
          exact List.length_eq_zero.mp this
        subst hb
        exact ⟨by simp [h0], by simp [hoff], by simp [overwrite_nil, hfs]⟩
      · exact h1

theorem copy_loop_content {source dest : Path} {i : Nat} {ci : copy_info} (m : Nat)
    (old : List Byte) (path : Path) :
    ∀ (fuel : Nat) (rest : Option (List Byte)) (d : OutFd) (t : Int) (w : World)
      (bytes done : List Byte), d.path = path →
      rest = some bytes → d.off = done.length →
      w.fs path = some (.file m (done ++ old.drop done.length)) → wrap32 t = t →
      ∀ t' w', copy_loop source dest i ci fuel rest d t w = .next t' w' → FullSince w w' →
        t' = wrap32 (t + bytes.length) ∧
          w'.fs path = some (.file m (done ++ bytes ++ old.drop (done.length + bytes.length))) := by
  intro fuel
  induction fuel with
  | zero => intro rest d t w bytes done _ _ _ _ _ t' w' h; simp [copy_loop] at h
  | succ n ih =>
    intro rest d t w bytes done hp hrest hoff hfs ht t' w' h hfull
    simp only [copy_loop] at h
    split at h
    · next rest1 w1 hr =>
      have hs := sys_read_spec hr
      obtain ⟨e1, _⟩ := hs.2.2.2.2.1 rfl
      subst e1
      obtain ⟨_, a1, _⟩ := acct_read hr
      have a2 := (copy_loop_acct _ _ _ _ _).1 _ _ h
      exact ih _ _ _ _ bytes done hp hrest hoff (by rw [hs.1]; exact hfs) ht _ _ h
        (FullSince.split a1.ext a2.ext hfull).2
    · simp at h
    · next w1 hr =>
      have hs := sys_read_spec hr
      obtain ⟨bytes', hb, _, _, _, _, hnil⟩ := hs.2.2.2.2.2 0 rfl
      rw [hrest] at hb
      cases hb
      have := hnil rfl
      subst this
      simp at h
      obtain ⟨rfl, rfl⟩ := h
      simp [ht, hs.1, hfs]
    · next k buffer rest1 w1 hr =>
      have hs := sys_read_spec hr
      obtain ⟨bytes', hb, hbuf, hrest1, hle, hlen, _⟩ := hs.2.2.2.2.2 (k + 1) rfl
      rw [hrest] at hb
      cases hb
      obtain ⟨_, a1, _⟩ := acct_read hr
      have hfs1 : w1.fs path = some (.file m (done ++ old.drop done.length)) := by
        rw [hs.1]; exact hfs
      split at h
      · simp at h
      · next r d1 w2 hnerr hw =>
        have hws := sys_write_spec hw
        obtain ⟨_, a2, _⟩ := acct_write hw
        have hp1 : d1.path = path := by rw [hws.2.2.2.2.1, hp]
        have key : ∀ cur : Int,
            ((cur = 0 ∧ d1.off = done.length ∧
                w2.fs path = some (.file m (done ++ old.drop done.length))) ∨
              (cur = buffer.length ∧ d1.off = done.length + buffer.length ∧
                w2.fs path = some (.file m
                  (overwrite (done ++ old.drop done.length) done.length buffer)))) →
            (match write_loop source dest i ci buffer (w2.script.length + 2) d1 cur w2 with
              | .stop r => .stop r
              | .next (dest_fd, current_bytes_written) w =>
                copy_loop source dest i ci n rest1 dest_fd
                  (wrap32 (t + current_bytes_written)) w) = Step.next t' w' →
            (∃ n2, w'.trace = n2 ++ w2.trace) ∧
            (FullSince w2 w' →
              t' = wrap32 (t + bytes.length) ∧
                w'.fs path =
                  some (.file m (done ++ bytes ++ old.drop (done.length + bytes.length)))) := by
          intro cur hstate h
          split at h
          · simp at h
          · next d2 cur2 w3 hwl =>
            have a3 := (write_loop_acct _ _ _ _).1 _ _ _ hwl
            have a4 := (copy_loop_acct _ _ _ _ _).1 _ _ h
            refine ⟨(a3.seq a4).ext, fun hfull2 => ?_⟩
            obtain ⟨hfull3, hfull4⟩ := FullSince.split a3.ext a4.ext hfull2
            obtain ⟨hcur, hoff2, hfs3⟩ :=
              write_loop_content _ _ _ _ hp1 hstate _ _ _ hwl hfull3
            obtain ⟨_, _, _, hp2⟩ := (write_loop_frame _ _ _ _).1 _ _ _ hwl
            rw [overwrite_append] at hfs3
            have hoff2' : d2.off = (done ++ buffer).length := by simp [hoff2]
            have hfs3' : w3.fs path =
                some (.file m ((done ++ buffer) ++ old.drop (done ++ buffer).length)) := by
              simp [hfs3]
            obtain ⟨r1, r2⟩ := ih _ _ _ _ (bytes.drop (k + 1)) (done ++ buffer)
              (by rw [hp2, hp1]) hrest1 hoff2' hfs3' (wrap32_idem _) _ _ h hfull4
            constructor
            · rw [r1, wrap32_add_left, hcur, hlen]
              congr 1
              simp
              omega
            · rw [r2, hbuf]
              have e1 : done ++ List.take (k + 1) bytes ++ List.drop (k + 1) bytes =
                  done ++ bytes := by
                rw [List.append_assoc, List.take_append_drop]
              have e2 : (done ++ List.take (k + 1) bytes).length +
                  (List.drop (k + 1) bytes).length = done.length + bytes.length := by
                simp; omega
              rw [e1, e2]
        cases r with
        | err => exact absurd rfl hnerr
        | eintr =>
          obtain ⟨e1, e2, _⟩ := hws.2.2.2.2.2.1 rfl
          subst e1
          obtain ⟨hext, hkey⟩ := key 0 (Or.inl ⟨rfl, hoff, by rw [e2]; exact hfs1⟩) h
          have hfull1 := (FullSince.split a1.ext (a2.ext_then hext) hfull).2
          exact hkey (FullSince.split a2.ext hext hfull1).2
        | done j =>
          obtain ⟨_, hoff1, hfs2, _, _⟩ := hws.2.2.2.2.2.2.2 j rfl
          have hstate : ((j : Int) = 0 ∧ d1.off = done.length ∧
                w2.fs path = some (.file m (done ++ old.drop done.length))) ∨
              ((j : Int) = buffer.length ∧ d1.off = done.length + buffer.length ∧
                w2.fs path = some (.file m
                  (overwrite (done ++ old.drop done.length) done.length buffer))) →
              t' = wrap32 (t + bytes.length) ∧
                w'.fs path =
                  some (.file m (done ++ bytes ++ old.drop (done.length + bytes.length))) := by
            intro hstate
            obtain ⟨hext, hkey⟩ := key j hstate h
            have hfull1 := (FullSince.split a1.ext (a2.ext_then hext) hfull).2
            exact hkey (FullSince.split a2.ext hext hfull1).2
          have hext : ∃ n2, w'.trace = n2 ++ w2.trace := by
            split at h
            · simp at h
            · next d2 cur2 w3 hwl =>
              exact (((write_loop_acct _ _ _ _).1 _ _ _ hwl).seq
                ((copy_loop_acct _ _ _ _ _).1 _ _ h)).ext
          have hfull1 := (FullSince.split a1.ext (a2.ext_then hext) hfull).2
          apply hstate
          rcases sys_write_full hw hext hfull1 with hj0 | hjn
          · subst hj0
            exact Or.inl ⟨rfl, by omega, by rw [hfs2]; simp [put_nil, hfs1]⟩
          · subst hjn
            refine Or.inr ⟨rfl, by omega, ?_⟩
            rw [hfs2, put_fs]; simp [hp, hfs1, hoff]

theorem copy_loop_none {source dest : Path} {i : Nat} {ci : copy_info} :
    ∀ (fuel : Nat) (d : OutFd) (t : Int) (w : World) (t' : Int) (w' : World),
      copy_loop source dest i ci fuel none d t w ≠ .next t' w' := by
  intro fuel
  induction fuel with
  | zero => intro d t w t' w'; simp [copy_loop]
  | succ n ih =>
    intro d t w t' w' h
    simp only [copy_loop] at h
    split at h
    · next rest1 w1 hr =>
      obtain ⟨e1, _⟩ := (sys_read_spec hr).2.2.2.2.1 rfl
      subst e1
      exact ih _ _ _ _ _ h
    · simp at h
    · next w1 hr =>
      obtain ⟨bytes, hb, _⟩ := (sys_read_spec hr).2.2.2.2.2 0 rfl
      simp at hb
    · next k buffer rest1 w1 hr =>
      obtain ⟨bytes, hb, _⟩ := (sys_read_spec hr).2.2.2.2.2 (k + 1) rfl
      simp at hb

/-- A successful `filecopy` whose writes were each complete or empty: the counters grow by
one file and by the length of the source, and the destination holds the source
bytes, followed by what an already existing file had beyond that length. -/
theorem filecopy_success {source dest : Path} {src : Node} {ci : copy_info} {w : World}
    {ci' : copy_info} {w' : World} (hfull : FullSince w w')
    (h : filecopy source dest src ci w = .ret 0 ci' w') :
    ∃ bytes, src.data = some bytes ∧
      ci' = { ci with
        num_bytes := wrap32 (ci.num_bytes + bytes.length)
        num_files := wrap32 (ci.num_files + 1) } ∧
      ((w.fs dest = none ∧ w'.fs dest = some (.file src.st_mode bytes)) ∨
        (∃ m old, w.fs dest = some (.file m old) ∧
          w'.fs dest = some (.file m (bytes ++ old.drop bytes.length)))) := by
  unfold filecopy at h
  split at h
  · simp at h
  · next input_fd w1 ho =>
    have hs1 := sys_open_rd_spec ho
    split at h
    · obtain ⟨_, _, h⟩ := close_or_exit_ret h
      simp at h
    · next st_mode w2 hst =>
      have hs2 := sys_stat_spec hst
      obtain ⟨nd, hnd, hmode⟩ := hs2.2.2.2.2 st_mode rfl
      simp at hnd
      subst hnd
      split at h
      · obtain ⟨_, _, h⟩ := close_or_exit_ret h
        simp at h
      · next dest_fd w3 hop =>
        have hs3 := sys_open_wr_spec hop
        obtain ⟨_, _, _, _, hcase⟩ := hs3.2.2 dest_fd rfl
        have a03 := ((acct_open_rd ho).seq (acct_stat hst)).seq (acct_open_wr hop)
        have hfs2 : w2.fs = w.fs := by rw [hs2.1, hs1.1]
        split at h
        · next r hcl =>
          subst h
          have := (copy_loop_ret _ _ _ _ _ hcl).1
          simp at this
        · next total w4 hcl =>
          split at h
          · split at h <;> simp at h
          · next w5 hc1 =>
            have hs5 := sys_close_spec hc1
            obtain ⟨w6, hc2, h⟩ := close_or_exit_ret h
            have hs6 := sys_close_spec hc2
            simp at h
            obtain ⟨hci, rfl⟩ := h
            have hfs6 : w6.fs = w4.fs := by rw [hs6.1, hs5.1]; rfl
            have a34 := (copy_loop_acct _ _ _ _ _).1 _ _ hcl
            have a46 := ((Acct.printed w4 (.copied source dest)).seq (acct_close hc1)).seq
              (acct_close hc2)
            have hns3 : FullSince w3 w4 :=
              (FullSince.split a34.ext a46.ext
                (FullSince.split a03.ext (a34.seq a46).ext hfull).2).1
            cases hd : src.data with
            | none =>
              rw [hd] at hcl
              exact absurd hcl (copy_loop_none _ _ _ _ _ _)
            | some bytes =>
              rw [hd] at hcl
              refine ⟨bytes, rfl, ?_, ?_⟩
              · rcases hcase with ⟨_, hnew⟩ | ⟨m, c, _, hnew⟩
                · have := (copy_loop_content st_mode [] dest _ _ _ _ _
                    bytes [] rfl rfl rfl (by simpa using hnew) rfl _ _ hcl hns3).1
                  rw [← hci, this]
                  simp [wrap32_add_right]
                · have := (copy_loop_content m c dest _ _ _ _ _
                    bytes [] rfl rfl rfl (by simpa using hnew) rfl _ _ hcl hns3).1
                  rw [← hci, this]
                  simp [wrap32_add_right]
              · rcases hcase with ⟨hold, hnew⟩ | ⟨m, c, hold, hnew⟩
                · left
                  have := (copy_loop_content st_mode [] dest _ _ _ _ _
                    bytes [] rfl rfl rfl (by simpa using hnew) rfl _ _ hcl hns3).2
                  rw [hfs2] at hold
                  refine ⟨hold, ?_⟩
                  rw [hfs6, this, hmode]
                  simp
                · right
                  have := (copy_loop_content m c dest _ _ _ _ _
                    bytes [] rfl rfl rfl (by simpa using hnew) rfl _ _ hcl hns3).2
                  rw [hfs2] at hold
                  refine ⟨m, c, hold, ?_⟩
                  rw [hfs6, this]
                  simp

/-! ## The counters of a successful directory copy -/

theorem plus_inRange (ci : copy_info) (c : Census) : (ci.plus c).InRange :=
  ⟨wrap32_idem _, wrap32_idem _, wrap32_idem _⟩

theorem d_type_eq_8 {node : Node} (h : node.d_type = 8) : ∃ perm content, node = .file perm content := by
  cases node with
  | file perm content => exact ⟨perm, content, rfl⟩
  | dir _ _ => simp [Node.d_type] at h
  | other k _ _ => cases k <;> simp [Node.d_type, Kind.code] at h

mutual
theorem recursive_directory_copy_counts (dirname destname : Path) :
    ∀ (src : Node) (ci : copy_info) (w : World) (ci' : copy_info) (w' : World),
      ci.InRange → FullSince w w' →
      recursive_directory_copy dirname destname src ci w = .ret 0 ci' w' →
      ci' = ci.plus src.census
  | .file _ _, ci, w, ci', w' => by
    intro _ _ h
    simp only [recursive_directory_copy] at h
    simp at h
  | .other _ _ _, ci, w, ci', w' => by
    intro _ _ h
    simp only [recursive_directory_copy] at h
    simp at h
  | .dir perm entries, ci, w, ci', w' => by
    intro hci hns h
    simp only [recursive_directory_copy] at h
    split at h
    · simp at h
    · next current_dir w1 ho =>
      split at h
      · obtain ⟨_, _, _, _, h⟩ := closedir_or_exit_ret h
        simp at h
      · next st_mode w2 hst =>
        split at h
        · obtain ⟨_, _, _, _, h⟩ := closedir_or_exit_ret h
          simp at h
        · next w3 hmk =>
          have hns3 : FullSince (w3.print (.copied dirname destname)) w' :=
            FullSince.tail
              ((((acct_opendir ho).seq (acct_stat hst)).seq (acct_mkdir hmk)).seq
                (Acct.printed w3 _)).ext (dir_loop_ext h) hns
          have := dir_loop_counts dirname destname current_dir true entries
            { ci with num_dir := wrap32 (ci.num_dir + 1) } (w3.print (.copied dirname destname))
            ci' w' ⟨wrap32_idem _, hci.2.1, hci.2.2⟩ hns3 h
          rw [this]
          simp only [copy_info.plus, Node.census]
          rw [wrap32_add_left]
          congr 1
          push_cast
          ring_nf
termination_by structural src => src
theorem dir_loop_counts (dirname destname : Path) (current_dir : Nat) (first : Bool) :
    ∀ (entries : List (Path × Node)) (ci : copy_info) (w : World) (ci' : copy_info)
      (w' : World), ci.InRange → FullSince w w' →
      dir_loop dirname destname current_dir first entries ci w = .ret 0 ci' w' →
      ci' = ci.plus (census_entries entries)
  | [], ci, w, ci', w' => by
    intro hci _ h
    simp only [dir_loop] at h
    split at h
    · obtain ⟨_, _, _, _, h⟩ := closedir_or_exit_ret h
      simp at h
    · obtain ⟨_, _, _, _, h⟩ := closedir_or_exit_ret h
      simp at h
      rw [← h.1]
      simp [copy_info.plus, census_entries, hci.1, hci.2.1, hci.2.2]
  | (d_name, node) :: rest, ci, w, ci', w' => by
    intro hci hns h
    simp only [dir_loop] at h
    split at h
    · obtain ⟨_, _, _, _, h⟩ := closedir_or_exit_ret h
      simp at h
    · next w1 hrd =>
      have e1 := (acct_readdir hrd).ext
      split at h
      · next hname =>
        split at h
        · obtain ⟨_, _, _, _, h⟩ := closedir_or_exit_ret h
          simp at h
        · next w2 hm1 =>
          split at h
          · obtain ⟨_, _, _, _, h⟩ := closedir_or_exit_ret h
            simp at h
          · next w3 hm2 =>
            have e3 := (((acct_readdir hrd).seq (acct_malloc hm1)).seq (acct_malloc hm2)).ext
            have hcombine : ∀ ci1 : copy_info, ci1 = ci.plus node.census →
                ci' = ci1.plus (census_entries rest) →
                ci' = ci.plus (census_entries ((d_name, node) :: rest)) := by
              intro ci1 h1 h2
              rw [h2, h1, census_entries, if_pos hname]
              simp only [copy_info.plus, wrap32_add_left]
              simp [Int.add_assoc]
            split at h
            · split at h
              · next code ci1 w4 hrec =>
                split at h
                · obtain ⟨_, _, _, _, h⟩ := closedir_or_exit_ret h
                  simp at h
                · next hcode =>
                  simp at hcode
                  subst hcode
                  have e4 := recursive_directory_copy_ext hrec
                  have e5 := dir_loop_ext h
                  have hns3 := FullSince.tail e3 (ext_trans e4 e5) hns
                  have h1 := recursive_directory_copy_counts _ _ node ci w3 ci1 w4 hci
                    (hns3.head e4 e5) hrec
                  have h2 := dir_loop_counts dirname destname current_dir false rest ci1 w4 ci' w'
                    (h1 ▸ plus_inRange _ _) (hns3.tail e4 e5) h
                  exact hcombine ci1 h1 h2
              · next hnr => exact absurd h (hnr _ _ _)
            · split at h
              · next hd8 =>
                split at h
                · next code ci1 w4 hfc =>
                  split at h
                  · obtain ⟨_, _, _, _, h⟩ := closedir_or_exit_ret h
                    simp at h
                  · next hcode =>
                    simp at hcode
                    subst hcode
                    obtain ⟨perm, content, rfl⟩ := d_type_eq_8 hd8
                    have e4 := filecopy_ext hfc
                    have e5 := dir_loop_ext h
                    have hns3 := FullSince.tail e3 (ext_trans e4 e5) hns
                    obtain ⟨bytes, hb, h1, _⟩ := filecopy_success (hns3.head e4 e5) hfc
                    simp [Node.data] at hb
                    subst hb
                    have h1' : ci1 = ci.plus (Node.file perm content).census := by
                      rw [h1]
                      simp [copy_info.plus, Node.census, hci.1]
                    have h2 := dir_loop_counts dirname destname current_dir false rest ci1 w4
                      ci' w' (h1' ▸ plus_inRange _ _) (hns3.tail e4 e5) h
                    exact hcombine ci1 h1' h2
                · next hnr => exact absurd h (hnr _ _ _)
              · obtain ⟨_, _, _, _, h⟩ := closedir_or_exit_ret h
                simp at h
      · next hname =>
        have h2 := dir_loop_counts dirname destname current_dir false rest ci w1 ci' w' hci
          (FullSince.tail e1 (dir_loop_ext h) hns) h
        rw [h2, census_entries, if_neg hname]
termination_by structural entries => entries
end

theorem S_ISDIR_dir (perm : Nat) (entries : List (Path × Node)) :
    S_ISDIR (Node.dir perm entries).st_mode = true := by
  simp only [S_ISDIR, Node.st_mode]
  have : (4 * 4096 + perm % 4096) / 4096 % 16 = 4 := by omega
  simp [this]

/-- The calls of a returning `treecopy` extend the trace. -/
theorem treecopy_ext {source_file dest_file : Path} {src : Option Node} {w : World} {c : Int}
    {ci' : copy_info} {w' : World}
    (h : treecopy source_file dest_file src w = .ret c ci' w') :
    ∃ new, w'.trace = new ++ w.trace := by
  unfold treecopy at h
  simp only at h
  split at h
  · next st_mode w1 node hst =>
    have e1 := (acct_stat hst).ext
    split at h
    · split at h
      · next code ci1 w3 hfc =>
        have e2 := ext_trans e1 (filecopy_ext hfc)
        split at h
        · simp at h
          obtain ⟨_, _, rfl⟩ := h
          exact e2
        · simp at h
          obtain ⟨_, _, rfl⟩ := h
          exact ext_trans e2 (ext_print _ _)
      · next hnr =>
        exact absurd h (hnr _ _ _)
    · split at h
      · split at h
        · simp at h
        · next w2 hm =>
          have e2 := ext_trans e1 (acct_malloc hm).ext
          split at h
          · next code ci1 w3 hrec =>
            have e3 := ext_trans e2 (recursive_directory_copy_ext hrec)
            split at h
            · simp at h
              obtain ⟨_, _, rfl⟩ := h
              exact e3
            · simp at h
              obtain ⟨_, _, rfl⟩ := h
              exact ext_trans e3 (ext_print _ _)
          · next hnr =>
            exact absurd h (hnr _ _ _)
      · split at h
        · next code ci1 w3 hrec =>
          have e3 := ext_trans e1 (recursive_directory_copy_ext hrec)
          split at h
          · simp at h
            obtain ⟨_, _, rfl⟩ := h
            exact e3
          · simp at h
            obtain ⟨_, _, rfl⟩ := h
            exact ext_trans e3 (ext_print _ _)
        · next hnr =>
          exact absurd h (hnr _ _ _)
  · next r w1 _ hst =>
    simp at h
    obtain ⟨_, _, rfl⟩ := h
    exact ext_trans (acct_stat hst).ext (ext_print _ _)

/-- A successful `treecopy` of a directory in which every `write` transferred
either nothing or the whole chunk leaves the census of the tree in the counters (in `int` arithmetic) and prints
them in the summary line. -/
theorem treecopy_counts {source_file dest_file : Path} {perm : Nat}
    {entries : List (Path × Node)} {w : World} {ci' : copy_info} {w' : World}
    (hns : FullSince w w')
    (h : treecopy source_file dest_file (some (.dir perm entries)) w = .ret 0 ci' w') :
    ci' = (⟨0, 0, 0⟩ : copy_info).plus (Node.dir perm entries).census ∧
      w'.out.head? =
        some (.summary ci'.num_dir ci'.num_files ci'.num_bytes source_file dest_file) := by
  have h0 : (⟨0, 0, 0⟩ : copy_info).InRange := by
    refine ⟨?_, ?_, ?_⟩ <;> simp [wrap32]
  unfold treecopy at h
  simp only at h
  split at h
  · next st_mode w1 node hst hnode =>
    have hss := sys_stat_spec hst
    obtain ⟨nd, hnd, hmode⟩ := hss.2.2.2.2 st_mode rfl
    simp at hnd
    subst hnd
    cases hnode
    have e1 := (acct_stat hst).ext
    rw [hmode, S_ISDIR_dir] at h
    simp only [Bool.not_true, Bool.false_eq_true, if_false] at h
    split at h
    · split at h
      · simp at h
      · next w2 hm =>
        have e2 := ((acct_stat hst).seq (acct_malloc hm)).ext
        split at h
        · next code ci1 w3 hrec =>
          split at h
          · simp at h
          · next hcode =>
            simp at hcode
            subst hcode
            simp at h
            obtain ⟨rfl, rfl⟩ := h
            exact ⟨recursive_directory_copy_counts _ _ _ _ _ _ _ h0
              (FullSince.head (recursive_directory_copy_ext hrec) (ext_print _ _)
                (FullSince.tail e2 (ext_trans (recursive_directory_copy_ext hrec)
                  (ext_print _ _)) hns)) hrec, rfl⟩
        · next hnr => exact absurd h (hnr _ _ _)
    · split at h
      · next code ci1 w3 hrec =>
        split at h
        · simp at h
        · next hcode =>
          simp at hcode
          subst hcode
          simp at h
          obtain ⟨rfl, rfl⟩ := h
          exact ⟨recursive_directory_copy_counts _ _ _ _ _ _ _ h0
            (FullSince.head (recursive_directory_copy_ext hrec) (ext_print _ _)
              (FullSince.tail e1 (ext_trans (recursive_directory_copy_ext hrec)
                (ext_print _ _)) hns)) hrec, rfl⟩
      · next hnr => exact absurd h (hnr _ _ _)
  · simp at h

/-! ## Runs in which no system call fails -/

theorem next_ev_empty {w : World} (h : w.script = []) : w.next_ev = (.ok, w) := by
  unfold World.next_ev
  rw [h]

@[simp] theorem log_script (w : World) (c : Call) : (w.log c).script = w.script := rfl

@[simp] theorem log_handles (w : World) (c : Call) : (w.log c).handles = w.handles := rfl

@[simp] theorem log_fs (w : World) (c : Call) : (w.log c).fs = w.fs := rfl

@[simp] theorem log_next (w : World) (c : Call) : (w.log c).next = w.next := rfl

@[simp] theorem print_script (w : World) (m : Msg) : (w.print m).script = w.script := rfl

@[simp] theorem print_handles (w : World) (m : Msg) : (w.print m).handles = w.handles := rfl

@[simp] theorem print_fs (w : World) (m : Msg) : (w.print m).fs = w.fs := rfl

@[simp] theorem print_next (w : World) (m : Msg) : (w.print m).next = w.next := rfl

theorem sys_open_rd_empty (path : Path) {w : World} (h : w.script = []) :
    sys_open_rd path w =
      (some w.next, ({ w with handles := w.next :: w.handles, next := w.next + 1 } : World).log
        (.open_rd path w.next)) := by
  simp [sys_open_rd, next_ev_empty h, Ev.fails, World.alloc]

theorem sys_stat_empty {path : Path} (hp : path ≠ []) (n : Node) {w : World}
    (h : w.script = []) :
    sys_stat path (some n) w = (some n.st_mode, w.log (.stat path 0)) := by
  simp [sys_stat, next_ev_empty h, Ev.fails, hp]

theorem sys_opendir_empty (path : Path) {w : World} (h : w.script = []) :
    sys_opendir path true w =
      (some w.next, ({ w with handles := w.next :: w.handles, next := w.next + 1 } : World).log
        (.opendir path w.next)) := by
  simp [sys_opendir, next_ev_empty h, Ev.fails, World.alloc]

theorem sys_mkdir_empty {path : Path} (mode : Nat) {w : World} (h : w.script = [])
    (hfs : w.fs path = none) :
    sys_mkdir path mode w =
      (true, ({ w with fs := fun p => if p = path then some (.dir mode) else w.fs p } : World).log
        (.mkdir path mode 0)) := by
  simp [sys_mkdir, next_ev_empty h, Ev.fails, hfs]

theorem sys_readdir_empty (dirp : Nat) (name : Option Path) {w : World} (h : w.script = []) :
    sys_readdir dirp name w = (true, w.log (.readdir dirp name)) := by
  simp [sys_readdir, next_ev_empty h, Ev.fails]

theorem sys_malloc_empty (size : Nat) {w : World} (h : w.script = []) :
    sys_malloc size w = (true, w.log (.malloc size true)) := by
  simp [sys_malloc, next_ev_empty h, Ev.fails]

theorem sys_close_empty {fd : Nat} {w : World} (h : w.script = []) (hfd : fd ∈ w.handles) :
    sys_close fd w = (true, ({ w with handles := w.handles.erase fd } : World).log (.close fd 0)) := by
  simp [sys_close, next_ev_empty h, Ev.fails, hfd]

theorem sys_closedir_empty {fd : Nat} {w : World} (h : w.script = []) (hfd : fd ∈ w.handles) :
    sys_closedir fd w =
      (true, ({ w with handles := w.handles.erase fd } : World).log (.closedir fd 0)) := by
  simp [sys_closedir, next_ev_empty h, Ev.fails, hfd]

theorem sys_read_empty (fd : Nat) (bytes : List Byte) {w : World} (h : w.script = []) :
    sys_read fd (some bytes) w =
      (.done (min 4096 bytes.length), bytes.take (min 4096 bytes.length),
        some (bytes.drop (min 4096 bytes.length)),
        w.log (.read fd ((min 4096 bytes.length : Nat) : Int))) := by
  simp [sys_read, next_ev_empty h]

theorem sys_write_empty (d : OutFd) (buffer : List Byte) {w : World} (h : w.script = []) :
    sys_write d buffer w =
      (.done buffer.length, { d with off := d.off + buffer.length },
        (w.put d buffer).log (.write d.fd buffer.length buffer.length)) := by
  simp [sys_write, next_ev_empty h]

theorem copy_loop_empty (source dest : Path) (i : Nat) (ci : copy_info) :
    ∀ (fuel : Nat) (bytes : List Byte) (d : OutFd) (t : Int) (w : World), w.script = [] →
      bytes.length + 1 ≤ fuel →
      ∃ t' w', copy_loop source dest i ci fuel (some bytes) d t w = .next t' w' ∧
        w'.script = [] ∧ w'.handles = w.handles ∧ FullSince w w' := by
  intro fuel
  induction fuel with
  | zero => intro bytes d t w _ h; omega
  | succ n ih =>
    intro bytes d t w hs hfuel
    rw [copy_loop, sys_read_empty _ _ hs]
    rcases hn : min 4096 bytes.length with _ | k
    · exact ⟨t, _, rfl, by simp [hs], by simp, FullSince.call _ rfl rfl⟩
    · simp only
      rw [sys_write_empty _ _ (by simp [hs])]
      simp only
      have hlen : (List.take (k + 1) bytes).length = k + 1 := by
        rw [List.length_take]; omega
      have hwl : write_loop source dest i ci (List.take (k + 1) bytes)
          (((w.log (.read i ((k + 1 : Nat) : Int))).put d (List.take (k + 1) bytes)).log
            (.write d.fd (List.take (k + 1) bytes).length
              (List.take (k + 1) bytes).length)).script.length.succ.succ
          { d with off := d.off + (List.take (k + 1) bytes).length }
          ((List.take (k + 1) bytes).length : Int)
          (((w.log (.read i ((k + 1 : Nat) : Int))).put d (List.take (k + 1) bytes)).log
            (.write d.fd (List.take (k + 1) bytes).length (List.take (k + 1) bytes).length)) =
          .next ({ d with off := d.off + (List.take (k + 1) bytes).length },
            ((List.take (k + 1) bytes).length : Int))
            (((w.log (.read i ((k + 1 : Nat) : Int))).put d (List.take (k + 1) bytes)).log
              (.write d.fd (List.take (k + 1) bytes).length
                (List.take (k + 1) bytes).length)) := by
        rw [write_loop]
        simp
      rw [hwl]
      simp only
      obtain ⟨t', w', h1, h2, h3, h4⟩ := ih (bytes.drop (k + 1))
        { d with off := d.off + (List.take (k + 1) bytes).length }
        (wrap32 (t + ((List.take (k + 1) bytes).length : Int)))
        (((w.log (.read i ((k + 1 : Nat) : Int))).put d (List.take (k + 1) bytes)).log
          (.write d.fd (List.take (k + 1) bytes).length (List.take (k + 1) bytes).length))
        (by simp [hs]) (by rw [List.length_drop]; omega)
      refine ⟨t', w', h1, h2, by rw [h3]; simp, FullSince.chain ?_ h4⟩
      exact ⟨[_, _], rfl, by simp [FullWrites, Call.fullWrite]⟩

theorem sys_open_wr_empty (path : Path) (mode : Nat) {w : World} (h : w.script = [])
    (hfs : w.fs path = none ∨ ∃ m c, w.fs path = some (.file m c)) :
    ∃ w1, sys_open_wr path mode w = (some w.next, w1) ∧ w1.script = [] ∧
      w1.handles = w.next :: w.handles ∧ FullSince w w1 := by
  rcases hfs with hfs | ⟨m, c, hfs⟩
  · exact ⟨_, by simp [sys_open_wr, next_ev_empty h, Ev.fails, hfs, World.alloc]; rfl,
      by simp [h], by simp, FullSince.call (.open_wr path mode w.next) rfl rfl⟩
  · exact ⟨_, by simp [sys_open_wr, next_ev_empty h, Ev.fails, hfs, World.alloc]; rfl,
      by simp [h], by simp, FullSince.call (.open_wr path mode w.next) rfl rfl⟩

/-- With no failing system call, `filecopy` of a readable object to a path that
is free or names a file returns 0. -/
theorem filecopy_empty (source dest : Path) (src : Node) (ci : copy_info) {w : World}
    (bytes : List Byte) (hs : w.script = []) (hp : source ≠ []) (hd : src.data = some bytes)
    (hfs : w.fs dest = none ∨ ∃ m c, w.fs dest = some (.file m c)) :
    ∃ ci' w', filecopy source dest src ci w = .ret 0 ci' w' ∧ w'.script = [] ∧
      w'.handles = w.handles ∧ FullSince w w' := by
  rw [filecopy, sys_open_rd_empty _ hs]
  simp only
  rw [sys_stat_empty hp _ (by simp [hs])]
  simp only
  obtain ⟨w3, ho, hs3, hh3, hf3⟩ := sys_open_wr_empty dest src.st_mode
    (w := ({ w with handles := w.next :: w.handles, next := w.next + 1 } : World).log
      (.open_rd source w.next) |>.log (.stat source 0)) (by simp [hs]) (by simpa using hfs)
  rw [ho]
  simp only
  obtain ⟨t', w4, hcl, hs4, hh4, hf4⟩ := copy_loop_empty source dest w.next ci
    (w3.script.length + (src.data.getD []).length + 1) bytes
    ⟨(World.log (World.log { w with handles := w.next :: w.handles, next := w.next + 1 }
      (.open_rd source w.next)) (.stat source 0)).next, dest, 0⟩ 0 w3 hs3
    (by rw [hd]; simp)
  rw [hd] at hcl ⊢
  rw [hcl]
  simp only
  have hh4' : w4.handles = (w.next + 1) :: w.next :: w.handles := by
    rw [hh4, hh3]; simp
  rw [sys_close_empty (by simp [hs4]) (by simp [hh4'])]
  simp only
  rw [close_or_exit, sys_close_empty (by simp [hs4]) (by simp [hh4'])]
  simp only
  refine ⟨_, _, rfl, by simp [hs4], ?_, ?_⟩
  · simp [hh4']
  · refine FullSince.chain (FullSince.chain (FullSince.chain ?_ hf3) hf4) ?_
    · exact ⟨[_, _], rfl, by simp [FullWrites, Call.fullWrite]⟩
    · exact ⟨[_, _], rfl, by simp [FullWrites, Call.fullWrite]⟩

theorem dir_loop_one_file_empty (dirname destname : Path) (current_dir : Nat) (first : Bool)
    (d_name : Path) (perm : Nat) (content : List Byte) (ci : copy_info) {w : World}
    (hs : w.script = []) (hname : d_name ≠ ['.'] ∧ d_name ≠ ['.', '.'])
    (hdir : current_dir ∈ w.handles) (hfs : w.fs (destname ++ '/' :: d_name) = none) :
    ∃ ci' w', dir_loop dirname destname current_dir first [(d_name, .file perm content)] ci w =
      .ret 0 ci' w' ∧ FullSince w w' := by
  obtain ⟨ci1, w1, hfc, hs1, hh1, hf1⟩ := filecopy_empty (dirname ++ '/' :: d_name)
    (destname ++ '/' :: d_name) (.file perm content) ci
    (w := ((w.log (.readdir current_dir (some d_name))).log
      (.malloc (dirname.length + d_name.length + 2) true)).log
      (.malloc (destname.length + d_name.length + 2) true))
    content (by simp [hs]) (by simp) rfl (Or.inl (by simpa using hfs))
  rw [dir_loop, sys_readdir_empty _ _ hs]
  simp only
  rw [if_pos hname, sys_malloc_empty _ (by simp [hs])]
  simp only
  rw [sys_malloc_empty _ (by simp [hs])]
  simp only
  rw [if_neg (by simp [Node.d_type]), if_pos (by simp [Node.d_type]), hfc]
  simp only [ne_eq, not_true_eq_false, if_false]
  rw [dir_loop, sys_readdir_empty _ _ hs1]
  simp only
  rw [closedir_or_exit, sys_closedir_empty (by simp [hs1]) (by simpa [hh1] using hdir)]
  refine ⟨_, _, rfl, ?_⟩
  refine FullSince.chain (FullSince.chain ?_ hf1) ?_
  · exact ⟨[_, _, _], rfl, by simp [FullWrites, Call.fullWrite]⟩
  · exact ⟨[_, _], rfl, by simp [FullWrites, Call.fullWrite]⟩

/-- With no failing system call, the copy of a directory that holds one regular
file, of any content, to a fresh destination succeeds. -/
theorem one_file_tree_copied (content : List Byte) :
    ∃ ci' w', treecopy ['s'] ['d'] (some (.dir 493 [(['f'], .file 420 content)]))
      (World.init []) = .ret 0 ci' w' ∧ FullSince (World.init []) w' := by
  obtain ⟨ci1, w1, hdl, hf1⟩ := dir_loop_one_file_empty ['s'] ['d'] 3 true ['f'] 420 content
    ⟨wrap32 (0 + 1), 0, 0⟩
    (w := (({ (({ ((World.init []).log (.stat ['s'] 0)) with
        handles := [3], next := 4 } : World).log (.opendir ['s'] 3)).log (.stat ['s'] 0) with
        fs := fun p => if p = ['d'] then some (.dir (Node.dir 493
          [(['f'], .file 420 content)]).st_mode) else none } : World).log
        (.mkdir ['d'] (Node.dir 493 [(['f'], .file 420 content)]).st_mode 0)).print
        (.copied ['s'] ['d']))
    rfl (by decide) (by simp [World.log, World.print]) (by simp [World.log, World.print])
  refine ⟨ci1, w1.print (.summary ci1.num_dir ci1.num_files ci1.num_bytes ['s'] ['d']), ?_, ?_⟩
  swap
  · refine FullSince.chain ?_ (hf1.chain (FullSince.after_print _ _))
    exact ⟨[_, _, _, _], rfl, by simp [FullWrites, Call.fullWrite]⟩
  unfold treecopy
  simp only
  rw [sys_stat_empty (by simp) _ rfl]
  simp only [S_ISDIR_dir, Bool.not_true, Bool.false_eq_true, if_false]
  rw [if_neg (by decide), recursive_directory_copy, sys_opendir_empty _ rfl]
  simp only
  rw [sys_stat_empty (by simp) _ rfl]
  simp only
  rw [sys_mkdir_empty _ rfl rfl]
  simp only
  erw [hdl]
  simp

theorem census_one_file (perm perm' : Nat) (content : List Byte) :
    (Node.dir perm [(['f'], .file perm' content)]).census = ⟨1, 1, content.length⟩ := by
  simp [Node.census, census_entries]

/-! ## Fail-fast on a failing entry -/

/-- When the entry at the head of the stream fails (its type tag is neither
directory nor regular file, or its `filecopy` or recursive copy returns
non-zero), the loop closes the directory and returns 1, whatever follows. -/
theorem dir_loop_entry_fails {dirname destname : Path} {current_dir : Nat} {first : Bool}
    {d_name : Path} {node : Node} {ci ci' : copy_info} {w w1 w2 w3 w' : World}
    (hname : d_name ≠ ['.'] ∧ d_name ≠ ['.', '.'])
    (hrd : sys_readdir current_dir (some d_name) w = (true, w1))
    (hm1 : sys_malloc (dirname.length + d_name.length + 2) w1 = (true, w2))
    (hm2 : sys_malloc (destname.length + d_name.length + 2) w2 = (true, w3))
    (hfail :
      (node.d_type ≠ 4 ∧ node.d_type ≠ 8 ∧ ci' = ci ∧
          w' = w3.print (.diag "Unable to copy file" (dirname ++ '/' :: d_name))) ∨
        (node.d_type = 8 ∧ ∃ c, c ≠ 0 ∧
          filecopy (dirname ++ '/' :: d_name) (destname ++ '/' :: d_name) node ci w3 =
            .ret c ci' w') ∨
        (node.d_type = 4 ∧ ∃ c, c ≠ 0 ∧
          recursive_directory_copy (dirname ++ '/' :: d_name) (destname ++ '/' :: d_name) node
            ci w3 = .ret c ci' w'))
    (post : List (Path × Node)) :
    dir_loop dirname destname current_dir first ((d_name, node) :: post) ci w =
        closedir_or_exit current_dir dirname w' (fun w => .ret 1 ci' w) ∧
      Later w w' := by
  have hl3 : Later w w3 :=
    (later_readdir hrd).trans ((later_malloc hm1).trans (later_malloc hm2))
  rw [dir_loop, hrd]
  simp only
  rw [if_pos hname, hm1]
  simp only
  rw [hm2]
  simp only
  rcases hfail with ⟨h4, h8, rfl, rfl⟩ | ⟨h8, c, hc, hfc⟩ | ⟨h4, c, hc, hrec⟩
  · rw [if_neg h4, if_neg h8]
    exact ⟨rfl, hl3.trans (Later.print _ _)⟩
  · have h4 : node.d_type ≠ 4 := by rw [h8]; decide
    rw [if_neg h4, if_pos h8, hfc]
    simp only
    rw [if_pos hc]
    exact ⟨rfl, hl3.trans (filecopy_frame hfc).1⟩
  · rw [if_pos h4, hrec]
    simp only
    rw [if_pos hc]
    exact ⟨rfl, hl3.trans (recursive_directory_copy_frame _ _ _ _ _ _ _ _ hrec).1⟩

/-- The result of the idiom `closedir`, then `return 1`, seen from outside. -/
theorem closedir_or_exit_fail_view (fd : Nat) (name : Path) (ci : copy_info) (w : World) :
    (((closedir_or_exit fd name w (fun w => .ret 1 ci w)).code = some 1 ∧
        (closedir_or_exit fd name w (fun w => .ret 1 ci w)).info = some ci ∧
        (closedir_or_exit fd name w (fun w => .ret 1 ci w)).calls.getLast? =
          some (.closedir fd 0) ∧
        (closedir_or_exit fd name w (fun w => .ret 1 ci w)).handles =
          some (w.handles.erase fd)) ∨
      ((closedir_or_exit fd name w (fun w => .ret 1 ci w)).exited = some 1 ∧
        (closedir_or_exit fd name w (fun w => .ret 1 ci w)).calls.getLast? =
          some (.closedir fd (-1)))) ∧
      ∀ p, (closedir_or_exit fd name w (fun w => .ret 1 ci w)).file p = w.fs p := by
  obtain ⟨b, w1, hc, hr⟩ := closedir_or_exit_fail fd name ci w
  have hf := (sys_closedir_spec hc).1
  obtain ⟨ht, _⟩ := sys_closedir_trace hc
  rw [hr]
  cases b with
  | true =>
    simp only [if_true]
    refine ⟨Or.inl ⟨rfl, rfl, ?_, ?_⟩, fun p => by simp [Result.file, Result.world, hf]⟩
    · simp at ht
      simp [Result.calls, Result.world, ht]
    · simp [Result.handles, ((sys_closedir_spec hc).2.2.2.2 rfl).2]
  | false =>
    simp only [Bool.false_eq_true, if_false]
    refine ⟨Or.inr ⟨rfl, ?_⟩, fun p => by simp [Result.file, Result.world, hf]⟩
    simp at ht
    simp [Result.calls, Result.world, World.print, ht]

/-- When the `recursive_directory_copy` call that `treecopy` makes for a
directory source returns non-zero, `treecopy` returns 1. -/
theorem treecopy_reports_directory_failure (source_file dest_file : Path) (perm : Nat)
    (entries : List (Path × Node)) (w : World) (c : Int)
    (hst : (sys_stat source_file (some (.dir perm entries)) w).1.isSome = true)
    (hm : source_file.getLast? = some '/' →
      (sys_malloc (source_file.length + 1)
        (sys_stat source_file (some (.dir perm entries)) w).2).1 = true)
    (hrec : (recursive_directory_copy
        (if source_file.getLast? = some '/' then source_file.dropLast else source_file) dest_file
        (.dir perm entries) ⟨0, 0, 0⟩
        (if source_file.getLast? = some '/' then
          (sys_malloc (source_file.length + 1)
            (sys_stat source_file (some (.dir perm entries)) w).2).2
        else (sys_stat source_file (some (.dir perm entries)) w).2)).code = some c)
    (hc : c ≠ 0) :
    (treecopy source_file dest_file (some (.dir perm entries)) w).code = some 1 := by
  unfold treecopy
  simp only
  rcases hs : sys_stat source_file (some (.dir perm entries)) w with ⟨m, w1⟩
  rw [hs] at hst hm hrec
  cases m with
  | none => simp at hst
  | some st_mode =>
    obtain ⟨nd, hnd, hmode⟩ := (sys_stat_spec hs).2.2.2.2 st_mode rfl
    simp at hnd
    subst hnd
    simp only [hmode, S_ISDIR_dir, Bool.not_true, Bool.false_eq_true, if_false]
    by_cases hslash : source_file.getLast? = some '/'
    · rw [if_pos hslash] at hrec ⊢
      rw [if_pos hslash] at hrec
      have hm' := hm hslash
      rcases hmal : sys_malloc (source_file.length + 1) w1 with ⟨b, w2⟩
      rw [hmal] at hm' hrec
      simp only at hm' hrec
      subst hm'
      simp only
      rcases hr : recursive_directory_copy source_file.dropLast dest_file (.dir perm entries)
        ⟨0, 0, 0⟩ w2 with ⟨c', ci', w'⟩ | ⟨c', w'⟩ | _
      · rw [hr] at hrec
        simp [Result.code] at hrec
        subst hrec
        simp [hc, Result.code]
      · rw [hr] at hrec; simp [Result.code] at hrec
      · rw [hr] at hrec; simp [Result.code] at hrec
    · rw [if_neg hslash] at hrec ⊢
      rw [if_neg hslash] at hrec
      simp only at hrec
      rcases hr : recursive_directory_copy source_file dest_file (.dir perm entries)
        ⟨0, 0, 0⟩ w1 with ⟨c', ci', w'⟩ | ⟨c', w'⟩ | _
      · rw [hr] at hrec
        simp [Result.code] at hrec
        subst hrec
        simp [hc, Result.code]
      · rw [hr] at hrec; simp [Result.code] at hrec
      · rw [hr] at hrec; simp [Result.code] at hrec

theorem census_entries_perm {l1 l2 : List (Path × Node)} (h : l1.Perm l2) :
    census_entries l1 = census_entries l2 := by
  induction h with
  | nil => rfl
  | cons x _ ih =>
    obtain ⟨d_name, node⟩ := x
    simp only [census_entries, ih]
  | swap x y l =>
    obtain ⟨n1, x1⟩ := x
    obtain ⟨n2, x2⟩ := y
    simp only [census_entries]
    split <;> split <;> simp [Census.mk.injEq]
    omega
  | trans _ _ ih1 ih2 => rw [ih1, ih2]

/-! ## The process controller: one system call, one line -/

@[simp] theorem next_answer_calls (s : Shell) : s.next_answer.2.calls = s.calls := by
  unfold Shell.next_answer
  split <;> rfl

@[simp] theorem next_answer_out (s : Shell) : s.next_answer.2.out = s.out := by
  unfold Shell.next_answer
  split <;> rfl

@[simp] theorem shell_log_calls (s : Shell) (c : PCall) : (s.log c).calls = c :: s.calls := rfl

@[simp] theorem shell_log_out (s : Shell) (c : PCall) : (s.log c).out = s.out := rfl

@[simp] theorem shell_print_calls (s : Shell) (m : PMsg) : (s.print m).calls = s.calls := rfl

@[simp] theorem shell_print_out (s : Shell) (m : PMsg) : (s.print m).out = m :: s.out := rfl

@[simp] theorem shell_log_next_answer (s : Shell) (c : PCall) :
    (s.log c).next_answer = (s.next_answer.1, s.next_answer.2.log c) := by
  rcases s with ⟨answers, calls, out⟩
  cases answers <;> rfl

theorem next_answer_cons {s : Shell} {a : Answer} {rest : List Answer}
    (h : s.answers = a :: rest) : s.next_answer = (a, { s with answers := rest }) := by
  unfold Shell.next_answer
  rw [h]

/-- The Linux status of a normal exit with code `c`. -/
theorem linux_exit_status (c : Nat) (h : c < 256) :
    linux.WIFEXITED (c * 256) = true ∧ linux.WEXITSTATUS (c * 256) = c := by
  simp only [linux]
  constructor
  · simp
    omega
  · omega

/-- The Linux status of a termination by signal `sig`, with or without a core
dump. -/
theorem linux_signal_status (sig : Nat) (core : Bool) (h1 : 1 ≤ sig) (h2 : sig ≤ 126) :
    linux.WIFEXITED (sig + (if core then 128 else 0)) = false ∧
      linux.WIFSIGNALED (sig + (if core then 128 else 0)) = true ∧
      linux.WTERMSIG (sig + (if core then 128 else 0)) = sig := by
  simp only [linux]
  cases core <;> simp <;> omega
/-! ## The command loop: which operation a line calls -/

theorem dispatch_copy {words : List Path} (h : words.head? = some ['c', 'o', 'p', 'y']) :
    dispatch words =
      if words.length ≠ 3 then .error "Error: copy only accepts two arguments"
      else .call (.treecopy (words.get? 1) (words.get? 2)) := by
  cases words with
  | nil => simp at h
  | cons w0 rest =>
    simp at h
    subst h
    simp [dispatch]

theorem dispatch_start {words : List Path} (h : words.head? = some ['s', 't', 'a', 'r', 't']) :
    dispatch words =
      if words.length < 2 then .error "Error: start requires at least a program to run"
      else .call (.start_process words) := by
  cases words with
  | nil => simp at h
  | cons w0 rest =>
    simp at h
    subst h
    simp [dispatch]

theorem dispatch_run {words : List Path} (h : words.head? = some ['r', 'u', 'n']) :
    dispatch words =
      if words.length < 2 then .error "Error: run requires at least a program to run"
      else .call (.run words) := by
  cases words with
  | nil => simp at h
  | cons w0 rest =>
    simp at h
    subst h
    simp [dispatch]

/-- Only the command word `copy` leads to a call of `treecopy`. -/
theorem dispatch_treecopy_head {words : List Path} {a b : Option Path}
    (h : dispatch words = .call (.treecopy a b)) : words.head? = some ['c', 'o', 'p', 'y'] := by
  cases words with
  | nil => simp [dispatch] at h
  | cons w0 rest =>
    by_cases hc : w0 = ['c', 'o', 'p', 'y']
    · simp [hc]
    · simp only [dispatch, List.get?_cons_zero] at h
      repeat' split at h
      all_goals cases h

/-- Only the command word `start` leads to a call of `start_process` alone. -/
theorem dispatch_start_head {words ws : List Path}
    (h : dispatch words = .call (.start_process ws)) :
    words.head? = some ['s', 't', 'a', 'r', 't'] := by
  cases words with
  | nil => simp [dispatch] at h
  | cons w0 rest =>
    by_cases hc : w0 = ['s', 't', 'a', 'r', 't']
    · simp [hc]
    · simp only [dispatch, List.get?_cons_zero] at h
      repeat' split at h
      all_goals cases h

/-- Only the command word `run` leads to `start_process` followed by
`wait_for_specific_process`. -/
theorem dispatch_run_head {words ws : List Path} (h : dispatch words = .call (.run ws)) :
    words.head? = some ['r', 'u', 'n'] := by
  cases words with
  | nil => simp [dispatch] at h
  | cons w0 rest =>
    by_cases hc : w0 = ['r', 'u', 'n']
    · simp [hc]
    · simp only [dispatch, List.get?_cons_zero] at h
      repeat' split at h
      all_goals cases h

theorem tokenize_newline : tokenize ['\n'] = .words [] := by decide

/-- On a line other than `"\n"` whose tokens fit, a pass is the chain of tests
on those tokens. -/
theorem main_pass_words {input_buff : List Char} {words : List Path}
    (ht : tokenize input_buff = .words words) (hn : input_buff ≠ ['\n']) :
    main_pass (some input_buff) = dispatch words := by
  simp [main_pass, hn, ht]

theorem strtok_length {text rest : List Char} {token : Path}
    (h : strtok text = some (token, rest)) : rest.length + 1 ≤ text.length := by
  unfold strtok at h
  split at h
  · simp at h
  · next c r hd =>
    simp only [Option.some.injEq, Prod.mk.injEq] at h
    obtain ⟨_, rfl⟩ := h
    have h1 : (c :: r).length ≤ text.length := by
      rw [← hd]
      exact (List.dropWhile_suffix _).length_le
    have h2 : (((c :: r).dropWhile fun x => !is_delim x).drop 1).length ≤ r.length := by
      rw [List.dropWhile_cons]
      split
      · rw [List.length_drop]
        have := (List.dropWhile_suffix (l := r) fun x => !is_delim x).length_le
        omega
      · simp
    simp only [List.length_cons] at h1
    omega

/-- The bound of the tokenizing loop is never exhausted. -/
theorem tokenize_loop_not_stuck :
    ∀ (fuel : Nat) (words : List Path) (current : Option (Path × List Char)),
      (match current with
        | none => 1
        | some (_, text) => text.length + 2) ≤ fuel →
      tokenize_loop fuel words current ≠ .stuck := by
  intro fuel
  induction fuel with
  | zero =>
    intro words current h
    cases current with
    | none => simp at h
    | some p => simp at h
  | succ n ih =>
    intro words current h
    cases current with
    | none => simp [tokenize_loop]
    | some p =>
      obtain ⟨token, text⟩ := p
      have h' : text.length + 2 ≤ n + 1 := h
      simp only [tokenize_loop]
      split
      · simp
      · apply ih
        cases hs : strtok text with
        | none =>
          show 1 ≤ n
          omega
        | some q =>
          obtain ⟨t2, text2⟩ := q
          have := strtok_length hs
          show text2.length + 2 ≤ n
          omega

theorem tokenize_not_stuck (input_buff : List Char) : tokenize input_buff ≠ .stuck := by
  unfold tokenize
  apply tokenize_loop_not_stuck
  cases hs : strtok input_buff with
  | none =>
    show 1 ≤ input_buff.length + 1
    omega
  | some q =>
    obtain ⟨t, text⟩ := q
    have := strtok_length hs
    show text.length + 2 ≤ input_buff.length + 1
    omega

theorem dispatch_fault_iff (words : List Path) : dispatch words = .fault ↔ words = [] := by
  cases words with
  | nil => simp [dispatch]
  | cons w0 rest =>
    have h1 : (dispatch (w0 :: rest)).is_fault = false := by
      simp only [dispatch, List.get?_cons_zero, apply_ite Pass.is_fault]
      simp only [Pass.is_fault, ite_self]
    have : dispatch (w0 :: rest) ≠ .fault := by
      intro h
      rw [h] at h1
      cases h1
    simp [this]

theorem strtok_none_iff (text : List Char) :
    strtok text = none ↔ ∀ c ∈ text, is_delim c = true := by
  unfold strtok
  constructor
  · intro h
    split at h
    · next hd => exact List.dropWhile_eq_nil_iff.mp hd
    · simp at h
  · intro h
    rw [List.dropWhile_eq_nil_iff.mpr h]

theorem tokenize_loop_extends :
    ∀ (fuel : Nat) (words : List Path) (current : Option (Path × List Char)) (ws : List Path),
      tokenize_loop fuel words current = .words ws → ∃ more, ws = words ++ more := by
  intro fuel
  induction fuel with
  | zero => intro words current ws h; simp [tokenize_loop] at h
  | succ n ih =>
    intro words current ws h
    cases current with
    | none =>
      simp [tokenize_loop] at h
      exact ⟨[], by simp [h]⟩
    | some p =>
      obtain ⟨token, text⟩ := p
      simp only [tokenize_loop] at h
      split at h
      · cases h
      · obtain ⟨more, hm⟩ := ih _ _ _ h
        exact ⟨token :: more, by simp [hm]⟩

/-- The lines on which a pass of `main` reaches `strcmp` with `words[0] = NULL`:
the lines made of delimiters only, except the line `"\n"`. -/
theorem main_pass_fault_iff (input_buff : List Char) :
    main_pass (some input_buff) = .fault ↔
      input_buff ≠ ['\n'] ∧ ∀ c ∈ input_buff, is_delim c = true := by
  by_cases hn : input_buff = ['\n']
  · subst hn
    have : main_pass (some ['\n']) = .skip := by decide
    simp [this]
  · simp only [main_pass, hn, if_false, ne_eq, not_false_eq_true, true_and]
    rw [← strtok_none_iff]
    cases hs : strtok input_buff with
    | none =>
      have : tokenize input_buff = .words [] := by
        simp [tokenize, hs, tokenize_loop]
      simp [this, dispatch]
    | some p =>
      obtain ⟨token, text⟩ := p
      simp only [reduceCtorEq, iff_false]
      cases ht : tokenize input_buff with
      | stuck => simp
      | too_many => simp
      | words ws =>
        simp only
        rw [dispatch_fault_iff]
        intro hws
        subst hws
        unfold tokenize at ht
        rw [hs] at ht
        simp only [tokenize_loop] at ht
        split at ht
        · cases ht
        · obtain ⟨more, hm⟩ := tokenize_loop_extends _ _ _ _ ht
          simp at hm
/-! ## Growth of the counters -/

theorem within_same (ci : copy_info) (c : Census) : ci.within ci c := by
  refine ⟨⟨le_refl _, le_refl _, le_refl _⟩, ?_, ?_, ?_⟩ <;> omega

theorem within_step {ci ci1 ci' : copy_info} {c1 c2 c : Census} (h1 : ci.within ci1 c1)
    (h2 : ci1.within ci' c2) (hd : c1.dirs + c2.dirs ≤ c.dirs)
    (hf : c1.files + c2.files ≤ c.files) (hb : c1.bytes + c2.bytes ≤ c.bytes) :
    ci.within ci' c := by
  obtain ⟨⟨a1, a2, a3⟩, a4, a5, a6⟩ := h1
  obtain ⟨⟨b1, b2, b3⟩, b4, b5, b6⟩ := h2
  refine ⟨⟨?_, ?_, ?_⟩, ?_, ?_, ?_⟩ <;> omega

theorem room_step {ci ci1 : copy_info} {c1 c2 c : Census} (hr : ci.room c)
    (h1 : ci.within ci1 c1) (hd : c1.dirs + c2.dirs ≤ c.dirs)
    (hf : c1.files + c2.files ≤ c.files) (hb : c1.bytes + c2.bytes ≤ c.bytes) :
    ci1.room c2 := by
  obtain ⟨⟨r1, r2, r3⟩, r4, r5, r6⟩ := hr
  obtain ⟨⟨a1, a2, a3⟩, a4, a5, a6⟩ := h1
  simp only at r1 r2 r3
  refine ⟨⟨?_, ?_, ?_⟩, ?_, ?_, ?_⟩ <;> first | omega | (simp only; omega)

theorem room_mono {ci : copy_info} {c c2 : Census} (hr : ci.room c)
    (hd : c2.dirs ≤ c.dirs) (hf : c2.files ≤ c.files) (hb : c2.bytes ≤ c.bytes) :
    ci.room c2 := by
  obtain ⟨h0, r4, r5, r6⟩ := hr
  refine ⟨h0, ?_, ?_, ?_⟩ <;> omega

/-- A returning `filecopy` of a regular file, with every `write` complete or
empty and room for one file and its bytes, leaves the counters where they were
(on failure) or adds one file and the bytes of the file. -/
theorem filecopy_growth {source dest : Path} {perm : Nat} {content : List Byte}
    {ci : copy_info} {w : World} {c : Int} {ci' : copy_info} {w' : World}
    (hr : ci.room ⟨0, 1, content.length⟩) (hfull : FullSince w w')
    (h : filecopy source dest (.file perm content) ci w = .ret c ci' w') :
    ci.within ci' ⟨0, 1, content.length⟩ := by
  rcases filecopy_ret_cases h with ⟨_, rfl⟩ | ⟨rfl, _⟩
  · exact within_same _ _
  · obtain ⟨bytes, hb, rfl, _⟩ := filecopy_success hfull h
    simp [Node.data] at hb
    subst hb
    obtain ⟨⟨r1, r2, r3⟩, r4, r5, r6⟩ := hr
    simp only at r1 r2 r3 r4 r5 r6
    rw [wrap32_of_range (by omega) (by omega), wrap32_of_range (by omega) (by omega)]
    refine ⟨⟨?_, ?_, ?_⟩, ?_, ?_, ?_⟩ <;> simp only <;> omega

mutual
theorem recursive_directory_copy_growth (dirname destname : Path) :
    ∀ (src : Node) (ci : copy_info) (w : World) (c : Int) (ci' : copy_info) (w' : World),
      ci.room src.census → FullSince w w' →
      recursive_directory_copy dirname destname src ci w = .ret c ci' w' →
      ci.within ci' src.census
  | .file _ _, ci, w, c, ci', w' => by
    intro _ _ h
    simp only [recursive_directory_copy] at h
    simp at h
    rw [← h.2.1]
    exact within_same _ _
  | .other _ _ _, ci, w, c, ci', w' => by
    intro _ _ h
    simp only [recursive_directory_copy] at h
    simp at h
    rw [← h.2.1]
    exact within_same _ _
  | .dir perm entries, ci, w, c, ci', w' => by
    intro hr hns h
    simp only [recursive_directory_copy] at h
    split at h
    · simp at h
      rw [← h.2.1]
      exact within_same _ _
    · next current_dir w1 ho =>
      split at h
      · obtain ⟨_, _, _, _, h⟩ := closedir_or_exit_ret h
        simp at h
        rw [← h.2.1]
        exact within_same _ _
      · next st_mode w2 hst =>
        split at h
        · obtain ⟨_, _, _, _, h⟩ := closedir_or_exit_ret h
          simp at h
          rw [← h.2.1]
          exact within_same _ _
        · next w3 hmk =>
          have hns3 : FullSince (w3.print (.copied dirname destname)) w' :=
            FullSince.tail
              ((((acct_opendir ho).seq (acct_stat hst)).seq (acct_mkdir hmk)).seq
                (Acct.printed w3 _)).ext (dir_loop_ext h) hns
          obtain ⟨⟨r1, r2, r3⟩, r4, r5, r6⟩ := hr
          simp only [Node.census] at r1 r2 r3 r4 r5 r6
          have e1 : wrap32 (ci.num_dir + 1) = ci.num_dir + 1 :=
            wrap32_of_range (by omega) (by push_cast at r4; omega)
          have hr1 : ({ ci with num_dir := wrap32 (ci.num_dir + 1) } : copy_info).room
              (census_entries entries) := by
            rw [e1]
            refine ⟨⟨?_, ?_, ?_⟩, ?_, ?_, ?_⟩ <;> simp only <;> push_cast at r4 <;> omega
          have := dir_loop_growth dirname destname current_dir true entries
            { ci with num_dir := wrap32 (ci.num_dir + 1) } (w3.print (.copied dirname destname))
            c ci' w' hr1 hns3 h
          rw [e1] at this
          obtain ⟨⟨a1, a2, a3⟩, a4, a5, a6⟩ := this
          simp only at a1 a2 a3 a4 a5 a6
          refine ⟨⟨?_, ?_, ?_⟩, ?_, ?_, ?_⟩ <;>
            first | omega | (simp only [Node.census]; push_cast; omega)
termination_by structural src => src
theorem dir_loop_growth (dirname destname : Path) (current_dir : Nat) (first : Bool) :
    ∀ (entries : List (Path × Node)) (ci : copy_info) (w : World) (c : Int) (ci' : copy_info)
      (w' : World), ci.room (census_entries entries) → FullSince w w' →
      dir_loop dirname destname current_dir first entries ci w = .ret c ci' w' →
      ci.within ci' (census_entries entries)
  | [], ci, w, c, ci', w' => by
    intro hr _ h
    simp only [dir_loop] at h
    split at h
    · obtain ⟨_, _, _, _, h⟩ := closedir_or_exit_ret h
      simp at h
      rw [← h.2.1]
      exact within_same _ _
    · obtain ⟨_, _, _, _, h⟩ := closedir_or_exit_ret h
      simp at h
      rw [← h.2.1]
      exact within_same _ _
  | (d_name, node) :: rest, ci, w, c, ci', w' => by
    intro hr hns h
    simp only [dir_loop] at h
    split at h
    · obtain ⟨_, _, _, _, h⟩ := closedir_or_exit_ret h
      simp at h
      rw [← h.2.1]
      exact within_same _ _
    · next w1 hrd =>
      have e1 := (acct_readdir hrd).ext
      split at h
      · next hname =>
        have hcen : census_entries ((d_name, node) :: rest) =
            ⟨node.census.dirs + (census_entries rest).dirs,
              node.census.files + (census_entries rest).files,
              node.census.bytes + (census_entries rest).bytes⟩ := by
          rw [census_entries, if_pos hname]
        rw [hcen] at hr ⊢
        split at h
        · obtain ⟨_, _, _, _, h⟩ := closedir_or_exit_ret h
          simp at h
          rw [← h.2.1]
          exact within_same _ _
        · next w2 hm1 =>
          split at h
          · obtain ⟨_, _, _, _, h⟩ := closedir_or_exit_ret h
            simp at h
            rw [← h.2.1]
            exact within_same _ _
          · next w3 hm2 =>
            have e3 := (((acct_readdir hrd).seq (acct_malloc hm1)).seq (acct_malloc hm2)).ext
            have hrn : ci.room node.census :=
              room_mono hr (Nat.le_add_right _ _) (Nat.le_add_right _ _) (Nat.le_add_right _ _)
            split at h
            · split at h
              · next code ci1 w4 hrec =>
                have e4 := recursive_directory_copy_ext hrec
                split at h
                · obtain ⟨w5, a5, hk⟩ := closedir_or_exit_acct h
                  simp at hk
                  obtain ⟨_, rfl, rfl⟩ := hk
                  have e5 := a5.ext
                  have hns3 := FullSince.tail e3 (ext_trans e4 e5) hns
                  have h1 := recursive_directory_copy_growth _ _ node ci w3 code ci1 w4 hrn
                    (hns3.head e4 e5) hrec
                  exact within_step h1 (within_same ci1 ⟨0, 0, 0⟩) (by simp) (by simp) (by simp)
                · have e5 := dir_loop_ext h
                  have hns3 := FullSince.tail e3 (ext_trans e4 e5) hns
                  have h1 := recursive_directory_copy_growth _ _ node ci w3 code ci1 w4 hrn
                    (hns3.head e4 e5) hrec
                  have h2 := dir_loop_growth dirname destname current_dir false rest ci1 w4 c ci'
                    w' (room_step hr h1 (le_refl _) (le_refl _) (le_refl _)) (hns3.tail e4 e5) h
                  exact within_step h1 h2 (le_refl _) (le_refl _) (le_refl _)
              · next hnr => exact absurd h (hnr _ _ _)
            · split at h
              · next hd8 =>
                obtain ⟨perm, content, rfl⟩ := d_type_eq_8 hd8
                have hfcen : (Node.file perm content).census = ⟨0, 1, content.length⟩ := by
                  simp [Node.census]
                rw [hfcen] at hr hrn
                rw [hfcen]
                split at h
                · next code ci1 w4 hfc =>
                  have e4 := filecopy_ext hfc
                  split at h
                  · obtain ⟨w5, a5, hk⟩ := closedir_or_exit_acct h
                    simp at hk
                    obtain ⟨_, rfl, rfl⟩ := hk
                    have e5 := a5.ext
                    have hns3 := FullSince.tail e3 (ext_trans e4 e5) hns
                    have h1 := filecopy_growth hrn (hns3.head e4 e5) hfc
                    exact within_step h1 (within_same ci1 ⟨0, 0, 0⟩) (by simp) (by simp) (by simp)
                  · have e5 := dir_loop_ext h
                    have hns3 := FullSince.tail e3 (ext_trans e4 e5) hns
                    have h1 := filecopy_growth hrn (hns3.head e4 e5) hfc
                    have h2 := dir_loop_growth dirname destname current_dir false rest ci1 w4 c
                      ci' w' (room_step hr h1 (le_refl _) (le_refl _) (le_refl _))
                      (hns3.tail e4 e5) h
                    exact within_step h1 h2 (le_refl _) (le_refl _) (le_refl _)
                · next hnr => exact absurd h (hnr _ _ _)
              · obtain ⟨_, _, _, _, h⟩ := closedir_or_exit_ret h
                simp at h
                rw [← h.2.1]
                exact within_same _ _
      · next hname =>
        have hcen : census_entries ((d_name, node) :: rest) = census_entries rest := by
          rw [census_entries, if_neg hname]
        rw [hcen] at hr ⊢
        exact dir_loop_growth dirname destname current_dir false rest ci w1 c ci' w' hr
          (FullSince.tail e1 (dir_loop_ext h) hns) h
termination_by structural entries => entries
end

theorem S_ISDIR_file (perm : Nat) (content : List Byte) :
    S_ISDIR (Node.file perm content).st_mode = false := by
  simp only [S_ISDIR, Node.st_mode]
  have : (8 * 4096 + perm % 4096) / 4096 % 16 = 8 := by omega
  simp [this]

theorem ext_same (w : World) : ∃ new, w.trace = new ++ w.trace := ⟨[], rfl⟩

/-- The counters a returning `treecopy` of a directory ends with, when every
`write` was complete or empty and the census of the tree is below `2^31`: not
negative and at most the census. -/
theorem treecopy_growth_dir {source_file dest_file : Path} {perm : Nat}
    {entries : List (Path × Node)} {w : World} {c : Int} {ci' : copy_info} {w' : World}
    (hr : (⟨0, 0, 0⟩ : copy_info).room (Node.dir perm entries).census) (hns : FullSince w w')
    (h : treecopy source_file dest_file (some (.dir perm entries)) w = .ret c ci' w') :
    (⟨0, 0, 0⟩ : copy_info).within ci' (Node.dir perm entries).census := by
  have key : ∀ (dirname : Path) (w2 : World) (code : Int) (ci1 : copy_info) (w3 : World),
      (∃ new, w2.trace = new ++ w.trace) →
      recursive_directory_copy dirname dest_file (.dir perm entries) ⟨0, 0, 0⟩ w2 =
        .ret code ci1 w3 →
      (∃ new, w'.trace = new ++ w3.trace) →
      (⟨0, 0, 0⟩ : copy_info).within ci1 (Node.dir perm entries).census := by
    intro dirname w2 code ci1 w3 e2 hrec e3
    have e23 := recursive_directory_copy_ext hrec
    exact recursive_directory_copy_growth _ _ _ _ _ _ _ _ hr
      (FullSince.head e23 e3 (FullSince.tail e2 (ext_trans e23 e3) hns)) hrec
  unfold treecopy at h
  simp only at h
  split at h
  · next st_mode w1 node hst hnode =>
    have hss := sys_stat_spec hst
    obtain ⟨nd, hnd, hmode⟩ := hss.2.2.2.2 st_mode rfl
    simp at hnd
    subst hnd
    cases hnode
    have e1 := (acct_stat hst).ext
    rw [hmode, S_ISDIR_dir] at h
    simp only [Bool.not_true, Bool.false_eq_true, if_false] at h
    split at h
    · split at h
      · simp at h
      · next w2 hm =>
        have e2 := ((acct_stat hst).seq (acct_malloc hm)).ext
        split at h
        · next code ci1 w3 hrec =>
          split at h
          · simp at h
            obtain ⟨_, rfl, rfl⟩ := h
            exact key _ _ _ _ _ e2 hrec (ext_same _)
          · simp at h
            obtain ⟨_, rfl, rfl⟩ := h
            exact key _ _ _ _ _ e2 hrec (ext_print _ _)
        · next hnr => exact absurd h (hnr _ _ _)
    · split at h
      · next code ci1 w3 hrec =>
        split at h
        · simp at h
          obtain ⟨_, rfl, rfl⟩ := h
          exact key _ _ _ _ _ e1 hrec (ext_same _)
        · simp at h
          obtain ⟨_, rfl, rfl⟩ := h
          exact key _ _ _ _ _ e1 hrec (ext_print _ _)
      · next hnr => exact absurd h (hnr _ _ _)
  · simp at h
    rw [← h.2.1]
    exact within_same _ _

/-- The same for a `treecopy` whose source is a regular file. -/
theorem treecopy_growth_file {source_file dest_file : Path} {perm : Nat}
    {content : List Byte} {w : World} {c : Int} {ci' : copy_info} {w' : World}
    (hr : (⟨0, 0, 0⟩ : copy_info).room (Node.file perm content).census) (hns : FullSince w w')
    (h : treecopy source_file dest_file (some (.file perm content)) w = .ret c ci' w') :
    (⟨0, 0, 0⟩ : copy_info).within ci' (Node.file perm content).census := by
  have hfcen : (Node.file perm content).census = ⟨0, 1, content.length⟩ := by
    simp [Node.census]
  rw [hfcen] at hr ⊢
  have key : ∀ (w2 : World) (code : Int) (ci1 : copy_info) (w3 : World),
      (∃ new, w2.trace = new ++ w.trace) →
      filecopy source_file dest_file (.file perm content) ⟨0, 0, 0⟩ w2 = .ret code ci1 w3 →
      (∃ new, w'.trace = new ++ w3.trace) →
      (⟨0, 0, 0⟩ : copy_info).within ci1 ⟨0, 1, content.length⟩ := by
    intro w2 code ci1 w3 e2 hfc e3
    have e23 := filecopy_ext hfc
    exact filecopy_growth hr
      (FullSince.head e23 e3 (FullSince.tail e2 (ext_trans e23 e3) hns)) hfc
  unfold treecopy at h
  simp only at h
  split at h
  · next st_mode w1 node hst hnode =>
    have hss := sys_stat_spec hst
    obtain ⟨nd, hnd, hmode⟩ := hss.2.2.2.2 st_mode rfl
    simp at hnd
    subst hnd
    cases hnode
    have e1 := (acct_stat hst).ext
    rw [hmode, S_ISDIR_file] at h
    simp only [Bool.not_false, if_true] at h
    split at h
    · next code ci1 w3 hfc =>
      split at h
      · simp at h
        obtain ⟨_, rfl, rfl⟩ := h
        exact key _ _ _ _ e1 hfc (ext_same _)
      · simp at h
        obtain ⟨_, rfl, rfl⟩ := h
        exact key _ _ _ _ e1 hfc (ext_print _ _)
    · next hnr => exact absurd h (hnr _ _ _)
  · simp at h
    rw [← h.2.1]
    exact within_same _ _

theorem d_type_eq_4 {node : Node} (h : node.d_type = 4) : ∃ perm entries, node = .dir perm entries := by
  cases node with
  | file perm content => simp [Node.d_type] at h
  | dir perm entries => exact ⟨perm, entries, rfl⟩
  | other k _ _ => cases k <;> simp [Node.d_type, Kind.code] at h

/-! ## The first call of `recursive_directory_copy` -/

theorem sys_malloc_trace {size : Nat} {w w1 : World} {b : Bool}
    (h : sys_malloc size w = (b, w1)) : w1.trace = .malloc size b :: w.trace := by
  unfold sys_malloc at h
  rcases hn : w.next_ev with ⟨e, w0⟩
  have hs := next_ev_spec hn
  simp only [hn] at h
  simp [World.log] at h
  obtain ⟨hb, rfl⟩ := h
  have : (!e.fails) = b := by rw [hb]; simp
  simp [hs.2.2.2.1, this]

theorem since_of_trace {w w' : World} {new : List Call} (c : Int) (ci : copy_info)
    (h : w'.trace = new ++ w.trace) : (Result.ret c ci w').since w = new := by
  simp [Result.since, Result.world, h]

/-- A returning `recursive_directory_copy` has first called `opendir(dirname)`. -/
theorem recursive_directory_copy_first_call {dirname destname : Path} {src : Node}
    {ci : copy_info} {w : World} {c : Int} {ci' : copy_info} {w' : World}
    (h : recursive_directory_copy dirname destname src ci w = .ret c ci' w') :
    ∃ ret more, w'.trace = more ++ .opendir dirname ret :: w.trace := by
  have fin : ∀ (isdir : Bool) (r : Option Nat) (w1 : World),
      sys_opendir dirname isdir w = (r, w1) → (∃ new, w'.trace = new ++ w1.trace) →
      ∃ ret more, w'.trace = more ++ .opendir dirname ret :: w.trace := by
    intro isdir r w1 ho ⟨new, hnew⟩
    obtain ⟨ret, ht, _⟩ := sys_opendir_trace ho
    exact ⟨ret, new, by rw [hnew, ht]⟩
  cases src with
  | file perm content =>
    simp only [recursive_directory_copy] at h
    rcases ho : sys_opendir dirname false w with ⟨r, w1⟩
    rw [ho] at h
    simp at h
    obtain ⟨_, _, rfl⟩ := h
    exact fin _ _ _ ho (ext_print _ _)
  | other k perm stream =>
    simp only [recursive_directory_copy] at h
    rcases ho : sys_opendir dirname false w with ⟨r, w1⟩
    rw [ho] at h
    simp at h
    obtain ⟨_, _, rfl⟩ := h
    exact fin _ _ _ ho (ext_print _ _)
  | dir perm entries =>
    simp only [recursive_directory_copy] at h
    split at h
    · next w1 ho =>
      simp at h
      obtain ⟨_, _, rfl⟩ := h
      exact fin _ _ _ ho (ext_print _ _)
    · next current_dir w1 ho =>
      apply fin _ _ _ ho
      split at h
      · next w2 hst =>
        obtain ⟨w3, a, hk⟩ := closedir_or_exit_acct h
        simp at hk
        obtain ⟨_, _, rfl⟩ := hk
        exact ext_trans (ext_trans (acct_stat hst).ext (ext_print _ _)) a.ext
      · next st_mode w2 hst =>
        split at h
        · next w3 hmk =>
          obtain ⟨w4, a, hk⟩ := closedir_or_exit_acct h
          simp at hk
          obtain ⟨_, _, rfl⟩ := hk
          exact ext_trans (ext_trans (ext_trans (acct_stat hst).ext (acct_mkdir hmk).ext)
            (ext_print _ _)) a.ext
        · next w3 hmk =>
          exact ext_trans (ext_trans (ext_trans (acct_stat hst).ext (acct_mkdir hmk).ext)
            (ext_print _ _)) (dir_loop_ext h)

theorem first_opendir_found (pre more : List Call) (p : Path) (ret : Int)
    (hpre : ∀ x ∈ pre, x.opendir_path = none) :
    first_opendir (pre ++ .opendir p ret :: more) = some p := by
  unfold first_opendir
  induction pre with
  | nil => simp [List.findSome?, Call.opendir_path]
  | cons x t ih =>
    have hx := hpre x (by simp)
    simp only [List.cons_append, List.findSome?, hx]
    exact ih (fun y hy => hpre y (by simp [hy]))

/-- The first `opendir` of a returning `treecopy` of a directory is on the
source path with one trailing `'/'` removed; there is none only when the
first `stat` fails; and after a success the summary line is the last line
printed and shows the source path as given. -/
theorem treecopy_first_opendir {source_file dest_file : Path} {perm : Nat}
    {entries : List (Path × Node)} {w : World} {c : Int} {ci' : copy_info} {w' : World}
    (h : treecopy source_file dest_file (some (.dir perm entries)) w = .ret c ci' w') :
    (first_opendir ((Result.ret c ci' w').since w).reverse = some (strip_slash source_file) ∨
      (c = 1 ∧ first_opendir ((Result.ret c ci' w').since w).reverse = none)) ∧
    (c = 0 →
      first_opendir ((Result.ret c ci' w').since w).reverse = some (strip_slash source_file) ∧
      w'.out.head? =
        some (.summary ci'.num_dir ci'.num_files ci'.num_bytes source_file dest_file)) := by
  have key : ∀ (dirname : Path) (pre : List Call) (w2 : World) (code : Int) (ci1 : copy_info)
      (w3 : World), w2.trace = pre ++ w.trace → (∀ x ∈ pre, x.opendir_path = none) →
      recursive_directory_copy dirname dest_file (.dir perm entries) ⟨0, 0, 0⟩ w2 =
        .ret code ci1 w3 → w'.trace = w3.trace →
      first_opendir ((Result.ret c ci' w').since w).reverse = some dirname := by
    intro dirname pre w2 code ci1 w3 e2 hpre hrec e3
    obtain ⟨ret, more, hm⟩ := recursive_directory_copy_first_call hrec
    have ht : w'.trace = (more ++ .opendir dirname ret :: pre) ++ w.trace := by
      rw [e3, hm, e2]
      simp
    rw [since_of_trace c ci' ht]
    simp only [List.reverse_append, List.reverse_cons, List.append_assoc, List.singleton_append]
    exact first_opendir_found _ _ _ _ (fun x hx => hpre x (by simpa using hx))
  unfold treecopy at h
  simp only at h
  split at h
  · next st_mode w1 node hst hnode =>
    have hss := sys_stat_spec hst
    obtain ⟨nd, hnd, hmode⟩ := hss.2.2.2.2 st_mode rfl
    simp at hnd
    subst hnd
    cases hnode
    obtain ⟨sret, e1, _⟩ := sys_stat_trace hst
    rw [hmode, S_ISDIR_dir] at h
    simp only [Bool.not_true, Bool.false_eq_true, if_false] at h
    split at h
    · next hsl =>
      have hstrip : strip_slash source_file = source_file.dropLast := by
        simp [strip_slash, hsl]
      rw [hstrip]
      split at h
      · simp at h
      · next w2 hm =>
        have e2 : w2.trace = [.malloc (source_file.length + 1) true, .stat source_file sret] ++
            w.trace := by
          rw [sys_malloc_trace hm, e1]
          rfl
        have hpre : ∀ x ∈ [Call.malloc (source_file.length + 1) true,
            Call.stat source_file sret], x.opendir_path = none := by
          intro x hx
          simp at hx
          rcases hx with rfl | rfl <;> rfl
        split at h
        · next code ci1 w3 hrec =>
          split at h
          · next hcode =>
            simp at h
            obtain ⟨rfl, rfl, rfl⟩ := h
            exact ⟨Or.inl (key _ _ _ _ _ _ e2 hpre hrec rfl), fun h0 => by simp at h0⟩
          · simp at h
            obtain ⟨rfl, rfl, rfl⟩ := h
            exact ⟨Or.inl (key _ _ _ _ _ _ e2 hpre hrec rfl),
              fun _ => ⟨key _ _ _ _ _ _ e2 hpre hrec rfl, rfl⟩⟩
        · next hnr => exact absurd h (hnr _ _ _)
    · next hsl =>
      have hstrip : strip_slash source_file = source_file := by
        simp [strip_slash, hsl]
      rw [hstrip]
      have e2 : w1.trace = [.stat source_file sret] ++ w.trace := by
        rw [e1]
        rfl
      have hpre : ∀ x ∈ [Call.stat source_file sret], x.opendir_path = none := by
        intro x hx
        simp at hx
        subst hx
        rfl
      split at h
      · next code ci1 w3 hrec =>
        split at h
        · next hcode =>
          simp at h
          obtain ⟨rfl, rfl, rfl⟩ := h
          exact ⟨Or.inl (key _ _ _ _ _ _ e2 hpre hrec rfl), fun h0 => by simp at h0⟩
        · simp at h
          obtain ⟨rfl, rfl, rfl⟩ := h
          exact ⟨Or.inl (key _ _ _ _ _ _ e2 hpre hrec rfl),
            fun _ => ⟨key _ _ _ _ _ _ e2 hpre hrec rfl, rfl⟩⟩
      · next hnr => exact absurd h (hnr _ _ _)
  · next r w1 hst hne =>
    simp at h
    obtain ⟨rfl, rfl, rfl⟩ := h
    obtain ⟨sret, e1, _⟩ := sys_stat_trace hst
    refine ⟨Or.inr ⟨rfl, ?_⟩, fun h0 => by simp at h0⟩
    have ht : (w1.print (.diag "Unable to stat file" source_file)).trace =
        [.stat source_file sret] ++ w.trace := by
      simp [World.print, e1]
    rw [since_of_trace _ _ ht]
    rfl

/-! ## The engine of `treecopy.h` simulates the engine of `myshell.c` -/

theorem sys_close_trace {fd : Nat} {w w1 : World} {b : Bool} (h : sys_close fd w = (b, w1)) :
    ∃ ret, w1.trace = .close fd ret :: w.trace ∧ w1.out = w.out := by
  unfold sys_close at h
  rcases hn : w.next_ev with ⟨e, w0⟩
  have hs := next_ev_spec hn
  simp only [hn] at h
  split at h <;> simp [World.log] at h <;> obtain ⟨_, rfl⟩ := h
  · exact ⟨-1, by simp [hs.2.2.2.1], by simp [hs.2.2.2.2.1]⟩
  · exact ⟨0, by simp [hs.2.2.2.1], by simp [hs.2.2.2.2.1]⟩

theorem Unwinds.of_diag (w : World) (text : String) (path : Path) :
    Unwinds (w.print (.diag text path)) (w.print (.diag text path)) :=
  ⟨rfl, rfl, ⟨text, path, w.out, rfl⟩, ⟨[], rfl, fun x hx => by simp at hx⟩⟩

theorem Unwinds.behind {wh w : World} (h : Unwinds wh w) : Behind wh w :=
  ⟨⟨[], by simp [h.out]⟩, h.fs, h.trace⟩

theorem Behind.here (w : World) : Behind w w :=
  ⟨⟨[], rfl⟩, rfl, ⟨[], rfl, fun x hx => by simp at hx⟩⟩

theorem Behind.then_print {wh w : World} (h : Behind wh w) (m : Msg) : Behind wh (w.print m) := by
  obtain ⟨more, hm⟩ := h.out
  exact ⟨⟨m :: more, by simp [World.print, hm]⟩, h.fs, h.trace⟩

theorem Unwinds.after_close {wh w w1 : World} {fd : Nat} {b : Bool} (h : Unwinds wh w)
    (hc : sys_close fd w = (b, w1)) : Unwinds wh w1 := by
  obtain ⟨ret, ht, ho⟩ := sys_close_trace hc
  obtain ⟨extra, he, hall⟩ := h.trace
  refine ⟨by rw [ho, h.out], by rw [(sys_close_spec hc).1, h.fs], h.diag,
    ⟨.close fd ret :: extra, by rw [ht, he]; rfl, ?_⟩⟩
  intro x hx
  simp at hx
  rcases hx with rfl | hx
  · rfl
  · exact hall x hx

theorem Unwinds.after_closedir {wh w w1 : World} {fd : Nat} {b : Bool} (h : Unwinds wh w)
    (hc : sys_closedir fd w = (b, w1)) : Unwinds wh w1 := by
  obtain ⟨ht, ho⟩ := sys_closedir_trace hc
  obtain ⟨extra, he, hall⟩ := h.trace
  refine ⟨by rw [ho, h.out], by rw [(sys_closedir_spec hc).1, h.fs], h.diag,
    ⟨.closedir fd (if b then 0 else -1) :: extra, by rw [ht, he]; rfl, ?_⟩⟩
  intro x hx
  simp at hx
  rcases hx with rfl | hx
  · rfl
  · exact hall x hx

theorem Behind.and_close {wh w w1 : World} {fd : Nat} {b : Bool} (h : Behind wh w)
    (hc : sys_close fd w = (b, w1)) : Behind wh w1 := by
  obtain ⟨ret, ht, ho⟩ := sys_close_trace hc
  obtain ⟨extra, he, hall⟩ := h.trace
  obtain ⟨more, hm⟩ := h.out
  refine ⟨⟨more, by rw [ho, hm]⟩, by rw [(sys_close_spec hc).1, h.fs],
    ⟨.close fd ret :: extra, by rw [ht, he]; rfl, ?_⟩⟩
  intro x hx
  simp at hx
  rcases hx with rfl | hx
  · rfl
  · exact hall x hx

/-- Releasing a file after a failure: the call returns what its continuation
returns, or it ends the process. -/
theorem close_or_exit_fails {wh w : World} {fd : Nat} {name : Path} {k : World → Result}
    (h : Unwinds wh w) (hk : ∀ w1, Unwinds wh w1 → FailsLike (k w1) wh) :
    FailsLike (close_or_exit fd name w k) wh := by
  unfold close_or_exit
  rcases hc : sys_close fd w with ⟨b, w1⟩
  cases b
  · exact ⟨rfl, ((h.after_close hc).behind).then_print _⟩
  · exact hk w1 (h.after_close hc)

theorem closedir_or_exit_fails {wh w : World} {fd : Nat} {name : Path} {k : World → Result}
    (h : Unwinds wh w) (hk : ∀ w1, Unwinds wh w1 → FailsLike (k w1) wh) :
    FailsLike (closedir_or_exit fd name w k) wh := by
  unfold closedir_or_exit
  rcases hc : sys_closedir fd w with ⟨b, w1⟩
  cases b
  · exact ⟨rfl, ((h.after_closedir hc).behind).then_print _⟩
  · exact hk w1 (h.after_closedir hc)

theorem ret_one_fails {wh : World} (ci : copy_info) (w1 : World) (h : Unwinds wh w1) :
    FailsLike (.ret 1 ci w1) wh :=
  ⟨by decide, h⟩

theorem abort_copy_fails {wh w : World} (source dest : Path) (input_fd dest_fd : Nat)
    (ci : copy_info) (h : Unwinds wh w) :
    FailsLike (abort_copy source dest input_fd dest_fd ci w) wh := by
  unfold abort_copy
  exact close_or_exit_fails h fun w1 h1 =>
    close_or_exit_fails h1 fun w2 h2 => ret_one_fails ci w2 h2

theorem write_loop_simulation (source dest : Path) (input_fd : Nat) (ci : copy_info)
    (buffer : List Byte) :
    ∀ (fuel : Nat) (d : OutFd) (cur : Int) (w : World),
      StepSimulates (write_loop source dest input_fd ci buffer fuel d cur w)
        (treecopy_h.write_loop source buffer fuel d cur w) := by
  intro fuel
  induction fuel with
  | zero =>
    intro d cur w
    simp [write_loop, treecopy_h.write_loop, StepSimulates]
  | succ n ih =>
    intro d cur w
    simp only [write_loop, treecopy_h.write_loop]
    split
    · rcases hw : sys_write d buffer w with ⟨r, d1, w1⟩
      cases r with
      | eintr => exact ih _ _ _
      | done k => exact ih _ _ _
      | err =>
        simp only [StepSimulates]
        exact Or.inl ⟨_, rfl, abort_copy_fails _ _ _ _ _ (Unwinds.of_diag _ _ _)⟩
    · simp [StepSimulates]

theorem copy_loop_simulation (source dest : Path) (input_fd : Nat) (ci : copy_info) :
    ∀ (fuel : Nat) (rest : Option (List Byte)) (d : OutFd) (t : Int) (w : World),
      StepSimulates (copy_loop source dest input_fd ci fuel rest d t w)
        (treecopy_h.copy_loop source dest input_fd fuel rest d t w) := by
  intro fuel
  induction fuel with
  | zero =>
    intro rest d t w
    simp [copy_loop, treecopy_h.copy_loop, StepSimulates]
  | succ n ih =>
    intro rest d t w
    simp only [copy_loop, treecopy_h.copy_loop]
    rcases hr : sys_read input_fd rest w with ⟨r, buffer, rest1, w1⟩
    cases r with
    | eintr => exact ih _ _ _ _
    | err =>
      simp only [StepSimulates]
      exact Or.inl ⟨_, rfl, abort_copy_fails _ _ _ _ _ (Unwinds.of_diag _ _ _)⟩
    | done k =>
      cases k with
      | zero => simp [StepSimulates]
      | succ k =>
        simp only
        rcases hw : sys_write d buffer w1 with ⟨wr, d1, w2⟩
        have key : ∀ cur : Int,
            StepSimulates
              (match write_loop source dest input_fd ci buffer (w2.script.length + 2) d1 cur
                  w2 with
                | .stop r => .stop r
                | .next (dest_fd, current_bytes_written) w =>
                  copy_loop source dest input_fd ci n rest1 dest_fd
                    (wrap32 (t + current_bytes_written)) w)
              (match treecopy_h.write_loop source buffer (w2.script.length + 2) d1 cur w2 with
                | .stop r => .stop r
                | .next (dest_fd, current_bytes_written) w =>
                  treecopy_h.copy_loop source dest input_fd n rest1 dest_fd
                    (wrap32 (t + current_bytes_written)) w) := by
          intro cur
          have hwl := write_loop_simulation source dest input_fd ci buffer
            (w2.script.length + 2) d1 cur w2
          rcases hc : write_loop source dest input_fd ci buffer (w2.script.length + 2) d1 cur
            w2 with ⟨⟨d2, cur2⟩, w3⟩ | rc
          · rw [hc] at hwl
            simp only [StepSimulates] at hwl
            rw [hwl]
            exact ih _ _ _ _
          · rw [hc] at hwl
            simp only [StepSimulates] at hwl
            rcases hwl with ⟨wh, hh, hf⟩ | ⟨rfl, hh⟩
            · rw [hh]
              exact Or.inl ⟨wh, rfl, hf⟩
            · rw [hh]
              exact Or.inr ⟨rfl, rfl⟩
        cases wr with
        | err =>
          simp only [StepSimulates]
          exact Or.inl ⟨_, rfl, abort_copy_fails _ _ _ _ _ (Unwinds.of_diag _ _ _)⟩
        | eintr => exact key 0
        | done j => exact key j

theorem Simulates.of_step {rc rh : Result}
    (h : StepSimulates (Step.stop rc : Step Int) (Step.stop rh)) : Simulates rc rh := by
  simp only [StepSimulates] at h
  rcases h with ⟨wh, hh, hf⟩ | ⟨rfl, hh⟩
  · simp at hh
    subst hh
    exact Or.inr (Or.inl ⟨wh, rfl, hf⟩)
  · simp at hh
    subst hh
    exact Or.inr (Or.inr ⟨rfl, rfl⟩)

theorem Simulates.fail {rc : Result} {wh : World} (h : FailsLike rc wh) :
    Simulates rc (.exit 1 wh) :=
  Or.inr (Or.inl ⟨wh, rfl, h⟩)

theorem Simulates.exit_same (w : World) : Simulates (.exit 1 w) (.exit 1 w) :=
  Simulates.fail ⟨rfl, Behind.here w⟩

/-- Every call of `filecopy`: the engine of `treecopy.h` returns with the same
counters in the same state when the engine of `myshell.c` returns 0, and ends
the process with `exit(1)`, at the diagnostic, when that one fails. -/
theorem filecopy_simulation (source dest : Path) (src : Node) (ci : copy_info) (w : World) :
    Simulates (filecopy source dest src ci w) (treecopy_h.filecopy source dest src ci w) := by
  unfold filecopy treecopy_h.filecopy
  rcases ho : sys_open_rd source w with ⟨r1, w1⟩
  cases r1 with
  | none => exact Simulates.fail (ret_one_fails _ _ (Unwinds.of_diag _ _ _))
  | some input_fd =>
    simp only
    rcases hst : sys_stat source (some src) w1 with ⟨r2, w2⟩
    cases r2 with
    | none =>
      exact Simulates.fail (close_or_exit_fails (Unwinds.of_diag _ _ _)
        fun w3 h3 => ret_one_fails _ _ h3)
    | some st_mode =>
      simp only
      rcases hop : sys_open_wr dest st_mode w2 with ⟨r3, w3⟩
      cases r3 with
      | none =>
        exact Simulates.fail (close_or_exit_fails (Unwinds.of_diag _ _ _)
          fun w4 h4 => ret_one_fails _ _ h4)
      | some dest_fd =>
        simp only
        have hcl := copy_loop_simulation source dest input_fd ci
          (w3.script.length + (src.data.getD []).length + 1) src.data ⟨dest_fd, dest, 0⟩ 0 w3
        rcases hc : copy_loop source dest input_fd ci
          (w3.script.length + (src.data.getD []).length + 1) src.data ⟨dest_fd, dest, 0⟩ 0 w3
          with ⟨total, w4⟩ | rc
        · rw [hc] at hcl
          simp only [StepSimulates] at hcl
          rw [hcl]
          simp only [close_or_exit]
          rcases hc1 : sys_close input_fd (w4.print (.copied source dest)) with ⟨b1, w5⟩
          cases b1 with
          | false =>
            simp only
            rcases hc2 : sys_close dest_fd (w5.print (.diag "Unable to close file" source))
              with ⟨b2, w6⟩
            cases b2 with
            | false =>
              exact Simulates.fail ⟨rfl, ((Behind.here _).and_close hc2).then_print _⟩
            | true => exact Simulates.fail ⟨rfl, (Behind.here _).and_close hc2⟩
          | true =>
            simp only
            rcases hc2 : sys_close dest_fd w5 with ⟨b2, w6⟩
            cases b2 with
            | false => exact Simulates.exit_same _
            | true => exact Or.inl ⟨_, _, rfl, rfl⟩
        · rw [hc] at hcl
          rcases hh : treecopy_h.copy_loop source dest input_fd
            (w3.script.length + (src.data.getD []).length + 1) src.data ⟨dest_fd, dest, 0⟩ 0 w3
            with ⟨total, w4⟩ | rh
          · rw [hh] at hcl
            simp [StepSimulates] at hcl
          · rw [hh] at hcl
            exact Simulates.of_step hcl

/-- One entry of a directory: when the copy of the entry is simulated and so
is the rest of the loop, the step of the loop is simulated. -/
theorem dir_entry_simulation (rc rh : Result) (current_dir : Nat)
    (dirname : Path) (kc kh : copy_info → World → Result) :
    Simulates rc rh → (∀ ci w, Simulates (kc ci w) (kh ci w)) →
    Simulates
      (match rc with
        | .ret code ci w =>
          if code ≠ 0 then closedir_or_exit current_dir dirname w fun w => .ret 1 ci w
          else kc ci w
        | r => r)
      (match rh with
        | .ret _ ci w => kh ci w
        | r => r) := by
  intro h hk
  rcases h with ⟨ci, w, rfl, rfl⟩ | ⟨wh, rfl, hf⟩ | ⟨rfl, rfl⟩
  · simp only [ne_eq, not_true_eq_false, if_false]
    exact hk ci w
  · cases rc with
    | ret code ci w =>
      obtain ⟨hcode, hu⟩ := hf
      simp only [ne_eq, hcode, not_false_eq_true, if_true]
      exact Simulates.fail (closedir_or_exit_fails hu fun w1 h1 => ret_one_fails _ _ h1)
    | exit code w => exact Simulates.fail hf
    | stuck => exact absurd hf (by simp [FailsLike])
  · exact Or.inr (Or.inr ⟨rfl, rfl⟩)

mutual
/-- Every call of `recursive_directory_copy` is simulated. -/
theorem recursive_directory_copy_simulation (dirname destname : Path) :
    ∀ (src : Node) (ci : copy_info) (w : World),
      Simulates (recursive_directory_copy dirname destname src ci w)
        (treecopy_h.recursive_directory_copy dirname destname src ci w)
  | .file _ _, ci, w => by
    simp only [recursive_directory_copy, treecopy_h.recursive_directory_copy]
    exact Simulates.fail (ret_one_fails _ _ (Unwinds.of_diag _ _ _))
  | .other _ _ _, ci, w => by
    simp only [recursive_directory_copy, treecopy_h.recursive_directory_copy]
    exact Simulates.fail (ret_one_fails _ _ (Unwinds.of_diag _ _ _))
  | .dir perm entries, ci, w => by
    simp only [recursive_directory_copy, treecopy_h.recursive_directory_copy]
    rcases ho : sys_opendir dirname true w with ⟨r1, w1⟩
    cases r1 with
    | none => exact Simulates.fail (ret_one_fails _ _ (Unwinds.of_diag _ _ _))
    | some current_dir =>
      simp only
      rcases hst : sys_stat dirname (some (.dir perm entries)) w1 with ⟨r2, w2⟩
      cases r2 with
      | none =>
        exact Simulates.fail (closedir_or_exit_fails (Unwinds.of_diag _ _ _)
          fun w3 h3 => ret_one_fails _ _ h3)
      | some st_mode =>
        simp only
        rcases hmk : sys_mkdir destname st_mode w2 with ⟨b, w3⟩
        cases b with
        | false =>
          exact Simulates.fail (closedir_or_exit_fails (Unwinds.of_diag _ _ _)
            fun w4 h4 => ret_one_fails _ _ h4)
        | true => exact dir_loop_simulation dirname destname current_dir true entries _ _
termination_by structural src => src
/-- Every pass of the `readdir` loop is simulated. -/
theorem dir_loop_simulation (dirname destname : Path) (current_dir : Nat) (first : Bool) :
    ∀ (entries : List (Path × Node)) (ci : copy_info) (w : World),
      Simulates (dir_loop dirname destname current_dir first entries ci w)
        (treecopy_h.dir_loop dirname destname current_dir first entries ci w)
  | [], ci, w => by
    simp only [dir_loop, treecopy_h.dir_loop]
    rcases hrd : sys_readdir current_dir none w with ⟨b, w1⟩
    cases b with
    | false =>
      exact Simulates.fail (closedir_or_exit_fails (Unwinds.of_diag _ _ _)
        fun w2 h2 => ret_one_fails _ _ h2)
    | true =>
      simp only [closedir_or_exit]
      rcases hc : sys_closedir current_dir w1 with ⟨b2, w2⟩
      cases b2 with
      | false => exact Simulates.exit_same _
      | true => exact Or.inl ⟨_, _, rfl, rfl⟩
  | (d_name, node) :: rest, ci, w => by
    simp only [dir_loop, treecopy_h.dir_loop]
    rcases hrd : sys_readdir current_dir (some d_name) w with ⟨b, w1⟩
    cases b with
    | false =>
      exact Simulates.fail (closedir_or_exit_fails (Unwinds.of_diag _ _ _)
        fun w2 h2 => ret_one_fails _ _ h2)
    | true =>
      simp only
      split
      · rcases hm1 : sys_malloc (dirname.length + d_name.length + 2) w1 with ⟨b1, w2⟩
        cases b1 with
        | false =>
          exact Simulates.fail (closedir_or_exit_fails (Unwinds.of_diag _ _ _)
            fun w3 h3 => ret_one_fails _ _ h3)
        | true =>
          simp only
          rcases hm2 : sys_malloc (destname.length + d_name.length + 2) w2 with ⟨b2, w3⟩
          cases b2 with
          | false =>
            exact Simulates.fail (closedir_or_exit_fails (Unwinds.of_diag _ _ _)
              fun w4 h4 => ret_one_fails _ _ h4)
          | true =>
            simp only
            split
            · exact dir_entry_simulation _ _ current_dir dirname
                (fun ci w => dir_loop dirname destname current_dir false rest ci w)
                (fun ci w => treecopy_h.dir_loop dirname destname current_dir false rest ci w)
                (recursive_directory_copy_simulation _ _ node ci w3)
                (fun ci w => dir_loop_simulation dirname destname current_dir false rest ci w)
            · split
              · exact dir_entry_simulation _ _ current_dir dirname
                  (fun ci w => dir_loop dirname destname current_dir false rest ci w)
                  (fun ci w => treecopy_h.dir_loop dirname destname current_dir false rest ci w)
                  (filecopy_simulation _ _ node ci w3)
                  (fun ci w => dir_loop_simulation dirname destname current_dir false rest ci w)
              · exact Simulates.fail (closedir_or_exit_fails (Unwinds.of_diag _ _ _)
                  fun w4 h4 => ret_one_fails _ _ h4)
      · exact dir_loop_simulation dirname destname current_dir false rest ci w1
termination_by structural entries => entries
end

theorem summary_simulation (rc rh : Result) (source_file dest_file : Path) :
    Simulates rc rh →
    Simulates
      (match rc with
        | .ret copy_ret ci w =>
          if copy_ret ≠ 0 then .ret 1 ci w
          else
            .ret 0 ci
              (w.print (.summary ci.num_dir ci.num_files ci.num_bytes source_file dest_file))
        | r => r)
      (match rh with
        | .ret _ ci w =>
          .ret 0 ci (w.print (.summary ci.num_dir ci.num_files ci.num_bytes source_file dest_file))
        | r => r) := by
  intro h
  rcases h with ⟨ci, w, rfl, rfl⟩ | ⟨wh, rfl, hf⟩ | ⟨rfl, rfl⟩
  · simp only [ne_eq, not_true_eq_false, if_false]
    exact Or.inl ⟨_, _, rfl, rfl⟩
  · cases rc with
    | ret code ci w =>
      obtain ⟨hcode, hu⟩ := hf
      simp only [ne_eq, hcode, not_false_eq_true, if_true]
      exact Simulates.fail (ret_one_fails _ _ hu)
    | exit code w => exact Simulates.fail hf
    | stuck => exact absurd hf (by simp [FailsLike])
  · exact Or.inr (Or.inr ⟨rfl, rfl⟩)

/-- The two versions of `treecopy`: the one of `treecopy.h` simulates the one
of `myshell.c`, except when the source is not a directory and its `filecopy`
fails: there `treecopy` of `myshell.c` returns 0, in the state its `filecopy`
left after the diagnostic, and the one of `treecopy.h` has called `exit(1)`. -/
theorem treecopy_simulation (source_file dest_file : Path) (src : Option Node) (w : World) :
    Simulates (treecopy source_file dest_file src w)
        (treecopy_h.treecopy source_file dest_file src w) ∨
      ∃ node ci w' wh, src = some node ∧ S_ISDIR node.st_mode = false ∧
        treecopy source_file dest_file src w = .ret 0 ci w' ∧
        treecopy_h.treecopy source_file dest_file src w = .exit 1 wh ∧ Unwinds wh w' := by
  unfold treecopy treecopy_h.treecopy
  rcases hst : sys_stat source_file src w with ⟨r, w1⟩
  cases r with
  | none => exact Or.inl (Simulates.fail (ret_one_fails _ _ (Unwinds.of_diag _ _ _)))
  | some st_mode =>
    cases src with
    | none => exact Or.inl (Simulates.fail (ret_one_fails _ _ (Unwinds.of_diag _ _ _)))
    | some node =>
      have hmode : st_mode = node.st_mode := by
        obtain ⟨nd, hnd, hm⟩ := (sys_stat_spec hst).2.2.2.2 st_mode rfl
        simp at hnd
        subst hnd
        exact hm
      simp only
      split
      · next hnd =>
        have hfs := filecopy_simulation source_file dest_file node ⟨0, 0, 0⟩ w1
        rcases hfs with ⟨ci, w2, hc, hh⟩ | ⟨wh, hh, hf⟩ | ⟨hc, hh⟩
        · rw [hc, hh]
          simp only [ne_eq, not_true_eq_false, if_false]
          exact Or.inl (Or.inl ⟨_, _, rfl, rfl⟩)
        · rw [hh]
          rcases hc : filecopy source_file dest_file node ⟨0, 0, 0⟩ w1 with
            ⟨code, ci, w2⟩ | ⟨code, w2⟩ | _
          · rw [hc] at hf
            obtain ⟨hcode, hu⟩ := hf
            simp only [ne_eq, hcode, not_false_eq_true, if_true]
            refine Or.inr ⟨node, ci, w2, wh, rfl, ?_, rfl, rfl, hu⟩
            rw [← hmode]
            simpa using hnd
          · rw [hc] at hf
            exact Or.inl (Simulates.fail hf)
          · rw [hc] at hf
            exact absurd hf (by simp [FailsLike])
        · rw [hc, hh]
          exact Or.inl (Or.inr (Or.inr ⟨rfl, rfl⟩))
      · split
        · rcases hm : sys_malloc (source_file.length + 1) w1 with ⟨b, w2⟩
          cases b with
          | false => exact Or.inl (Simulates.exit_same _)
          | true =>
            exact Or.inl (summary_simulation _ _ source_file dest_file
              (recursive_directory_copy_simulation _ _ node ⟨0, 0, 0⟩ w2))
        · exact Or.inl (summary_simulation _ _ source_file dest_file
            (recursive_directory_copy_simulation _ _ node ⟨0, 0, 0⟩ w1))

/-- What `Unwinds` says about the two runs, read from their results. -/
theorem Unwinds.exits_at {wh w : World} (h : Unwinds wh w) (c : Int) (ci : copy_info) :
    ExitsAtDiagnostic (.exit 1 wh) (.ret c ci w) := by
  obtain ⟨text, path, rest, hd⟩ := h.diag
  obtain ⟨extra, he, hall⟩ := h.trace
  refine ⟨rfl, ?_, ⟨text, path, ?_⟩, ⟨extra.reverse, ?_, ?_⟩, fun p => ?_⟩
  · simp [Result.printed, Result.world, h.out]
  · simp [Result.printed, Result.world, hd]
  · simp [Result.calls, Result.world, he]
  · intro x hx
    exact hall x (by simpa using hx)
  · simp [Result.file, Result.world, h.fs]

/-- A simulated call that returns 0: the other engine ends with the same
result, so with the same calls, lines, counters and destination side. -/
theorem Simulates.success {rc rh : Result} (h : Simulates rc rh) (hc : rc.code = some 0) :
    rh = rc := by
  rcases h with ⟨ci, w, rfl, rfl⟩ | ⟨wh, rfl, hf⟩ | ⟨rfl, rfl⟩
  · rfl
  · cases rc with
    | ret c ci w =>
      simp [Result.code] at hc
      exact absurd hc hf.1
    | exit c w => simp [Result.code] at hc
    | stuck => simp [Result.code] at hc
  · rfl

/-- A simulated call that returns failure: the other engine has called
`exit(1)` at the diagnostic. -/
theorem Simulates.failure {rc rh : Result} (h : Simulates rc rh) {c : Int}
    (hc : rc.code = some c) (hne : c ≠ 0) : ExitsAtDiagnostic rh rc := by
  rcases h with ⟨ci, w, rfl, rfl⟩ | ⟨wh, rfl, hf⟩ | ⟨rfl, rfl⟩
  · simp [Result.code] at hc
    exact absurd hc.symm hne
  · cases rc with
    | ret c' ci w => exact hf.2.exits_at c' ci
    | exit c' w => simp [Result.code] at hc
    | stuck => simp [Result.code] at hc
  · simp [Result.code] at hc

/-- A returning `treecopy` of `treecopy.h` has printed the summary line last. -/
theorem treecopy_h_summary {source_file dest_file : Path} {src : Option Node} {w : World}
    {c : Int} {ci : copy_info} {w' : World}
    (h : treecopy_h.treecopy source_file dest_file src w = .ret c ci w') :
    w'.out.head? =
      some (.summary ci.num_dir ci.num_files ci.num_bytes source_file dest_file) := by
  unfold treecopy_h.treecopy at h
  simp only at h
  split at h
  · split at h
    · split at h
      · simp at h
        obtain ⟨_, rfl, rfl⟩ := h
        rfl
      · next hnr => exact absurd h (hnr _ _ _)
    · split at h
      · split at h
        · simp at h
        · split at h
          · simp at h
            obtain ⟨_, rfl, rfl⟩ := h
            rfl
          · next hnr => exact absurd h (hnr _ _ _)
      · split at h
        · simp at h
          obtain ⟨_, rfl, rfl⟩ := h
          rfl
        · next hnr => exact absurd h (hnr _ _ _)
  · simp at h

/-- The two versions of `treecopy`, read from their results: after a return of
0 with the summary as the last line both end with the same result, and after
a return of a non-zero value, or of any value with a diagnostic as the last
line, the one of `treecopy.h` has called `exit(1)` at that diagnostic. -/
theorem treecopy_simulation_view (source_file dest_file : Path) (src : Option Node)
    (w : World) :
    ((treecopy source_file dest_file src w).code = some 0 →
        (∃ d f b, (treecopy source_file dest_file src w).printed.getLast? =
          some (.summary d f b source_file dest_file)) →
        treecopy_h.treecopy source_file dest_file src w = treecopy source_file dest_file src w) ∧
      (∀ c, (treecopy source_file dest_file src w).code = some c →
        (c ≠ 0 ∨ ∃ text path, (treecopy source_file dest_file src w).printed.getLast? =
          some (.diag text path)) →
        ExitsAtDiagnostic (treecopy_h.treecopy source_file dest_file src w)
          (treecopy source_file dest_file src w)) := by
  rcases treecopy_simulation source_file dest_file src w with
    hs | ⟨node, ci, w', wh, _, _, hc, hh, hu⟩
  · constructor
    · intro h0 _
      exact hs.success h0
    · intro c hc hor
      rcases hor with hne | ⟨text, path, hd⟩
      · exact hs.failure hc hne
      · by_cases hne : c = 0
        · subst hne
          have heq := hs.success hc
          rcases hr : treecopy source_file dest_file src w with ⟨c', ci, w'⟩ | ⟨c', w'⟩ | _
          · rw [hr] at heq hd
            have hsum := treecopy_h_summary heq
            simp only [Result.printed, Result.world, List.getLast?_reverse] at hd
            rw [hsum] at hd
            simp at hd
          · rw [hr] at hc; simp [Result.code] at hc
          · rw [hr] at hc; simp [Result.code] at hc
        · exact hs.failure hc hne
  · constructor
    · intro _ ⟨d, f, b, hsum⟩
      rw [hc] at hsum
      obtain ⟨text, path, rest, hd⟩ := hu.diag
      simp only [Result.printed, Result.world, List.getLast?_reverse] at hsum
      rw [hu.out, hd] at hsum
      simp at hsum
    · intro c _ _
      rw [hc, hh]
      exact hu.exits_at 0 ci

/-! # The properties C1 to C10 of the specification -/

/-- C1, counterexample: a directory with one regular file of `2^31` bytes,
copied with no failing system call.  `treecopy` returns success, the tree has
`B = 2147483648` bytes, and the `int` counter `num_bytes` ends at
`-2147483648`. -/
theorem C1_counterexample_num_bytes_overflows :
    (Node.dir 493 [(['f'], .file 420 (List.replicate 2147483648 0))]).census =
        ⟨1, 1, 2147483648⟩ ∧
      (treecopy ['s'] ['d'] (some (.dir 493 [(['f'], .file 420 (List.replicate 2147483648 0))]))
        (World.init [])).code = some 0 ∧
      (treecopy ['s'] ['d'] (some (.dir 493 [(['f'], .file 420 (List.replicate 2147483648 0))]))
        (World.init [])).info = some ⟨1, 1, -2147483648⟩ := by
  have hc : (Node.dir 493 [(['f'], .file 420 (List.replicate 2147483648 0))]).census =
      ⟨1, 1, 2147483648⟩ := by
    rw [census_one_file, List.length_replicate]
  obtain ⟨ci', w', h, hfull⟩ := one_file_tree_copied (List.replicate 2147483648 0)
  have hcount := (treecopy_counts hfull h).1
  rw [hc] at hcount
  refine ⟨hc, ?_, ?_⟩
  · rw [h]; rfl
  · rw [h, hcount]
    simp only [Result.info, copy_info.plus]
    have e1 : wrap32 (0 + ((1 : Nat) : Int)) = 1 := by decide
    have e2 : wrap32 (0 + ((2147483648 : Nat) : Int)) = -2147483648 := by decide
    rw [e1, e2]

/-- C1, amended: for every source tree whose root is a directory, in whatever
order `readdir` yields the entries, with `D` directories (the root included),
`F` regular files and `B` bytes in them, all three below `2^31`: a `treecopy`
call that returns success, and in which every `write` either failed,
transferred nothing or transferred the whole chunk it was given, ends with
`num_dir = D`, `num_files = F` and `num_bytes = B`, the values of the summary
line, which is the last line printed. -/
theorem C1_successful_treecopy_counts (source_file dest_file : Path) (perm : Nat)
    (entries : List (Path × Node)) (w : World)
    (hfull : FullWrites ((treecopy source_file dest_file (some (.dir perm entries)) w).since w))
    (hD : (Node.dir perm entries).census.dirs < 2147483648)
    (hF : (Node.dir perm entries).census.files < 2147483648)
    (hB : (Node.dir perm entries).census.bytes < 2147483648)
    (hok : (treecopy source_file dest_file (some (.dir perm entries)) w).code = some 0) :
    (treecopy source_file dest_file (some (.dir perm entries)) w).info =
        some ⟨(Node.dir perm entries).census.dirs, (Node.dir perm entries).census.files,
          (Node.dir perm entries).census.bytes⟩ ∧
      (treecopy source_file dest_file (some (.dir perm entries)) w).printed.getLast? =
        some (.summary (Node.dir perm entries).census.dirs (Node.dir perm entries).census.files
          (Node.dir perm entries).census.bytes source_file dest_file) := by
  rcases hr : treecopy source_file dest_file (some (.dir perm entries)) w with
    ⟨c', ci', w'⟩ | ⟨c', w'⟩ | _
  · rw [hr] at hok
    simp [Result.code] at hok
    subst hok
    rw [hr] at hfull
    obtain ⟨h1, h2⟩ := treecopy_counts (FullSince.of_since (treecopy_ext hr) hfull) hr
    have e : ci' = ⟨(Node.dir perm entries).census.dirs, (Node.dir perm entries).census.files,
        (Node.dir perm entries).census.bytes⟩ := by
      rw [h1]
      simp only [copy_info.plus, Int.zero_add]
      rw [wrap32_of_range (by omega) (by omega), wrap32_of_range (by omega) (by omega),
        wrap32_of_range (by omega) (by omega)]
    constructor
    · simp [Result.info, e]
    · simp only [Result.printed, Result.world, List.getLast?_reverse]
      rw [h2, e]
  · rw [hr] at hok; simp [Result.code] at hok
  · rw [hr] at hok; simp [Result.code] at hok

/-- Witness of C1, amended: a tree of two directories and two files with three
bytes, the first write interrupted and one read short. -/
theorem C1_witness :
    (treecopy ['s'] ['d']
        (some (.dir 493 [(['a'], .file 420 [1, 2]), (['.'], .dir 493 []),
          (['e'], .dir 448 [(['x'], .file 384 [7])])]))
        (World.init [.ok, .ok, .ok, .ok, .ok, .ok, .ok, .ok, .ok, .ok, .shortRead 1, .eintr])).info =
        some ⟨2, 2, 3⟩ ∧
      (treecopy ['s'] ['d']
        (some (.dir 493 [(['a'], .file 420 [1, 2]), (['.'], .dir 493 []),
          (['e'], .dir 448 [(['x'], .file 384 [7])])]))
        (World.init [.ok, .ok, .ok, .ok, .ok, .ok, .ok, .ok, .ok, .ok, .shortRead 1, .eintr])
        ).printed.getLast? = some (.summary 2 2 3 ['s'] ['d']) :=
  C1_successful_treecopy_counts ['s'] ['d'] 493
    [(['a'], .file 420 [1, 2]), (['.'], .dir 493 []), (['e'], .dir 448 [(['x'], .file 384 [7])])]
    (World.init [.ok, .ok, .ok, .ok, .ok, .ok, .ok, .ok, .ok, .ok, .shortRead 1, .eintr])
    (by decide!) (by decide) (by decide) (by decide) (by decide!)

/-- C2 (code bug): a directory with one regular file `f` holding `1 2`, copied
to a destination that did not exist; the first `write` of the chunk transfers
one byte.  `treecopy` returns success, but the destination file holds
`1 1 2`, not the source content. -/
theorem C2_short_write_breaks_round_trip :
    (World.init [.ok, .ok, .ok, .ok, .ok, .ok, .ok, .ok, .ok, .ok, .ok, .shortWrite 1]).fs ['d'] =
        none ∧
      (treecopy ['s'] ['d'] (some (.dir 493 [(['f'], .file 420 [1, 2])]))
        (World.init [.ok, .ok, .ok, .ok, .ok, .ok, .ok, .ok, .ok, .ok, .ok, .shortWrite 1])).code =
        some 0 ∧
      (treecopy ['s'] ['d'] (some (.dir 493 [(['f'], .file 420 [1, 2])]))
        (World.init [.ok, .ok, .ok, .ok, .ok, .ok, .ok, .ok, .ok, .ok, .ok, .shortWrite 1])).file
        ['d', '/', 'f'] = some (.file 33188 [1, 1, 2]) ∧
      (treecopy ['s'] ['d'] (some (.dir 493 [(['f'], .file 420 [1, 2])]))
        (World.init [.ok, .ok, .ok, .ok, .ok, .ok, .ok, .ok, .ok, .ok, .ok, .shortWrite 1])).file
        ['d'] = some (.dir 16877) := by
  decide!

/-- C3 (code bug): a chunk of two bytes whose first `write` transfers one byte.
The retry loop hands the whole buffer to `write` again (`write(dest_fd, buffer,
read_ret)`), so the destination receives three bytes, `1 1 2`, instead of the
chunk `1 2`, and `num_bytes` grows by 3 although the source has 2 bytes; the
call still returns success. -/
theorem C3_short_write_retry_rewrites_chunk :
    (filecopy ['s'] ['d'] (.file 420 [1, 2]) ⟨0, 0, 0⟩
        (World.init [.ok, .ok, .ok, .ok, .shortWrite 1])).code = some 0 ∧
      (filecopy ['s'] ['d'] (.file 420 [1, 2]) ⟨0, 0, 0⟩
        (World.init [.ok, .ok, .ok, .ok, .shortWrite 1])).file ['d'] =
          some (.file 33188 [1, 1, 2]) ∧
      (filecopy ['s'] ['d'] (.file 420 [1, 2]) ⟨0, 0, 0⟩
        (World.init [.ok, .ok, .ok, .ok, .shortWrite 1])).info = some ⟨0, 1, 3⟩ ∧
      (filecopy ['s'] ['d'] (.file 420 [1, 2]) ⟨0, 0, 0⟩
        (World.init [.ok, .ok, .ok, .ok, .shortWrite 1])).calls =
          [.open_rd ['s'] 3, .stat ['s'] 0, .open_wr ['d'] 33188 4, .read 3 2,
            .write 4 2 1, .write 4 2 2, .read 3 0, .close 3 0, .close 4 0] := by
  decide

/-- C4 (code bug): the source is a regular file and the destination path is an
existing directory, so `filecopy` cannot create the destination and returns 1;
`treecopy` then returns 0 (`if (filecopy(...)) {return 0;}`) without a summary
line, and the dispatcher does not print "copy unsuccessful". -/
theorem C4_treecopy_returns_zero_when_filecopy_fails :
    (filecopy ['s'] ['d'] (.file 420 [1]) ⟨0, 0, 0⟩
        (sys_stat ['s'] (some (.file 420 [1]))
          { World.init [] with fs := fun p => if p = ['d'] then some (.dir 493) else none }).2).code
        = some 1 ∧
      (treecopy ['s'] ['d'] (some (.file 420 [1]))
        { World.init [] with fs := fun p => if p = ['d'] then some (.dir 493) else none }).code
        = some 0 ∧
      (treecopy ['s'] ['d'] (some (.file 420 [1]))
        { World.init [] with fs := fun p => if p = ['d'] then some (.dir 493) else none }).printed
        = [.diag "Unable to create file" ['d']] := by
  decide

/-- C5, counterexample: the first entry of the source directory is a FIFO and
`closedir` fails after the diagnostic; `recursive_directory_copy` does not
return failure and `treecopy` reports nothing: the process ends with
`exit(1)`. -/
theorem C5_counterexample_closedir_failure_exits :
    (treecopy ['s'] ['d']
        (some (.dir 493 [(['p'], .other .fifo 420 []), (['z'], .file 420 [1])]))
        (World.init [.ok, .ok, .ok, .ok, .ok, .ok, .ok, .err])).code = none ∧
      (treecopy ['s'] ['d']
        (some (.dir 493 [(['p'], .other .fifo 420 []), (['z'], .file 420 [1])]))
        (World.init [.ok, .ok, .ok, .ok, .ok, .ok, .ok, .err])).exited = some 1 ∧
      (treecopy ['s'] ['d']
        (some (.dir 493 [(['p'], .other .fifo 420 []), (['z'], .file 420 [1])]))
        (World.init [.ok, .ok, .ok, .ok, .ok, .ok, .ok, .err])).printed =
        [.copied ['s'] ['d'], .diag "Unable to copy file" ['s', '/', 'p'],
          .diag "Unable to close directory" ['s']] := by
  decide

/-- C5, amended: at every directory level and in every state of the walk, when
the entry that `readdir` yields fails (its type tag is neither directory nor
regular file, or its `filecopy` returns non-zero, or its recursive directory
copy returns non-zero), `recursive_directory_copy` closes the directory and
returns 1 at once (its last call is the successful `closedir` of this level),
or ends the process with `exit(1)` when that `closedir` fails (its last call
is then the failed `closedir`).  The outcome is the same whatever entries follow the failing one, so no
later entry of this level is copied or created (and, the enclosing level seeing
a failed recursive copy, none of any enclosing level); everything that was on
the destination side stays; and `treecopy` returns 1 when its directory copy
returns non-zero. -/
theorem C5_failing_entry_stops_walk (dirname destname : Path) (current_dir : Nat)
    (first : Bool) (d_name : Path) (node : Node) (post : List (Path × Node)) (ci : copy_info)
    (w : World) (c : Int) (hname : d_name ≠ ['.'] ∧ d_name ≠ ['.', '.'])
    (hrd : (sys_readdir current_dir (some d_name) w).1 = true)
    (hm1 : (sys_malloc (dirname.length + d_name.length + 2)
      (sys_readdir current_dir (some d_name) w).2).1 = true)
    (hm2 : (sys_malloc (destname.length + d_name.length + 2)
      (sys_malloc (dirname.length + d_name.length + 2)
        (sys_readdir current_dir (some d_name) w).2).2).1 = true)
    (hfail :
      (node.d_type ≠ 4 ∧ node.d_type ≠ 8) ∨
        (node.d_type = 8 ∧ c ≠ 0 ∧
          (filecopy (dirname ++ '/' :: d_name) (destname ++ '/' :: d_name) node ci
            (sys_malloc (destname.length + d_name.length + 2)
              (sys_malloc (dirname.length + d_name.length + 2)
                (sys_readdir current_dir (some d_name) w).2).2).2).code = some c) ∨
        (node.d_type = 4 ∧ c ≠ 0 ∧
          (recursive_directory_copy (dirname ++ '/' :: d_name) (destname ++ '/' :: d_name) node
            ci
            (sys_malloc (destname.length + d_name.length + 2)
              (sys_malloc (dirname.length + d_name.length + 2)
                (sys_readdir current_dir (some d_name) w).2).2).2).code = some c)) :
    (((dir_loop dirname destname current_dir first ((d_name, node) :: post) ci w).code = some 1 ∧
          (dir_loop dirname destname current_dir first ((d_name, node) :: post) ci w
            ).calls.getLast? = some (.closedir current_dir 0)) ∨
        ((dir_loop dirname destname current_dir first ((d_name, node) :: post) ci w).exited =
            some 1 ∧
          (dir_loop dirname destname current_dir first ((d_name, node) :: post) ci w
            ).calls.getLast? = some (.closedir current_dir (-1)))) ∧
      (∀ post', dir_loop dirname destname current_dir first ((d_name, node) :: post') ci w =
        dir_loop dirname destname current_dir first ((d_name, node) :: post) ci w) ∧
      (∀ p, (w.fs p).isSome →
        ((dir_loop dirname destname current_dir first ((d_name, node) :: post) ci w).file
          p).isSome) ∧
      (∀ (source_file dest_file : Path) (perm : Nat) (entries : List (Path × Node))
        (w0 : World) (c0 : Int),
        (sys_stat source_file (some (.dir perm entries)) w0).1.isSome = true →
        (source_file.getLast? = some '/' →
          (sys_malloc (source_file.length + 1)
            (sys_stat source_file (some (.dir perm entries)) w0).2).1 = true) →
        (recursive_directory_copy
          (if source_file.getLast? = some '/' then source_file.dropLast else source_file)
          dest_file (.dir perm entries) ⟨0, 0, 0⟩
          (if source_file.getLast? = some '/' then
            (sys_malloc (source_file.length + 1)
              (sys_stat source_file (some (.dir perm entries)) w0).2).2
          else (sys_stat source_file (some (.dir perm entries)) w0).2)).code = some c0 →
        c0 ≠ 0 →
        (treecopy source_file dest_file (some (.dir perm entries)) w0).code = some 1) := by
  rcases h1 : sys_readdir current_dir (some d_name) w with ⟨b1, w1⟩
  rw [h1] at hrd hm1 hm2 hfail
  simp only at hrd hm1 hm2 hfail
  subst hrd
  rcases h2 : sys_malloc (dirname.length + d_name.length + 2) w1 with ⟨b2, w2⟩
  rw [h2] at hm1 hm2 hfail
  simp only at hm1 hm2 hfail
  subst hm1
  rcases h3 : sys_malloc (destname.length + d_name.length + 2) w2 with ⟨b3, w3⟩
  rw [h3] at hm2 hfail
  simp only at hm2 hfail
  subst hm2
  have key : ∃ ci' w', Later w w' ∧ ∀ post',
      dir_loop dirname destname current_dir first ((d_name, node) :: post') ci w =
        closedir_or_exit current_dir dirname w' (fun w => .ret 1 ci' w) := by
    rcases hfail with ⟨h4, h8⟩ | ⟨h8, hc, hcode⟩ | ⟨h4, hc, hcode⟩
    · have := fun post' => @dir_loop_entry_fails _ _ _ first _ node ci _ _ _ _ _ _
        hname h1 h2 h3 (Or.inl ⟨h4, h8, rfl, rfl⟩) post'
      exact ⟨_, _, (this []).2, fun post' => (this post').1⟩
    · rcases hr : filecopy (dirname ++ '/' :: d_name) (destname ++ '/' :: d_name) node ci w3
        with ⟨c', ci', w'⟩ | ⟨c', w'⟩ | _
      · rw [hr] at hcode
        simp [Result.code] at hcode
        subst hcode
        have := fun post' => @dir_loop_entry_fails _ _ _ first _ node ci _ _ _ _ _ _
          hname h1 h2 h3 (Or.inr (Or.inl ⟨h8, c', hc, hr⟩)) post'
        exact ⟨_, _, (this []).2, fun post' => (this post').1⟩
      · rw [hr] at hcode; simp [Result.code] at hcode
      · rw [hr] at hcode; simp [Result.code] at hcode
    · rcases hr : recursive_directory_copy (dirname ++ '/' :: d_name)
        (destname ++ '/' :: d_name) node ci w3 with ⟨c', ci', w'⟩ | ⟨c', w'⟩ | _
      · rw [hr] at hcode
        simp [Result.code] at hcode
        subst hcode
        have := fun post' => @dir_loop_entry_fails _ _ _ first _ node ci _ _ _ _ _ _
          hname h1 h2 h3 (Or.inr (Or.inr ⟨h4, c', hc, hr⟩)) post'
        exact ⟨_, _, (this []).2, fun post' => (this post').1⟩
      · rw [hr] at hcode; simp [Result.code] at hcode
      · rw [hr] at hcode; simp [Result.code] at hcode
  obtain ⟨ci', w', hl, hkey⟩ := key
  have hview := closedir_or_exit_fail_view current_dir dirname ci' w'
  refine ⟨?_, ?_, ?_, ?_⟩
  · rw [hkey post]
    rcases hview.1 with h | h
    · exact Or.inl ⟨h.1, h.2.2.1⟩
    · exact Or.inr h
  · intro post'
    rw [hkey post', hkey post]
  · intro p hp
    rw [hkey post, hview.2 p]
    exact hl.fs p hp
  · intro source_file dest_file perm entries w0 c0 hst hm hrec hc0
    exact treecopy_reports_directory_failure source_file dest_file perm entries w0 c0 hst hm
      hrec hc0

/-- Witness of C5, amended: the first entry is a directory whose only entry is a
FIFO, so its recursive copy returns 1; the regular file `z` after it is not
created, the destination root stays. -/
theorem C5_witness :
    (dir_loop ['s'] ['d'] 3 true
        [(['e'], .dir 448 [(['p'], .other .fifo 420 [])]), (['z'], .file 420 [1])] ⟨1, 0, 0⟩
        { World.init [] with
          handles := [3], next := 4,
          fs := fun p => if p = ['d'] then some (.dir 16877) else none }).file ['d', '/', 'z'] =
        none ∧
      (((dir_loop ['s'] ['d'] 3 true
          [(['e'], .dir 448 [(['p'], .other .fifo 420 [])]), (['z'], .file 420 [1])] ⟨1, 0, 0⟩
          { World.init [] with
            handles := [3], next := 4,
            fs := fun p => if p = ['d'] then some (.dir 16877) else none }).code = some 1 ∧
          (dir_loop ['s'] ['d'] 3 true
            [(['e'], .dir 448 [(['p'], .other .fifo 420 [])]), (['z'], .file 420 [1])] ⟨1, 0, 0⟩
            { World.init [] with
              handles := [3], next := 4,
              fs := fun p => if p = ['d'] then some (.dir 16877) else none }).calls.getLast? =
            some (.closedir 3 0)) ∨
        ((dir_loop ['s'] ['d'] 3 true
            [(['e'], .dir 448 [(['p'], .other .fifo 420 [])]), (['z'], .file 420 [1])] ⟨1, 0, 0⟩
            { World.init [] with
              handles := [3], next := 4,
              fs := fun p => if p = ['d'] then some (.dir 16877) else none }).exited = some 1 ∧
          (dir_loop ['s'] ['d'] 3 true
            [(['e'], .dir 448 [(['p'], .other .fifo 420 [])]), (['z'], .file 420 [1])] ⟨1, 0, 0⟩
            { World.init [] with
              handles := [3], next := 4,
              fs := fun p => if p = ['d'] then some (.dir 16877) else none }).calls.getLast? =
            some (.closedir 3 (-1)))) :=
  ⟨by decide,
    (C5_failing_entry_stops_walk ['s'] ['d'] 3 true ['e'] (.dir 448 [(['p'], .other .fifo 420 [])])
      [(['z'], .file 420 [1])] ⟨1, 0, 0⟩
      { World.init [] with
        handles := [3], next := 4,
        fs := fun p => if p = ['d'] then some (.dir 16877) else none }
      1 (by decide) (by decide) (by decide) (by decide)
      (Or.inr (Or.inr ⟨by decide, by decide, by decide⟩))).1⟩

/-- C6, counterexample: the destination directory exists and `closedir` fails
after the failed `mkdir`; the call does not return failure, it ends the process
with `exit(1)`. -/
theorem C6_counterexample_closedir_failure_exits :
    ({ World.init [.ok, .ok, .ok, .err] with
        fs := fun p => if p = ['d'] then some (.dir 493) else none } : World).fs ['d'] =
          some (.dir 493) ∧
      (recursive_directory_copy ['s'] ['d'] (.dir 493 [(['a'], .file 420 [1])]) ⟨0, 0, 0⟩
        { World.init [.ok, .ok, .ok, .err] with
          fs := fun p => if p = ['d'] then some (.dir 493) else none }).code = none ∧
      (recursive_directory_copy ['s'] ['d'] (.dir 493 [(['a'], .file 420 [1])]) ⟨0, 0, 0⟩
        { World.init [.ok, .ok, .ok, .err] with
          fs := fun p => if p = ['d'] then some (.dir 493) else none }).exited = some 1 := by
  decide

/-- C6, amended: when the destination directory already exists, a call of
`recursive_directory_copy` returns 1 with `copy_info` unchanged, or ends the
process with `exit(1)` when closing the directory stream fails (its last call is
then the failed `closedir`).  In both cases the destination side is unchanged
and the only calls made are `opendir` and `stat` of the source directory, the
failed `mkdir` of the destination and `closedir`: no `readdir`, no file copy,
no recursive call. -/
theorem C6_existing_destination_untouched (dirname destname : Path) (src : Node)
    (ci : copy_info) (w : World) (hex : (w.fs destname).isSome) :
    (((recursive_directory_copy dirname destname src ci w).code = some 1 ∧
        (recursive_directory_copy dirname destname src ci w).info = some ci) ∨
      ((recursive_directory_copy dirname destname src ci w).exited = some 1 ∧
        ∃ d, (recursive_directory_copy dirname destname src ci w).calls.getLast? =
          some (.closedir d (-1)))) ∧
      (∀ p, (recursive_directory_copy dirname destname src ci w).file p = w.fs p) ∧
      ∃ calls, (recursive_directory_copy dirname destname src ci w).calls =
          w.trace.reverse ++ calls ∧
        calls.all (Call.isSetup dirname destname) = true := by
  obtain ⟨w', calls, hr, hfs, htr, hall⟩ :=
    existing_destination_cases dirname destname src ci w hex
  rcases hr with hr | ⟨hr, d, hd⟩
  · rw [hr]
    refine ⟨Or.inl ⟨rfl, rfl⟩, fun p => by simp [Result.file, Result.world, hfs], ?_⟩
    refine ⟨calls.reverse, by simp [Result.calls, Result.world, htr], ?_⟩
    simpa using hall
  · rw [hr]
    refine ⟨Or.inr ⟨rfl, d, ?_⟩, fun p => by simp [Result.file, Result.world, hfs], ?_⟩
    · cases calls with
      | nil => simp at hd
      | cons c cs =>
        simp at hd
        subst hd
        simp [Result.calls, Result.world, htr]
    · refine ⟨calls.reverse, by simp [Result.calls, Result.world, htr], ?_⟩
      simpa using hall

/-- Witness of C6, amended: a source directory with one file, copied onto an
existing directory. -/
theorem C6_witness :
    (recursive_directory_copy ['s'] ['d'] (.dir 493 [(['a'], .file 420 [1])]) ⟨0, 0, 0⟩
        { World.init [] with
          fs := fun p => if p = ['d'] then some (.dir 493) else none }).code = some 1 ∧
      (recursive_directory_copy ['s'] ['d'] (.dir 493 [(['a'], .file 420 [1])]) ⟨0, 0, 0⟩
        { World.init [] with
          fs := fun p => if p = ['d'] then some (.dir 493) else none }).file ['d', '/', 'a'] =
            none ∧
      ∃ calls,
        (recursive_directory_copy ['s'] ['d'] (.dir 493 [(['a'], .file 420 [1])]) ⟨0, 0, 0⟩
          { World.init [] with
            fs := fun p => if p = ['d'] then some (.dir 493) else none }).calls =
              ([] : List Call).reverse ++ calls ∧
          calls.all (Call.isSetup ['s'] ['d']) = true :=
  ⟨by decide, by decide,
    (C6_existing_destination_untouched ['s'] ['d'] (.dir 493 [(['a'], .file 420 [1])])
      ⟨0, 0, 0⟩
      { World.init [] with fs := fun p => if p = ['d'] then some (.dir 493) else none }
      (by decide)).2.2⟩

/-- C7 (code bug): the source is a FIFO that delivers three bytes.  `treecopy`
tests only `!S_ISDIR(st_mode)`, hands the path to `filecopy`, which opens and
reads it, and returns 0 with a summary line counting one copied file. -/
theorem C7_treecopy_hands_fifo_to_filecopy :
    (treecopy ['s'] ['d'] (some (.other .fifo 420 [1, 2, 3])) (World.init [])).code = some 0 ∧
      (treecopy ['s'] ['d'] (some (.other .fifo 420 [1, 2, 3])) (World.init [])).calls =
        [.stat ['s'] 0, .open_rd ['s'] 3, .stat ['s'] 0, .open_wr ['d'] 4516 4, .read 3 3,
          .write 4 3 3, .read 3 0, .close 3 0, .close 4 0] ∧
      (treecopy ['s'] ['d'] (some (.other .fifo 420 [1, 2, 3])) (World.init [])).file ['d'] =
        some (.file 4516 [1, 2, 3]) ∧
      (treecopy ['s'] ['d'] (some (.other .fifo 420 [1, 2, 3])) (World.init [])).printed =
        [.copied ['s'] ['d'], .summary 0 1 3 ['s'] ['d']] := by
  decide

/-- C8: whenever `filecopy` returns failure (a non-zero value), whatever
system call failed and however many chunks were already written, the counters
`num_dir`, `num_files` and `num_bytes` of `copy_info` are what they were before
the call. -/
theorem C8_filecopy_failure_keeps_copy_info (source dest : Path) (src : Node) (ci : copy_info)
    (w : World) (c : Int) (hret : (filecopy source dest src ci w).code = some c) (hc : c ≠ 0) :
    (filecopy source dest src ci w).info = some ci := by
  rcases hr : filecopy source dest src ci w with ⟨c', ci', w'⟩ | ⟨c', w'⟩ | _
  · rw [hr] at hret
    simp [Result.code] at hret
    subst hret
    rcases filecopy_ret_cases hr with ⟨_, h2⟩ | ⟨h1, _⟩
    · simp [Result.info, h2]
    · exact absurd h1 hc
  · rw [hr] at hret; simp [Result.code] at hret
  · rw [hr] at hret; simp [Result.code] at hret

/-- Witness of C8: a two-byte file whose second write fails hard after the
first write was short; one byte is already in the destination file. -/
theorem C8_witness :
    (filecopy ['s'] ['d'] (.file 420 [1, 2]) ⟨5, 6, 7⟩
        (World.init [.ok, .ok, .ok, .ok, .shortWrite 1, .err])).code = some 1 ∧
      (filecopy ['s'] ['d'] (.file 420 [1, 2]) ⟨5, 6, 7⟩
        (World.init [.ok, .ok, .ok, .ok, .shortWrite 1, .err])).file ['d'] =
          some (.file 33188 [1]) ∧
      (filecopy ['s'] ['d'] (.file 420 [1, 2]) ⟨5, 6, 7⟩
        (World.init [.ok, .ok, .ok, .ok, .shortWrite 1, .err])).info = some ⟨5, 6, 7⟩ :=
  ⟨by decide, by decide,
    C8_filecopy_failure_keeps_copy_info ['s'] ['d'] (.file 420 [1, 2]) ⟨5, 6, 7⟩
      (World.init [.ok, .ok, .ok, .ok, .shortWrite 1, .err]) 1 (by decide) (by decide)⟩

/-- C9, counterexample: the destination exists with the three bytes `7 8 9`,
the source has the single byte `1`; `filecopy` returns success and the
destination holds `1 8 9`, not the source content. -/
theorem C9_counterexample_longer_destination_keeps_tail :
    (filecopy ['s'] ['d'] (.file 420 [1]) ⟨0, 0, 0⟩
        { World.init [] with
          fs := fun p => if p = ['d'] then some (.file 33188 [7, 8, 9]) else none }).code =
          some 0 ∧
      (filecopy ['s'] ['d'] (.file 420 [1]) ⟨0, 0, 0⟩
        { World.init [] with
          fs := fun p => if p = ['d'] then some (.file 33188 [7, 8, 9]) else none }).file ['d'] =
          some (.file 33188 [1, 8, 9]) := by
  decide

/-- C9, amended: after `filecopy` of a regular file returns success, in a call
in which every `write` either failed, transferred nothing or transferred the
whole chunk it was given, the destination file holds the source content
when the destination was absent (it is then created with the source's
`st_mode`) or was a file not longer than the source; a longer existing file is
not truncated: it holds the source content followed by its old bytes beyond the
source's length. -/
theorem C9_destination_content (source dest : Path) (perm : Nat) (content : List Byte)
    (ci : copy_info) (w : World)
    (hfull : FullWrites ((filecopy source dest (.file perm content) ci w).since w))
    (hok : (filecopy source dest (.file perm content) ci w).code = some 0) :
    (w.fs dest = none →
        (filecopy source dest (.file perm content) ci w).file dest =
          some (.file (Node.file perm content).st_mode content)) ∧
      (∀ m old, w.fs dest = some (.file m old) →
        (filecopy source dest (.file perm content) ci w).file dest =
          some (.file m (content ++ old.drop content.length))) ∧
      (∀ m old, w.fs dest = some (.file m old) → old.length ≤ content.length →
        (filecopy source dest (.file perm content) ci w).file dest =
          some (.file m content)) := by
  rcases hr : filecopy source dest (.file perm content) ci w with ⟨c', ci', w'⟩ | ⟨c', w'⟩ | _
  · rw [hr] at hok
    simp [Result.code] at hok
    subst hok
    rw [hr] at hfull
    obtain ⟨bytes, hb, _, hcase⟩ :=
      filecopy_success (FullSince.of_since (filecopy_ext hr) hfull) hr
    simp [Node.data] at hb
    subst hb
    simp only [Result.file, Result.world]
    refine ⟨?_, ?_, ?_⟩
    · intro hnone
      rcases hcase with ⟨_, h2⟩ | ⟨m, old, h1, _⟩
      · exact h2
      · rw [hnone] at h1; simp at h1
    · intro m old hold
      rcases hcase with ⟨h1, _⟩ | ⟨m', old', h1, h2⟩
      · rw [hold] at h1; simp at h1
      · rw [hold] at h1
        simp at h1
        obtain ⟨rfl, rfl⟩ := h1
        exact h2
    · intro m old hold hlen
      rcases hcase with ⟨h1, _⟩ | ⟨m', old', h1, h2⟩
      · rw [hold] at h1; simp at h1
      · rw [hold] at h1
        simp at h1
        obtain ⟨rfl, rfl⟩ := h1
        rw [h2, List.drop_eq_nil_of_le hlen]
        simp
  · rw [hr] at hok; simp [Result.code] at hok
  · rw [hr] at hok; simp [Result.code] at hok

/-- Witness of C9, amended: a 2-byte source over an existing 1-byte file, with an
interrupted first write, and over an existing 3-byte file. -/
theorem C9_witness :
    (filecopy ['s'] ['d'] (.file 420 [1, 2]) ⟨0, 0, 0⟩
        { World.init [.ok, .ok, .ok, .ok, .eintr] with
          fs := fun p => if p = ['d'] then some (.file 33188 [7]) else none }).file ['d'] =
          some (.file 33188 [1, 2]) ∧
      (filecopy ['s'] ['d'] (.file 420 [1, 2]) ⟨0, 0, 0⟩
        { World.init [] with
          fs := fun p => if p = ['d'] then some (.file 33188 [7, 8, 9]) else none }).file ['d'] =
          some (.file 33188 ([1, 2] ++ [7, 8, 9].drop [1, 2].length)) :=
  ⟨(C9_destination_content ['s'] ['d'] 420 [1, 2] ⟨0, 0, 0⟩
      { World.init [.ok, .ok, .ok, .ok, .eintr] with
        fs := fun p => if p = ['d'] then some (.file 33188 [7]) else none }
      (by decide) (by decide)).2.2 33188 [7] (by decide) (by decide),
    (C9_destination_content ['s'] ['d'] 420 [1, 2] ⟨0, 0, 0⟩
      { World.init [] with
        fs := fun p => if p = ['d'] then some (.file 33188 [7, 8, 9]) else none }
      (by decide) (by decide)).2.1 33188 [7, 8, 9] (by decide)⟩

/-- C10: on every path on which `filecopy` or `recursive_directory_copy`
returns to its caller, with success or with failure and whatever the outcomes
of the system calls, every descriptor and directory stream the call opened has
been closed exactly once: the handles closed during the call are the handles
opened during it, each once, and the open handles after the call are those
open before it. -/
theorem C10_handles_released (source dest : Path) (src : Node) (ci : copy_info) (w : World) :
    (∀ c, (filecopy source dest src ci w).code = some c →
        (filecopy source dest src ci w).handles = some w.handles ∧
          (closed ((filecopy source dest src ci w).since w)).Perm
            (opened ((filecopy source dest src ci w).since w)) ∧
          (opened ((filecopy source dest src ci w).since w)).Nodup) ∧
      (∀ c, (recursive_directory_copy source dest src ci w).code = some c →
        (recursive_directory_copy source dest src ci w).handles = some w.handles ∧
          (closed ((recursive_directory_copy source dest src ci w).since w)).Perm
            (opened ((recursive_directory_copy source dest src ci w).since w)) ∧
          (opened ((recursive_directory_copy source dest src ci w).since w)).Nodup) := by
  constructor
  · intro c hret
    rcases hr : filecopy source dest src ci w with ⟨c', ci', w'⟩ | ⟨c', w'⟩ | _
    · obtain ⟨o, a⟩ := filecopy_acct hr
      obtain ⟨e1, e2⟩ := a.since c' ci'
      rw [e1, e2]
      exact ⟨by simp [Result.handles, (filecopy_frame hr).2], List.Perm.refl _, a.nodup⟩
    · rw [hr] at hret; simp [Result.code] at hret
    · rw [hr] at hret; simp [Result.code] at hret
  · intro c hret
    rcases hr : recursive_directory_copy source dest src ci w with ⟨c', ci', w'⟩ | ⟨c', w'⟩ | _
    · obtain ⟨o, cl, a, hp⟩ := recursive_directory_copy_acct _ _ _ _ _ _ _ _ hr
      obtain ⟨e1, e2⟩ := a.since c' ci'
      rw [e1, e2]
      exact ⟨by simp [Result.handles, (recursive_directory_copy_frame _ _ _ _ _ _ _ _ hr).2],
        hp, a.nodup⟩
    · rw [hr] at hret; simp [Result.code] at hret
    · rw [hr] at hret; simp [Result.code] at hret

/-- Witness of C10: a file copy that fails while writing and a directory copy
that fails on a FIFO below the root both return with the handles 0, 1, 2 open,
as before. -/
theorem C10_witness :
    (filecopy ['s'] ['d'] (.file 420 [1, 2]) ⟨0, 0, 0⟩
        { World.init [.ok, .ok, .ok, .ok, .err] with handles := [0, 1, 2] }).handles =
          some [0, 1, 2] ∧
      (recursive_directory_copy ['s'] ['d']
          (.dir 493 [(['a'], .file 420 [1]), (['p'], .other .fifo 420 [])]) ⟨0, 0, 0⟩
        { World.init [] with handles := [0, 1, 2] }).handles = some [0, 1, 2] ∧
      opened ((recursive_directory_copy ['s'] ['d']
          (.dir 493 [(['a'], .file 420 [1]), (['p'], .other .fifo 420 [])]) ⟨0, 0, 0⟩
        { World.init [] with handles := [0, 1, 2] }).since
          { World.init [] with handles := [0, 1, 2] }) = [5, 4, 3] :=
  ⟨((C10_handles_released ['s'] ['d'] (.file 420 [1, 2]) ⟨0, 0, 0⟩
      { World.init [.ok, .ok, .ok, .ok, .err] with handles := [0, 1, 2] }).1 1 (by decide)).1,
    ((C10_handles_released ['s'] ['d']
      (.dir 493 [(['a'], .file 420 [1]), (['p'], .other .fifo 420 [])]) ⟨0, 0, 0⟩
      { World.init [] with handles := [0, 1, 2] }).2 1 (by decide)).1,
    by decide⟩

/-! # The properties C11 to C19 of the specification -/

/-- C11: when `wait` (in `wait_for_process`) or `waitpid` (in
`wait_for_specific_process`) returns the pid `pid` with a status that encodes
a normal exit with code `c`, the function prints the line
`process <pid> exited normally with status <c>` and returns 0; when the status
encodes a termination by the signal `sig`, it prints the line with `pid`,
`sig` and the name `strsignal` gives for `sig`, and returns 0. -/
theorem C11_wait_reports_outcome (m : libc) (s : Shell) (child_pid pid status errno : Int)
    (rest : List Answer) (hs : s.answers = ⟨pid, status, errno⟩ :: rest) (hpid : 0 ≤ pid) :
    (∀ c, m.WIFEXITED status = true → m.WEXITSTATUS status = c →
      (wait_for_process m s).value = some 0 ∧
        (wait_for_process m s).lines_since s = [.exited pid c] ∧
        (wait_for_specific_process m child_pid s).value = some 0 ∧
        (wait_for_specific_process m child_pid s).lines_since s = [.exited pid c]) ∧
      (∀ sig, m.WIFEXITED status = false → m.WIFSIGNALED status = true →
        m.WTERMSIG status = sig →
        (wait_for_process m s).value = some 0 ∧
          (wait_for_process m s).lines_since s = [.signaled pid sig (m.strsignal sig)] ∧
          (wait_for_specific_process m child_pid s).value = some 0 ∧
          (wait_for_specific_process m child_pid s).lines_since s =
            [.signaled pid sig (m.strsignal sig)]) := by
  have hneg : ¬ pid < 0 := by omega
  constructor
  · intro c he hc
    simp only [wait_for_process, wait_for_specific_process, sys_wait, sys_waitpid,
      next_answer_cons hs, hneg, he, hc, if_true, if_false, PResult.value, PResult.lines_since,
      PResult.shell, Shell.print, Shell.log]
    simp
  · intro sig he hsig hterm
    simp only [wait_for_process, wait_for_specific_process, sys_wait, sys_waitpid,
      next_answer_cons hs, hneg, he, hsig, hterm, if_true, if_false, PResult.value,
      PResult.lines_since, PResult.shell, Shell.print, Shell.log]
    simp

/-- Witness of C11: a child with pid 42 that exits with code 7 (status
`7 * 256`), and a child with pid 43 ended by signal 15. -/
theorem C11_witness :
    ((wait_for_process linux (Shell.init [⟨42, 1792, 0⟩])).value = some 0 ∧
      (wait_for_process linux (Shell.init [⟨42, 1792, 0⟩])).lines_since
        (Shell.init [⟨42, 1792, 0⟩]) = [.exited 42 7] ∧
      (wait_for_specific_process linux 42 (Shell.init [⟨42, 1792, 0⟩])).value = some 0 ∧
      (wait_for_specific_process linux 42 (Shell.init [⟨42, 1792, 0⟩])).lines_since
        (Shell.init [⟨42, 1792, 0⟩]) = [.exited 42 7]) ∧
    ((wait_for_process linux (Shell.init [⟨43, 15, 0⟩])).value = some 0 ∧
      (wait_for_process linux (Shell.init [⟨43, 15, 0⟩])).lines_since
        (Shell.init [⟨43, 15, 0⟩]) = [.signaled 43 15 (linux.strsignal 15)] ∧
      (wait_for_specific_process linux 43 (Shell.init [⟨43, 15, 0⟩])).value = some 0 ∧
      (wait_for_specific_process linux 43 (Shell.init [⟨43, 15, 0⟩])).lines_since
        (Shell.init [⟨43, 15, 0⟩]) = [.signaled 43 15 (linux.strsignal 15)]) :=
  ⟨(C11_wait_reports_outcome linux (Shell.init [⟨42, 1792, 0⟩]) 42 42 1792 0 [] rfl
      (by decide)).1 7 (by decide) (by decide),
    (C11_wait_reports_outcome linux (Shell.init [⟨43, 15, 0⟩]) 43 43 15 0 [] rfl
      (by decide)).2 15 (by decide) (by decide) (by decide)⟩

/-- C12: when `wait` fails with `ECHILD`, `wait_for_process` prints
`myshell: No children.` and returns 0; when `waitpid` fails with `ECHILD`,
`wait_for_specific_process` prints `myshell: no child with such PID.` and
returns 0; neither calls `exit`. -/
theorem C12_missing_child_is_reported (m : libc) (s : Shell) (child_pid ret status : Int)
    (rest : List Answer) (hs : s.answers = ⟨ret, status, m.ECHILD⟩ :: rest) (hret : ret < 0) :
    (wait_for_process m s).value = some 0 ∧
      (wait_for_process m s).lines_since s = [.no_children] ∧
      (wait_for_process m s).exited = none ∧
      (wait_for_specific_process m child_pid s).value = some 0 ∧
      (wait_for_specific_process m child_pid s).lines_since s = [.no_such_child] ∧
      (wait_for_specific_process m child_pid s).exited = none := by
  simp only [wait_for_process, wait_for_specific_process, sys_wait, sys_waitpid,
    next_answer_cons hs, hret, if_true, PResult.value, PResult.lines_since, PResult.exited,
    PResult.shell, Shell.print, Shell.log]
  simp

/-- Witness of C12: `wait` and `waitpid(42)` fail with `ECHILD`. -/
theorem C12_witness :
    (wait_for_process linux (Shell.init [⟨-1, 0, 10⟩])).value = some 0 ∧
      (wait_for_process linux (Shell.init [⟨-1, 0, 10⟩])).lines_since
        (Shell.init [⟨-1, 0, 10⟩]) = [.no_children] ∧
      (wait_for_process linux (Shell.init [⟨-1, 0, 10⟩])).exited = none ∧
      (wait_for_specific_process linux 42 (Shell.init [⟨-1, 0, 10⟩])).value = some 0 ∧
      (wait_for_specific_process linux 42 (Shell.init [⟨-1, 0, 10⟩])).lines_since
        (Shell.init [⟨-1, 0, 10⟩]) = [.no_such_child] ∧
      (wait_for_specific_process linux 42 (Shell.init [⟨-1, 0, 10⟩])).exited = none :=
  C12_missing_child_is_reported linux (Shell.init [⟨-1, 0, 10⟩]) 42 (-1) 0 [] rfl (by decide)

/-- C13: `kill_process` makes one system call, `kill(pid, 15)`, so it sends
`SIGTERM` and never signal 9; when `kill` succeeds it prints the success line
and returns 0, when `kill` fails it prints a diagnostic with `pid` and the
`errno` of the failure and returns 1; it never calls `exit`. -/
theorem C13_kill_sends_sigterm (pid : Int) (s : Shell) :
    (kill_process pid s).calls_since s = [.kill pid 15 s.next_answer.1.ret] ∧
      (∀ c ∈ (kill_process pid s).calls_since s, c.signal = some 15) ∧
      (0 ≤ s.next_answer.1.ret →
        (kill_process pid s).value = some 0 ∧
          (kill_process pid s).lines_since s = [.killed pid]) ∧
      (s.next_answer.1.ret < 0 →
        (kill_process pid s).value = some 1 ∧
          (kill_process pid s).lines_since s =
            [.diag "kill: unable to kill process" (some pid) none s.next_answer.1.errno]) ∧
      (kill_process pid s).exited = none := by
  have hcalls : (kill_process pid s).calls_since s = [.kill pid 15 s.next_answer.1.ret] := by
    simp only [kill_process, sys_kill, PResult.calls_since]
    split <;> simp [PResult.shell, Shell.print, Shell.log]
  refine ⟨hcalls, ?_, ?_, ?_, ?_⟩
  · intro c hc
    rw [hcalls] at hc
    simp at hc
    subst hc
    rfl
  · intro h
    have hneg : ¬ s.next_answer.1.ret < 0 := by omega
    simp [kill_process, sys_kill, hneg, PResult.value, PResult.lines_since, PResult.shell,
      Shell.print, Shell.log]
  · intro h
    simp [kill_process, sys_kill, h, PResult.value, PResult.lines_since, PResult.shell,
      Shell.print, Shell.log]
  · by_cases h : s.next_answer.1.ret < 0 <;> simp [kill_process, sys_kill, h, PResult.exited]

/-- Witness of C13: a `kill` that succeeds and one that fails with `errno` 3
(`ESRCH`). -/
theorem C13_witness :
    ((kill_process 42 (Shell.init [])).value = some 0 ∧
      (kill_process 42 (Shell.init [])).lines_since (Shell.init []) = [.killed 42]) ∧
    ((kill_process 42 (Shell.init [⟨-1, 0, 3⟩])).value = some 1 ∧
      (kill_process 42 (Shell.init [⟨-1, 0, 3⟩])).lines_since (Shell.init [⟨-1, 0, 3⟩]) =
        [.diag "kill: unable to kill process" (some 42) none 3]) :=
  ⟨(C13_kill_sends_sigterm 42 (Shell.init [])).2.2.1 (by decide),
    (C13_kill_sends_sigterm 42 (Shell.init [⟨-1, 0, 3⟩])).2.2.2.1 (by decide)⟩

/-- C14: for every `words` with at least two elements, `start_process` calls
`fork` and then, followed in each of the two processes:
in the child (`fork` gives 0) it calls `execvp(words[1], &words[1])`, the
label `words[0]` being dropped, and the child becomes that program, or, when
`execvp` fails, the child calls `exit(1)`;
in the parent (`fork` gives the child's pid) it prints the pid and returns it
with no further system call, so without waiting;
when `fork` fails the shell calls `exit(1)`. -/
theorem C14_start_process_forks_and_execs (words : List Path) (s : Shell)
    (hw : 2 ≤ words.length) :
    (s.next_answer.1.ret = 0 →
      (start_process words s).calls_since s =
          [.fork 0, .execvp (words.getD 1 []) (words.drop 1) s.next_answer.2.next_answer.1.ret] ∧
        (0 ≤ s.next_answer.2.next_answer.1.ret →
          ∃ s', start_process words s = .exec (words.getD 1 []) (words.drop 1) s') ∧
        (s.next_answer.2.next_answer.1.ret < 0 →
          (start_process words s).exited = some 1)) ∧
      (0 < s.next_answer.1.ret →
        (start_process words s).value = some s.next_answer.1.ret ∧
          (start_process words s).calls_since s = [.fork s.next_answer.1.ret] ∧
          (start_process words s).lines_since s = [.started s.next_answer.1.ret]) ∧
      (s.next_answer.1.ret < 0 →
        (start_process words s).exited = some 1 ∧
          (start_process words s).calls_since s = [.fork s.next_answer.1.ret]) := by
  obtain ⟨label, file, args, rfl⟩ : ∃ label file args, words = label :: file :: args := by
    match words, hw with
    | label :: file :: args, _ => exact ⟨label, file, args, rfl⟩
  refine ⟨?_, ?_, ?_⟩
  · intro h0
    refine ⟨?_, ?_, ?_⟩
    · have hlen : s.calls.length + 1 + 1 - s.calls.length = 2 := by omega
      by_cases he : s.next_answer.2.next_answer.1.ret < 0 <;>
        simp [start_process, sys_fork, sys_execvp, h0, he, PResult.calls_since, PResult.shell,
          hlen]
    · intro he
      have he' : ¬ s.next_answer.2.next_answer.1.ret < 0 := by omega
      simp [start_process, sys_fork, sys_execvp, h0, he']
    · intro he
      simp [start_process, sys_fork, sys_execvp, h0, he, PResult.exited]
  · intro hpos
    have h1 : ¬ s.next_answer.1.ret < 0 := by omega
    have h2 : ¬ s.next_answer.1.ret = 0 := by omega
    simp [start_process, sys_fork, h1, h2, PResult.value, PResult.calls_since,
      PResult.lines_since, PResult.shell, Shell.print, Shell.log]
  · intro hneg
    simp [start_process, sys_fork, hneg, PResult.exited, PResult.calls_since, PResult.shell,
      Shell.print, Shell.log]

/-- Witness of C14: `start ls -l` in the child whose `execvp` succeeds, in the
child whose `execvp` fails, in the parent of child 42, and with a failing
`fork`. -/
theorem C14_witness :
    (start_process [['s', 't', 'a', 'r', 't'], ['l', 's'], ['-', 'l']]
        (Shell.init [⟨0, 0, 0⟩])).calls_since (Shell.init [⟨0, 0, 0⟩]) =
        [.fork 0, .execvp ['l', 's'] [['l', 's'], ['-', 'l']] 0] ∧
      (start_process [['s', 't', 'a', 'r', 't'], ['l', 's'], ['-', 'l']]
        (Shell.init [⟨0, 0, 0⟩, ⟨-1, 0, 2⟩])).exited = some 1 ∧
      (start_process [['s', 't', 'a', 'r', 't'], ['l', 's'], ['-', 'l']]
        (Shell.init [⟨42, 0, 0⟩])).value = some 42 ∧
      (start_process [['s', 't', 'a', 'r', 't'], ['l', 's'], ['-', 'l']]
        (Shell.init [⟨-1, 0, 11⟩])).exited = some 1 :=
  ⟨((C14_start_process_forks_and_execs [['s', 't', 'a', 'r', 't'], ['l', 's'], ['-', 'l']]
      (Shell.init [⟨0, 0, 0⟩]) (by decide)).1 (by decide)).1,
    ((C14_start_process_forks_and_execs [['s', 't', 'a', 'r', 't'], ['l', 's'], ['-', 'l']]
      (Shell.init [⟨0, 0, 0⟩, ⟨-1, 0, 2⟩]) (by decide)).1 (by decide)).2.2 (by decide),
    ((C14_start_process_forks_and_execs [['s', 't', 'a', 'r', 't'], ['l', 's'], ['-', 'l']]
      (Shell.init [⟨42, 0, 0⟩]) (by decide)).2.1 (by decide)).1,
    ((C14_start_process_forks_and_execs [['s', 't', 'a', 'r', 't'], ['l', 's'], ['-', 'l']]
      (Shell.init [⟨-1, 0, 11⟩]) (by decide)).2.2 (by decide)).1⟩

/-- C15, counterexample: a directory with one regular file of `2^31` bytes,
copied with no failing system call.  The counters start at 0 and the call ends
with `num_bytes = -2147483648`: the update of `num_bytes` in `filecopy` made
the counter negative and smaller than it was. -/
theorem C15_counterexample_num_bytes_goes_negative :
    (treecopy ['s'] ['d'] (some (.dir 493 [(['f'], .file 420 (List.replicate 2147483648 0))]))
        (World.init [])).info = some ⟨1, 1, -2147483648⟩ ∧
      ¬ (⟨0, 0, 0⟩ : copy_info).le ⟨1, 1, -2147483648⟩ := by
  have hc : (Node.dir 493 [(['f'], .file 420 (List.replicate 2147483648 0))]).census =
      ⟨1, 1, 2147483648⟩ := by
    rw [census_one_file, List.length_replicate]
  obtain ⟨ci', w', h, hfull⟩ := one_file_tree_copied (List.replicate 2147483648 0)
  have hcount := (treecopy_counts hfull h).1
  rw [hc] at hcount
  constructor
  · rw [h, hcount]
    simp only [Result.info, copy_info.plus]
    have e1 : wrap32 (0 + ((1 : Nat) : Int)) = 1 := by decide
    have e2 : wrap32 (0 + ((2147483648 : Nat) : Int)) = -2147483648 := by decide
    rw [e1, e2]
  · decide

/-- C15, amended: for a source that is a directory or a regular file, whose
tree has `D` directories, `F` regular files and `B` bytes in them, in a call in
which every `write` either failed, transferred nothing or transferred the
whole chunk it was given:
a `treecopy` call that returns (with success or failure) started its counters
at 0 and ends with each of them not negative and at most `D`, `F`, `B`, when
these are below `2^31`;
and every call of `recursive_directory_copy` or, on a regular file, of
`filecopy` that returns, entered with counters that are not negative and stay
below `2^31` when `D`, `F`, `B` are added, leaves each counter not smaller
than it was and grown by at most `D`, `F`, `B`. -/
theorem C15_counters_grow_within_census (source dest : Path) (src : Node) (ci : copy_info)
    (w : World) :
    (∀ ci', (src.d_type = 4 ∨ src.d_type = 8) → (⟨0, 0, 0⟩ : copy_info).room src.census →
        FullWrites ((treecopy source dest (some src) w).since w) →
        (treecopy source dest (some src) w).info = some ci' →
        (⟨0, 0, 0⟩ : copy_info).within ci' src.census) ∧
      (∀ ci', ci.room src.census →
        FullWrites ((recursive_directory_copy source dest src ci w).since w) →
        (recursive_directory_copy source dest src ci w).info = some ci' →
        ci.within ci' src.census) ∧
      (∀ ci', src.d_type = 8 → ci.room src.census →
        FullWrites ((filecopy source dest src ci w).since w) →
        (filecopy source dest src ci w).info = some ci' →
        ci.within ci' src.census) := by
  refine ⟨?_, ?_, ?_⟩
  · intro ci' hty hr hfull hi
    rcases hrun : treecopy source dest (some src) w with ⟨c, ci1, w1⟩ | ⟨c, w1⟩ | _
    · rw [hrun] at hfull hi
      simp [Result.info] at hi
      subst hi
      have hns := FullSince.of_since (treecopy_ext hrun) hfull
      rcases hty with h4 | h8
      · obtain ⟨perm, entries, rfl⟩ := d_type_eq_4 h4
        exact treecopy_growth_dir hr hns hrun
      · obtain ⟨perm, content, rfl⟩ := d_type_eq_8 h8
        exact treecopy_growth_file hr hns hrun
    · rw [hrun] at hi; simp [Result.info] at hi
    · rw [hrun] at hi; simp [Result.info] at hi
  · intro ci' hr hfull hi
    rcases hrun : recursive_directory_copy source dest src ci w with
      ⟨c, ci1, w1⟩ | ⟨c, w1⟩ | _
    · rw [hrun] at hfull hi
      simp [Result.info] at hi
      subst hi
      exact recursive_directory_copy_growth _ _ _ _ _ _ _ _ hr
        (FullSince.of_since (recursive_directory_copy_ext hrun) hfull) hrun
    · rw [hrun] at hi; simp [Result.info] at hi
    · rw [hrun] at hi; simp [Result.info] at hi
  · intro ci' h8 hr hfull hi
    obtain ⟨perm, content, rfl⟩ := d_type_eq_8 h8
    have hfcen : (Node.file perm content).census = ⟨0, 1, content.length⟩ := by
      simp [Node.census]
    rw [hfcen] at hr ⊢
    rcases hrun : filecopy source dest (.file perm content) ci w with
      ⟨c, ci1, w1⟩ | ⟨c, w1⟩ | _
    · rw [hrun] at hfull hi
      simp [Result.info] at hi
      subst hi
      exact filecopy_growth hr (FullSince.of_since (filecopy_ext hrun) hfull) hrun
    · rw [hrun] at hi; simp [Result.info] at hi
    · rw [hrun] at hi; simp [Result.info] at hi

/-- Witness of C15, amended: a tree of two directories and two files with three
bytes, whose copy succeeds, and the same tree with a failing `open` of the
second file, where `treecopy` returns failure after one file of two bytes. -/
theorem C15_witness :
    (⟨0, 0, 0⟩ : copy_info).within ⟨2, 2, 3⟩
        (Node.dir 493 [(['a'], .file 420 [1, 2]), (['.'], .dir 493 []),
          (['e'], .dir 448 [(['x'], .file 384 [7])])]).census ∧
      (⟨0, 0, 0⟩ : copy_info).within ⟨2, 1, 2⟩
        (Node.dir 493 [(['a'], .file 420 [1, 2]), (['.'], .dir 493 []),
          (['e'], .dir 448 [(['x'], .file 384 [7])])]).census :=
  ⟨(C15_counters_grow_within_census ['s'] ['d']
      (.dir 493 [(['a'], .file 420 [1, 2]), (['.'], .dir 493 []),
        (['e'], .dir 448 [(['x'], .file 384 [7])])]) ⟨0, 0, 0⟩
      (World.init [.ok, .ok, .ok, .ok, .ok, .ok, .ok, .ok, .ok, .ok, .shortRead 1, .eintr])).1
      ⟨2, 2, 3⟩ (by decide) (by decide) (by decide!) (by decide!),
    (C15_counters_grow_within_census ['s'] ['d']
      (.dir 493 [(['a'], .file 420 [1, 2]), (['.'], .dir 493 []),
        (['e'], .dir 448 [(['x'], .file 384 [7])])]) ⟨0, 0, 0⟩
      (World.init [.ok, .ok, .ok, .ok, .ok, .ok, .ok, .ok, .ok, .ok, .ok, .ok, .ok, .ok, .ok,
        .ok, .ok, .ok, .ok, .ok, .ok, .ok, .ok, .ok, .ok, .err])).1
      ⟨2, 1, 2⟩ (by decide) (by decide) (by decide!) (by decide!)⟩

/-- C16, counterexample: the source `s//`, an empty directory, copied with no
failing system call.  `treecopy` removes one `'/'` and hands `s/` to
`recursive_directory_copy`, whose `opendir` is made on `s/`: a path that still
ends in `'/'`. -/
theorem C16_counterexample_double_slash_keeps_one :
    (treecopy ['s', '/', '/'] ['d'] (some (.dir 493 [])) (World.init [])).code = some 0 ∧
      first_opendir
        (treecopy ['s', '/', '/'] ['d'] (some (.dir 493 [])) (World.init [])).calls =
          some ['s', '/'] ∧
      (['s', '/'] : Path).getLast? = some '/' := by
  decide

/-- C16, amended: for every source path that names a directory, the path of the
first `opendir` of a returning `treecopy`, which is the one of
`recursive_directory_copy` on the path handed to it, is the source with one
trailing `'/'` removed (there is no `opendir` only when the first `stat`
fails and `treecopy` returns 1).  That path is the source unchanged when the
source has no trailing `'/'`, it is the source without its last character when
it has one, and it does not end in `'/'` unless the source ends in two of
them.  After a success the summary line, the last line printed, shows the
source as it was given. -/
theorem C16_directory_path_loses_one_slash (source_file dest_file : Path) (perm : Nat)
    (entries : List (Path × Node)) (w : World) (c : Int)
    (hret : (treecopy source_file dest_file (some (.dir perm entries)) w).code = some c) :
    (first_opendir ((treecopy source_file dest_file (some (.dir perm entries)) w).since w).reverse
          = some (strip_slash source_file) ∨
        (c = 1 ∧
          first_opendir
            ((treecopy source_file dest_file (some (.dir perm entries)) w).since w).reverse =
              none)) ∧
      (c = 0 →
        first_opendir
            ((treecopy source_file dest_file (some (.dir perm entries)) w).since w).reverse =
              some (strip_slash source_file) ∧
          ∃ d f b, (treecopy source_file dest_file (some (.dir perm entries)) w).printed.getLast? =
            some (.summary d f b source_file dest_file)) ∧
      (source_file.getLast? ≠ some '/' → strip_slash source_file = source_file) ∧
      (source_file.getLast? = some '/' → strip_slash source_file ++ ['/'] = source_file) ∧
      ((source_file.getLast? = some '/' → source_file.dropLast.getLast? ≠ some '/') →
        (strip_slash source_file).getLast? ≠ some '/') := by
  rcases hr : treecopy source_file dest_file (some (.dir perm entries)) w with
    ⟨c', ci', w'⟩ | ⟨c', w'⟩ | _
  · rw [hr] at hret
    simp [Result.code] at hret
    subst hret
    obtain ⟨h1, h2⟩ := treecopy_first_opendir hr
    refine ⟨h1, fun h0 => ?_, fun hn => ?_, fun hs => ?_, fun hd => ?_⟩
    · obtain ⟨h3, h4⟩ := h2 h0
      refine ⟨h3, ci'.num_dir, ci'.num_files, ci'.num_bytes, ?_⟩
      simp only [Result.printed, Result.world, List.getLast?_reverse]
      exact h4
    · simp [strip_slash, hn]
    · simp only [strip_slash, hs, if_true]
      exact List.dropLast_append_getLast? _ (by simp [hs])
    · by_cases hs : source_file.getLast? = some '/'
      · simp only [strip_slash, hs, if_true]
        exact hd hs
      · simp only [strip_slash, hs, if_false]
        exact hs
  · rw [hr] at hret; simp [Result.code] at hret
  · rw [hr] at hret; simp [Result.code] at hret

/-- Witness of C16, amended: the source `s/`, a directory with one file. -/
theorem C16_witness :
    first_opendir
        ((treecopy ['s', '/'] ['d'] (some (.dir 493 [(['f'], .file 420 [1])]))
          (World.init [])).since (World.init [])).reverse = some (strip_slash ['s', '/']) ∧
      ∃ d f b, (treecopy ['s', '/'] ['d'] (some (.dir 493 [(['f'], .file 420 [1])]))
        (World.init [])).printed.getLast? = some (.summary d f b ['s', '/'] ['d']) :=
  (C16_directory_path_loses_one_slash ['s', '/'] ['d'] 493 [(['f'], .file 420 [1])]
    (World.init []) 0 (by decide!)).2.1 rfl

/-- C17: for every input line whose tokens `words` the tokenizer of `main`
delivers, the pass calls `treecopy` if and only if `words` is `copy` followed
by exactly two tokens, which are then its source and destination; it calls
`start_process` (alone for `start`, followed by `wait_for_specific_process`
for `run`) only when the first token is `start` or `run` and at least one more
token follows, and hands it all the tokens; with `copy`, `start` or `run` and
another number of tokens the pass prints an error line and calls nothing. -/
theorem C17_dispatcher_checks_argument_counts (input_buff : List Char) (words : List Path)
    (ht : tokenize input_buff = .words words) :
    (∀ a b, main_pass (some input_buff) = .call (.treecopy a b) ↔
        ∃ x y, words = [['c', 'o', 'p', 'y'], x, y] ∧ a = some x ∧ b = some y) ∧
      (∀ ws, main_pass (some input_buff) = .call (.start_process ws) →
        words.head? = some ['s', 't', 'a', 'r', 't'] ∧ 2 ≤ words.length ∧ ws = words) ∧
      (∀ ws, main_pass (some input_buff) = .call (.run ws) →
        words.head? = some ['r', 'u', 'n'] ∧ 2 ≤ words.length ∧ ws = words) ∧
      (words.head? = some ['c', 'o', 'p', 'y'] → words.length ≠ 3 →
        main_pass (some input_buff) = .error "Error: copy only accepts two arguments") ∧
      (words.head? = some ['s', 't', 'a', 'r', 't'] → words.length < 2 →
        main_pass (some input_buff) =
          .error "Error: start requires at least a program to run") ∧
      (words.head? = some ['r', 'u', 'n'] → words.length < 2 →
        main_pass (some input_buff) = .error "Error: run requires at least a program to run") := by
  by_cases hn : input_buff = ['\n']
  · subst hn
    rw [tokenize_newline] at ht
    cases ht
    have hskip : main_pass (some ['\n']) = .skip := by decide
    rw [hskip]
    refine ⟨fun a b => ⟨fun h => ?_, fun ⟨x, y, h, _⟩ => ?_⟩, fun ws h => ?_, fun ws h => ?_,
      fun h => ?_, fun h => ?_, fun h => ?_⟩ <;> cases h
  · rw [main_pass_words ht hn]
    refine ⟨fun a b => ⟨fun h => ?_, fun ⟨x, y, hw, ha, hb⟩ => ?_⟩, fun ws h => ?_, fun ws h => ?_,
      fun hc hl => ?_, fun hc hl => ?_, fun hc hl => ?_⟩
    · have hc := dispatch_treecopy_head h
      rw [dispatch_copy hc] at h
      split at h
      · cases h
      · next hl =>
        have hl3 : words.length = 3 := by omega
        match words, hl3, hc, h with
        | [w0, x, y], _, hc, h =>
          simp at hc
          simp at h
          exact ⟨x, y, by rw [hc], h.1.symm, h.2.symm⟩
    · subst hw ha hb
      rw [@dispatch_copy [['c', 'o', 'p', 'y'], x, y] rfl]
      simp
    · have hc := dispatch_start_head h
      rw [dispatch_start hc] at h
      split at h
      · cases h
      · next hl =>
        simp at h
        exact ⟨hc, by omega, h.symm⟩
    · have hc := dispatch_run_head h
      rw [dispatch_run hc] at h
      split at h
      · cases h
      · next hl =>
        simp at h
        exact ⟨hc, by omega, h.symm⟩
    · rw [dispatch_copy hc, if_pos hl]
    · rw [dispatch_start hc, if_pos hl]
    · rw [dispatch_run hc, if_pos hl]

/-- Witness of C17: the lines `copy a  b`, `copy a`, `start` and `run ls -l`. -/
theorem C17_witness :
    main_pass (some ['c', 'o', 'p', 'y', ' ', 'a', ' ', ' ', 'b', '\n']) =
        .call (.treecopy (some ['a']) (some ['b'])) ∧
      main_pass (some ['c', 'o', 'p', 'y', ' ', 'a', '\n']) =
        .error "Error: copy only accepts two arguments" ∧
      main_pass (some ['s', 't', 'a', 'r', 't', '\n']) =
        .error "Error: start requires at least a program to run" ∧
      (main_pass (some ['r', 'u', 'n', ' ', 'l', 's', '\t', '-', 'l', '\n']) =
          .call (.run [['r', 'u', 'n'], ['l', 's'], ['-', 'l']]) →
        [['r', 'u', 'n'], ['l', 's'], ['-', 'l']].head? = some ['r', 'u', 'n'] ∧
          2 ≤ [['r', 'u', 'n'], ['l', 's'], ['-', 'l']].length ∧
          [['r', 'u', 'n'], ['l', 's'], ['-', 'l']] = [['r', 'u', 'n'], ['l', 's'], ['-', 'l']]) :=
  ⟨((C17_dispatcher_checks_argument_counts ['c', 'o', 'p', 'y', ' ', 'a', ' ', ' ', 'b', '\n']
      [['c', 'o', 'p', 'y'], ['a'], ['b']] (by decide)).1 (some ['a']) (some ['b'])).2
      ⟨['a'], ['b'], rfl, rfl, rfl⟩,
    (C17_dispatcher_checks_argument_counts ['c', 'o', 'p', 'y', ' ', 'a', '\n']
      [['c', 'o', 'p', 'y'], ['a']] (by decide)).2.2.2.1 (by decide) (by decide),
    (C17_dispatcher_checks_argument_counts ['s', 't', 'a', 'r', 't', '\n']
      [['s', 't', 'a', 'r', 't']] (by decide)).2.2.2.2.1 (by decide) (by decide),
    (C17_dispatcher_checks_argument_counts ['r', 'u', 'n', ' ', 'l', 's', '\t', '-', 'l', '\n']
      [['r', 'u', 'n'], ['l', 's'], ['-', 'l']] (by decide)).2.2.1
      [['r', 'u', 'n'], ['l', 's'], ['-', 'l']]⟩

/-- C18: the engine of `treecopy.h` simulates the engine of `myshell.c`, for
every source, destination, state and schedule of system-call outcomes.
When `filecopy` or `recursive_directory_copy` of `myshell.c` returns 0, and
when its `treecopy` returns 0 with the summary as the last line printed, the
function of `treecopy.h` run from the same state ends with the same result: it
returns, having made the same calls and printed the same lines, with the same
`copy_info` and the same destination side.
When a function of `myshell.c` returns a non-zero value, and when its
`treecopy` returns with a diagnostic as the last line printed, the function of
`treecopy.h` has called `exit(1)` at that diagnostic: the same lines are
printed, ending with the diagnostic, and the engine of `myshell.c` has made the
same calls followed only by the `close` and `closedir` of its way back. -/
theorem C18_header_engine_simulates (source dest : Path) (node : Node) (src : Option Node)
    (ci : copy_info) (w : World) :
    ((filecopy source dest node ci w).code = some 0 →
        treecopy_h.filecopy source dest node ci w = filecopy source dest node ci w) ∧
      (∀ c, (filecopy source dest node ci w).code = some c → c ≠ 0 →
        ExitsAtDiagnostic (treecopy_h.filecopy source dest node ci w)
          (filecopy source dest node ci w)) ∧
      ((recursive_directory_copy source dest node ci w).code = some 0 →
        treecopy_h.recursive_directory_copy source dest node ci w =
          recursive_directory_copy source dest node ci w) ∧
      (∀ c, (recursive_directory_copy source dest node ci w).code = some c → c ≠ 0 →
        ExitsAtDiagnostic (treecopy_h.recursive_directory_copy source dest node ci w)
          (recursive_directory_copy source dest node ci w)) ∧
      ((treecopy source dest src w).code = some 0 →
        (∃ d f b, (treecopy source dest src w).printed.getLast? =
          some (.summary d f b source dest)) →
        treecopy_h.treecopy source dest src w = treecopy source dest src w) ∧
      (∀ c, (treecopy source dest src w).code = some c →
        (c ≠ 0 ∨ ∃ text path, (treecopy source dest src w).printed.getLast? =
          some (.diag text path)) →
        ExitsAtDiagnostic (treecopy_h.treecopy source dest src w)
          (treecopy source dest src w)) :=
  ⟨fun h => (filecopy_simulation source dest node ci w).success h,
    fun _ hc hne => (filecopy_simulation source dest node ci w).failure hc hne,
    fun h => (recursive_directory_copy_simulation source dest node ci w).success h,
    fun _ hc hne => (recursive_directory_copy_simulation source dest node ci w).failure hc hne,
    (treecopy_simulation_view source dest src w).1,
    (treecopy_simulation_view source dest src w).2⟩

/-- Witness of C18: a tree of two directories and two files whose copy
succeeds, with an interrupted `write` and a short `read`; a directory whose
first entry is a FIFO, where `recursive_directory_copy` returns 1; and a
regular file whose `open` fails, where `treecopy` of `myshell.c` returns after
the diagnostic of its `filecopy`. -/
theorem C18_witness :
    treecopy_h.treecopy ['s'] ['d']
        (some (.dir 493 [(['a'], .file 420 [1, 2]), (['.'], .dir 493 []),
          (['e'], .dir 448 [(['x'], .file 384 [7])])]))
        (World.init [.ok, .ok, .ok, .ok, .ok, .ok, .ok, .ok, .ok, .ok, .shortRead 1, .eintr]) =
      treecopy ['s'] ['d']
        (some (.dir 493 [(['a'], .file 420 [1, 2]), (['.'], .dir 493 []),
          (['e'], .dir 448 [(['x'], .file 384 [7])])]))
        (World.init [.ok, .ok, .ok, .ok, .ok, .ok, .ok, .ok, .ok, .ok, .shortRead 1, .eintr]) ∧
      ExitsAtDiagnostic
        (treecopy_h.recursive_directory_copy ['s'] ['d']
          (.dir 493 [(['p'], .other .fifo 420 []), (['z'], .file 420 [1])]) ⟨0, 0, 0⟩
          (World.init []))
        (recursive_directory_copy ['s'] ['d']
          (.dir 493 [(['p'], .other .fifo 420 []), (['z'], .file 420 [1])]) ⟨0, 0, 0⟩
          (World.init [])) ∧
      ExitsAtDiagnostic
        (treecopy_h.treecopy ['s'] ['d'] (some (.file 420 [1, 2])) (World.init [.ok, .err]))
        (treecopy ['s'] ['d'] (some (.file 420 [1, 2])) (World.init [.ok, .err])) :=
  ⟨(C18_header_engine_simulates ['s'] ['d'] (.file 420 [])
      (some (.dir 493 [(['a'], .file 420 [1, 2]), (['.'], .dir 493 []),
        (['e'], .dir 448 [(['x'], .file 384 [7])])])) ⟨0, 0, 0⟩
      (World.init [.ok, .ok, .ok, .ok, .ok, .ok, .ok, .ok, .ok, .ok, .shortRead 1, .eintr])
      ).2.2.2.2.1 (by decide!) ⟨2, 2, 3, by decide!⟩,
    (C18_header_engine_simulates ['s'] ['d']
      (.dir 493 [(['p'], .other .fifo 420 []), (['z'], .file 420 [1])]) none ⟨0, 0, 0⟩
      (World.init [])).2.2.2.1 1 (by decide) (by decide),
    (C18_header_engine_simulates ['s'] ['d'] (.file 420 []) (some (.file 420 [1, 2]))
      ⟨0, 0, 0⟩ (World.init [.ok, .err])).2.2.2.2.2 0 (by decide)
      (Or.inr ⟨"Unable to open file", ['s'], by decide⟩)⟩
/-- C19 (code bug): the line of one space and a newline is not the line `"\n"`,
so it reaches the tokenizer, which finds no token: `words[0]` is `NULL` when
`strcmp(words[0], "list")` is called.  The same holds for a line of tabs and
spaces, and for a lone space at the end of the input. -/
theorem C19_blank_line_leaves_words0_null :
    tokenize [' ', '\n'] = .words [] ∧
      main_pass (some [' ', '\n']) = .fault ∧
      main_pass (some ['\t', ' ', '\t', '\n']) = .fault ∧
      main_pass (some [' ']) = .fault ∧
      main_pass (some ['\n']) = .skip := by
  decide

end MyShell
